import Mathlib

/-!
# go2rtc `pkg/h264`: the Sequence Parameter Set decoder

A shallow embedding of `pkg/h264/sps.go` (`SPS`, `SPS.Width`, `SPS.Height`,
`DecodeSPS`) together with the bit cursor `bits.Reader` it reads with.

* bytes, `uint32` and `uint16` values are `Nat`; every arithmetic step of the
  Go code that can wrap carries its explicit `% 2 ^ 32` / `% 2 ^ 16`;
* `int32` values are `Int`;
* the cursor is threaded explicitly: a read is a function
  `Reader → α × Reader` (`Rd α`), sequenced with `>>=`.
-/

namespace H264

set_option maxRecDepth 100000

/-! ## The bit cursor (`pkg/bits`, outside `src/`) -/

/-- Modelled from the spec: the cursor type `bits.Reader` of package `pkg/bits`
(spec §3, "BitCursor"), which is not among the source files. It holds the
borrowed byte buffer, a 0-based bit position and the sticky exhaustion flag
`EOF` that `DecodeSPS` tests. A buffer entry stands for the byte made of its
low 8 bits. `ticks` is a ghost counter of the single-bit reads performed so
far; no read depends on it. -/
structure Reader where
  buf : List Nat
  pos : Nat
  EOF : Bool
  ticks : Nat
  deriving DecidableEq, Repr

/-- A read: a function from the cursor to a value and the cursor after it. -/
def Rd (α : Type) : Type := Reader → α × Reader

instance : Monad Rd where
  pure a := fun r => (a, r)
  bind m f := fun r => f (m r).1 (m r).2

/-- Modelled from the spec: `bits.NewReader`, a cursor at bit 0 of the buffer
with the exhaustion flag clear. -/
def NewReader (b : List Nat) : Reader := ⟨b, 0, false, 0⟩

/-- Bit `i` of a buffer, most significant bit of each byte first. -/
def bitAt (b : List Nat) (i : Nat) : Nat :=
  b.getD (i / 8) 0 / 2 ^ (7 - i % 8) % 2

/-- Modelled from the spec: `Reader.ReadBit` (spec §4.1 `read_bit`): the next
bit, most-significant-bit-first within each byte; on an exhausted buffer it
sets the sticky flag, returns 0 and does not advance. -/
def ReadBit : Rd Nat := fun r =>
  if r.pos < 8 * r.buf.length then
    (bitAt r.buf r.pos, { r with pos := r.pos + 1, ticks := r.ticks + 1 })
  else
    (0, { r with EOF := true, ticks := r.ticks + 1 })

/-- Modelled from the spec: `Reader.ReadBits` (spec §4.1 `read_bits(n)`): `n`
repeated single-bit reads, the first bit read becoming the most significant
bit of the result. -/
def ReadBits : Nat → Rd Nat
  | 0 => pure 0
  | n + 1 => do
    let b ← ReadBit
    let v ← ReadBits n
    pure (b * 2 ^ n + v)

/-- Modelled from the spec: `Reader.ReadByte` (spec §4.1 `read_byte`):
`read_bits(8)` narrowed to 8 bits. -/
def ReadByte : Rd Nat := do
  let v ← ReadBits 8
  pure (v % 256)

/-- The leading-zero count of an Exp-Golomb code: single-bit reads until a 1
bit is read or the cursor is exhausted; the terminating read is not counted.
`fuel` bounds the number of reads. -/
def countZeros : Nat → Rd Nat
  | 0 => pure 0
  | fuel + 1 => fun r =>
    let p := ReadBit r
    if p.1 ≠ 0 ∨ p.2.EOF = true then (0, p.2)
    else ((countZeros fuel p.2).1 + 1, (countZeros fuel p.2).2)

/-- Modelled from the spec: `Reader.ReadUEGolomb` (spec §4.1
`read_unsigned_exp_golomb`): count the leading zero bits up to the first 1
bit, read that many more bits as the suffix and return
`2 ^ leadingZeros - 1 + suffix`. The spec bounds the count only by the
buffer: counting stops at the first 1 bit or at exhaustion, which the
remaining bits plus one read always reach. The result is a `uint32` (it is
assigned to `uint32` fields of `SPS`), hence the `% 2 ^ 32`. -/
def ReadUEGolomb : Rd Nat := fun r =>
  let z := countZeros (8 * r.buf.length - r.pos + 1) r
  let s := ReadBits z.1 z.2
  ((2 ^ z.1 - 1 + s.1) % 2 ^ 32, s.2)

/-- The signed value of an unsigned Exp-Golomb code (spec §4.1): `-(k/2)` for
even `k`, `(k+1)/2` for odd `k`. -/
def seMap (k : Nat) : Int :=
  if k % 2 = 0 then -((k / 2 : Nat) : Int) else (((k + 1) / 2 : Nat) : Int)

/-- Modelled from the spec: `Reader.ReadSEGolomb` (spec §4.1
`read_signed_exp_golomb`): an unsigned Exp-Golomb read mapped to a signed
value. -/
def ReadSEGolomb : Rd Int := do
  let k ← ReadUEGolomb
  pure (seMap k)

/-! ## `sps.go` -/

/-- Modelled from the spec: the constant `NALUTypeSPS` of package `h264`,
declared outside `sps.go`: the NAL unit type tag of a Sequence Parameter Set,
7. -/
def NALUTypeSPS : Nat := 7

/-- The record `SPS` of `sps.go`, field for field. -/
structure SPS where
  profile_idc : Nat := 0
  profile_iop : Nat := 0
  level_idc : Nat := 0
  seq_parameter_set_id : Nat := 0
  chroma_format_idc : Nat := 0
  separate_colour_plane_flag : Nat := 0
  bit_depth_luma_minus8 : Nat := 0
  bit_depth_chroma_minus8 : Nat := 0
  qpprime_y_zero_transform_bypass_flag : Nat := 0
  seq_scaling_matrix_present_flag : Nat := 0
  log2_max_frame_num_minus4 : Nat := 0
  pic_order_cnt_type : Nat := 0
  log2_max_pic_order_cnt_lsb_minus4 : Nat := 0
  delta_pic_order_always_zero_flag : Nat := 0
  offset_for_non_ref_pic : Int := 0
  offset_for_top_to_bottom_field : Int := 0
  num_ref_frames_in_pic_order_cnt_cycle : Nat := 0
  num_ref_frames : Nat := 0
  gaps_in_frame_num_value_allowed_flag : Nat := 0
  pic_width_in_mbs_minus_1 : Nat := 0
  pic_height_in_map_units_minus_1 : Nat := 0
  frame_mbs_only_flag : Nat := 0
  mb_adaptive_frame_field_flag : Nat := 0
  direct_8x8_inference_flag : Nat := 0
  frame_cropping_flag : Nat := 0
  frame_crop_left_offset : Nat := 0
  frame_crop_right_offset : Nat := 0
  frame_crop_top_offset : Nat := 0
  frame_crop_bottom_offset : Nat := 0
  vui_parameters_present_flag : Nat := 0
  aspect_ratio_info_present_flag : Nat := 0
  aspect_ratio_idc : Nat := 0
  sar_width : Nat := 0
  sar_height : Nat := 0
  deriving DecidableEq, Repr

/-- Subtraction of `uint32` values, wrapping. -/
def sub32 (a b : Nat) : Nat := (a % 2 ^ 32 + 2 ^ 32 - b % 2 ^ 32) % 2 ^ 32

/-- `SPS.Width`: `uint16(16*(w+1) - 2*(left+right))` in `uint32` arithmetic. -/
def SPS.Width (s : SPS) : Nat :=
  let width := 16 * ((s.pic_width_in_mbs_minus_1 + 1) % 2 ^ 32) % 2 ^ 32
  let crop := 2 * ((s.frame_crop_left_offset + s.frame_crop_right_offset) % 2 ^ 32) % 2 ^ 32
  sub32 width crop % 2 ^ 16

/-- `SPS.Height`: as `Width`, the height doubled when `frame_mbs_only_flag`
is 0. -/
def SPS.Height (s : SPS) : Nat :=
  let height := 16 * ((s.pic_height_in_map_units_minus_1 + 1) % 2 ^ 32) % 2 ^ 32
  let crop := 2 * ((s.frame_crop_top_offset + s.frame_crop_bottom_offset) % 2 ^ 32) % 2 ^ 32
  let height := if s.frame_mbs_only_flag = 0 then height * 2 % 2 ^ 32 else height
  sub32 height crop % 2 ^ 16

/-- The `case` list of the `switch s.profile_idc` of `DecodeSPS`. -/
def highProfiles : List Nat := [100, 110, 122, 244, 44, 83, 86, 118, 128, 138, 139, 134, 135]

/-- Lines 75-80: the identification fields, in a record otherwise zero. -/
def readIdent : Rd SPS := do
  let profile_idc ← ReadByte
  let profile_iop ← ReadByte
  let level_idc ← ReadByte
  let seq_parameter_set_id ← ReadUEGolomb
  pure { profile_idc := profile_idc, profile_iop := profile_iop, level_idc := level_idc,
         seq_parameter_set_id := seq_parameter_set_id }

/-- Lines 84-96: the chroma and bit-depth fields of a high profile, with the
number `n` of scaling-list flags. -/
def readChroma (s : SPS) : Rd (SPS × Nat) := do
  let chroma_format_idc ← ReadUEGolomb
  let (separate, n) ←
    (if chroma_format_idc = 3 then ReadBit >>= fun f => pure (f, 12)
     else pure (s.separate_colour_plane_flag, 8))
  let bit_depth_luma_minus8 ← ReadUEGolomb
  let bit_depth_chroma_minus8 ← ReadUEGolomb
  let qpprime ← ReadBit
  let matrix ← ReadBit
  pure ({ s with chroma_format_idc := chroma_format_idc,
                 separate_colour_plane_flag := separate,
                 bit_depth_luma_minus8 := bit_depth_luma_minus8,
                 bit_depth_chroma_minus8 := bit_depth_chroma_minus8,
                 qpprime_y_zero_transform_bypass_flag := qpprime,
                 seq_scaling_matrix_present_flag := matrix }, n)

/-- Lines 98-103: the loop over `seq_scaling_list_present_flag[i]`; `true`
when it left through `return nil`, at the first flag that is set. -/
def readScalingFlags : Nat → Rd Bool
  | 0 => pure false
  | n + 1 => do
    let ssl ← ReadBit
    if ssl ≠ 0 then pure true else readScalingFlags n

/-- Lines 82-105: the `switch s.profile_idc`; `none` is its `return nil`. -/
def readHigh (s : SPS) : Rd (Option SPS) :=
  if s.profile_idc ∈ highProfiles then do
    let p ← readChroma s
    if p.1.seq_scaling_matrix_present_flag ≠ 0 then do
      let refused ← readScalingFlags p.2
      if refused = true then pure none else pure (some p.1)
    else
      pure (some p.1)
  else
    pure (some s)

/-- Lines 119-121: the loop over `offset_for_ref_frame[i]`, each read and
dropped. -/
def readRefFrames : Nat → Rd Unit
  | 0 => pure ()
  | n + 1 => do
    let _ ← ReadSEGolomb
    readRefFrames n

/-- Lines 107-122: `log2_max_frame_num_minus4` and the picture order count
fields. -/
def readPOC (s : SPS) : Rd SPS := do
  let log2_max_frame_num_minus4 ← ReadUEGolomb
  let pic_order_cnt_type ← ReadUEGolomb
  if pic_order_cnt_type = 0 then do
    let lsb ← ReadUEGolomb
    pure { s with log2_max_frame_num_minus4 := log2_max_frame_num_minus4,
                  pic_order_cnt_type := pic_order_cnt_type,
                  log2_max_pic_order_cnt_lsb_minus4 := lsb }
  else if pic_order_cnt_type = 1 then do
    let delta ← ReadBit
    let non_ref ← ReadSEGolomb
    let top_bottom ← ReadSEGolomb
    let cycle ← ReadUEGolomb
    readRefFrames cycle
    pure { s with log2_max_frame_num_minus4 := log2_max_frame_num_minus4,
                  pic_order_cnt_type := pic_order_cnt_type,
                  delta_pic_order_always_zero_flag := delta,
                  offset_for_non_ref_pic := non_ref,
                  offset_for_top_to_bottom_field := top_bottom,
                  num_ref_frames_in_pic_order_cnt_cycle := cycle }
  else
    pure { s with log2_max_frame_num_minus4 := log2_max_frame_num_minus4,
                  pic_order_cnt_type := pic_order_cnt_type }

/-- Lines 124-135: reference frames and the picture size in macroblocks. -/
def readFrame (s : SPS) : Rd SPS := do
  let num_ref_frames ← ReadUEGolomb
  let gaps ← ReadBit
  let width ← ReadUEGolomb
  let height ← ReadUEGolomb
  let mbs_only ← ReadBit
  let mbaff ← (if mbs_only = 0 then ReadBit else pure s.mb_adaptive_frame_field_flag)
  let direct ← ReadBit
  pure { s with num_ref_frames := num_ref_frames,
                gaps_in_frame_num_value_allowed_flag := gaps,
                pic_width_in_mbs_minus_1 := width,
                pic_height_in_map_units_minus_1 := height,
                frame_mbs_only_flag := mbs_only,
                mb_adaptive_frame_field_flag := mbaff,
                direct_8x8_inference_flag := direct }

/-- Lines 137-143: the cropping flag and the four offsets, in the order
left, right, top, bottom. -/
def readCrop (s : SPS) : Rd SPS := do
  let flag ← ReadBit
  if flag ≠ 0 then do
    let left ← ReadUEGolomb
    let right ← ReadUEGolomb
    let top ← ReadUEGolomb
    let bottom ← ReadUEGolomb
    pure { s with frame_cropping_flag := flag,
                  frame_crop_left_offset := left, frame_crop_right_offset := right,
                  frame_crop_top_offset := top, frame_crop_bottom_offset := bottom }
  else
    pure { s with frame_cropping_flag := flag }

/-- Lines 145-157: the start of the VUI, up to the sample aspect ratio. -/
def readVUI (s : SPS) : Rd SPS := do
  let vui ← ReadBit
  if vui ≠ 0 then do
    let info ← ReadBit
    if info ≠ 0 then do
      let idc ← ReadBits 8
      if idc = 255 then do
        let sw ← ReadBits 16
        let sh ← ReadBits 16
        pure { s with vui_parameters_present_flag := vui,
                      aspect_ratio_info_present_flag := info,
                      aspect_ratio_idc := idc, sar_width := sw, sar_height := sh }
      else
        pure { s with vui_parameters_present_flag := vui,
                      aspect_ratio_info_present_flag := info, aspect_ratio_idc := idc }
    else
      pure { s with vui_parameters_present_flag := vui,
                    aspect_ratio_info_present_flag := info }
  else
    pure { s with vui_parameters_present_flag := vui }

/-- How the field walk of `DecodeSPS` ends: at the `return nil` of the type
check (line 72), at the `return nil` of the scaling-list loop (line 101), or
at the end of the reads, line 159, with the record built so far. -/
inductive Outcome where
  | wrongType
  | scalingList
  | walked (s : SPS)
  deriving DecidableEq, Repr

/-- Lines 75-157 of `DecodeSPS`: the reads that follow the type check. -/
def readFields : Rd Outcome := do
  let s ← readIdent
  let high ← readHigh s
  match high with
  | none => pure Outcome.scalingList
  | some s => do
    let s ← readPOC s
    let s ← readFrame s
    let s ← readCrop s
    let s ← readVUI s
    pure (Outcome.walked s)

/-- Lines 70-157 of `DecodeSPS`: every read of the function, in order. -/
def walk : Rd Outcome := do
  let hdr ← ReadByte
  if hdr % 32 ≠ NALUTypeSPS then pure Outcome.wrongType else readFields

/-- `DecodeSPS`: the walk over a fresh cursor, then the check of `r.EOF`
(lines 159-163); `none` is the nil pointer. -/
def DecodeSPS (sps : List Nat) : Option SPS :=
  match walk (NewReader sps) with
  | (Outcome.walked s, r) => if r.EOF = true then none else some s
  | _ => none

/-! ## Properties of reads, for the statements below -/

/-- A read keeps a property of the cursor. -/
def Pres (P : Reader → Prop) {α : Type} (m : Rd α) : Prop := ∀ r, P r → P (m r).2

/-- The cursor of a walk over the buffer `b`: it is over `b`, within it, and
while the exhaustion flag is clear every single-bit read has advanced it. -/
def Inv (b : List Nat) (r : Reader) : Prop :=
  r.buf = b ∧ r.pos ≤ 8 * b.length ∧ (r.EOF = false → r.ticks = r.pos)

/-- The cursor `r'` is the cursor `r` over the buffer of `r` followed by
the bytes `t`. -/
def Ext (t : List Nat) (r r' : Reader) : Prop :=
  r'.buf = r.buf ++ t ∧ r'.pos = r.pos ∧ r'.EOF = r.EOF ∧ r'.ticks = r.ticks

/-- A read that keeps the exhaustion flag once set and that, when it ends
with the flag clear, returns the same value and reaches the same position
over every extension of the buffer. -/
def Good {α : Type} (m : Rd α) : Prop :=
  Pres (fun r => r.EOF = true) m ∧
  ∀ t r r', Ext t r r' → (m r).2.EOF = false → (m r').1 = (m r).1 ∧ Ext t (m r).2 (m r').2

/-- The cursor after `DecodeSPS` has read the header byte of `b`. -/
def afterHeader (b : List Nat) : Reader := (ReadByte (NewReader b)).2

/-- The identification fields of `b` and the cursor after them. -/
def identOf (b : List Nat) : SPS × Reader := readIdent (afterHeader b)

/-- The chroma and bit-depth fields of `b` read as for a high profile, the
number of scaling-list flags and the cursor after
`seq_scaling_matrix_present_flag`. -/
def chromaOf (b : List Nat) : (SPS × Nat) × Reader :=
  readChroma (identOf b).1 (identOf b).2

/-- The scaling-list refusal: the profile is a high profile, the decoded
`seq_scaling_matrix_present_flag` is 1 and one of the `n` per-entry flag
bits that follow it in the buffer is 1. -/
def scalingRefused (b : List Nat) : Prop :=
  (identOf b).1.profile_idc ∈ highProfiles ∧
  (chromaOf b).1.1.seq_scaling_matrix_present_flag = 1 ∧
  ∃ i, i < (chromaOf b).1.2 ∧ (chromaOf b).2.pos + i < 8 * b.length ∧
    bitAt b ((chromaOf b).2.pos + i) = 1

/-- A valid Baseline SPS (profile 66, level 30) of 10 bytes: 20 by 47
macroblocks with cropping, 320 by 742 after cropping; its walk ends at
bit 78. -/
def spsBaseline : List Nat := [0x67, 0x42, 0x00, 0x1e, 0xab, 0x40, 0xa0, 0x2f, 0xf9, 0x50]

/-- A picture parameter set (NAL unit type 8). -/
def ppsUnit : List Nat := [0x68, 0xce, 0x3c, 0x80]

/-- A High profile SPS (profile 100) whose `seq_scaling_matrix_present_flag`
(bit 39)
is 1 and whose first per-entry flag (bit 40) is 1. -/
def spsScaling : List Nat := [0x67, 0x64, 0x00, 0x1e, 0xad, 0xe0, 0x00, 0x00]

/-- The Baseline SPS followed by one more byte, as when the rest of a VUI
or trailing bits follow the last field the walk reads. -/
def spsTrailing : List Nat := spsBaseline ++ [0x80]

/-- A record of 80 by 45 macroblocks, frames only, cropped by 4 at the top
and at the bottom: 1280 by 704. -/
def rec720 : SPS :=
  { pic_width_in_mbs_minus_1 := 79, pic_height_in_map_units_minus_1 := 44,
    frame_mbs_only_flag := 1, frame_cropping_flag := 1,
    frame_crop_top_offset := 4, frame_crop_bottom_offset := 4 }

/-! ## Encodings, for the round-trip and end-to-end statements -/

/-- The `n` low bits of `v`, most significant first. -/
def toBits : Nat → Nat → List Nat
  | 0, _ => []
  | n + 1, v => (v / 2 ^ n % 2) :: toBits n v

/-- The number of halvings that take `n` below 2, at most `fuel` of them:
`floor (log2 n)` for `1 ≤ n ≤ fuel`. -/
def log2Fuel : Nat → Nat → Nat
  | 0, _ => 0
  | fuel + 1, n => if n < 2 then 0 else log2Fuel fuel (n / 2) + 1

/-- The number `z = floor (log2 (k + 1))` of leading zeros of the Exp-Golomb
code of `k`. -/
def ueZeros (k : Nat) : Nat := log2Fuel (k + 1) (k + 1)

/-- The standard unsigned Exp-Golomb code of `k`: `z` zero bits, a 1 bit,
then the `z` low bits of `k + 1`, most significant first. -/
def ueEncode (k : Nat) : List Nat :=
  List.replicate (ueZeros k) 0 ++ 1 :: toBits (ueZeros k) (k + 1)

/-- Byte `j` of a bit string, missing bits read as 0. -/
def byteOfBits (l : List Nat) (j : Nat) : Nat :=
  128 * l.getD (8 * j) 0 + 64 * l.getD (8 * j + 1) 0 + 32 * l.getD (8 * j + 2) 0 +
    16 * l.getD (8 * j + 3) 0 + 8 * l.getD (8 * j + 4) 0 + 4 * l.getD (8 * j + 5) 0 +
    2 * l.getD (8 * j + 6) 0 + l.getD (8 * j + 7) 0

/-- A bit string packed into bytes, most significant bit first, zero-padded
to a byte boundary. -/
def packBits (l : List Nat) : List Nat :=
  (List.range ((l.length + 7) / 8)).map (byteOfBits l)

/-- The cursor `r` has its exhaustion flag clear and the bits `l` lie at it,
inside the buffer. -/
def Holds (r : Reader) (l : List Nat) : Prop :=
  r.EOF = false ∧ r.pos + l.length ≤ 8 * r.buf.length ∧
    ∀ i, i < l.length → bitAt r.buf (r.pos + i) = l.getD i 0

/-- The cursor `r` after `n` single-bit reads inside the buffer. -/
def adv (r : Reader) (n : Nat) : Reader :=
  { r with pos := r.pos + n, ticks := r.ticks + n }

/-- The read `m` decodes the code `l` to `v`: wherever `l` lies at the
cursor, `m` returns `v` and advances by the length of `l`. -/
def Reads {α : Type} (m : Rd α) (l : List Nat) (v : α) : Prop :=
  ∀ r rest, Holds r (l ++ rest) → m r = (v, adv r l.length)

instance (r : Reader) (l : List Nat) : Decidable (Holds r l) := by
  unfold Holds
  infer_instance

/-- The four bytes that hold the Exp-Golomb code of 10000 (13 zero bits, a
1 bit, 13 suffix bits), zero-padded. -/
def ueBuf10000 : List Nat := [0x00, 0x04, 0xe2, 0x20]

/-- A Baseline SPS with `pic_order_cnt_type` 1: after the type come the delta
flag 0, the signed codes 2 and 3 (the two offsets), the cycle count 1 and
one per-cycle signed code 4. -/
def spsPoc1 : List Nat := [0x67, 0x42, 0x00, 0x1e, 0xd1, 0x91, 0x15, 0x02, 0x83, 0xf0]

/-- The field values of a synthetic SPS without VUI: a profile outside the
high profiles, `pic_order_cnt_type` 0, `frame_mbs_only_flag` 1. -/
structure Layout where
  profile : Nat
  iop : Nat
  level : Nat
  id : Nat
  log2 : Nat
  lsb : Nat
  refs : Nat
  gaps : Nat
  w : Nat
  h : Nat
  direct : Nat
  deriving DecidableEq, Repr

/-- The values fit their encodings: three bytes, the profile not a high
profile, the Exp-Golomb fields below `2^32 - 1`, the flags bits. -/
def Layout.ok (L : Layout) : Prop :=
  L.profile < 256 ∧ L.profile ∉ highProfiles ∧ L.iop < 256 ∧ L.level < 256 ∧
  L.id + 1 < 2 ^ 32 ∧ L.log2 + 1 < 2 ^ 32 ∧ L.lsb + 1 < 2 ^ 32 ∧ L.refs + 1 < 2 ^ 32 ∧
  L.gaps ≤ 1 ∧ L.direct ≤ 1

instance (L : Layout) : Decidable L.ok := by
  unfold Layout.ok
  infer_instance

/-- The bits of the synthetic SPS from the header byte `0x67` to
`direct_8x8_inference_flag`, in walk order. -/
def Layout.bits (L : Layout) : List Nat :=
  toBits 8 0x67 ++ (toBits 8 L.profile ++ (toBits 8 L.iop ++ (toBits 8 L.level ++
    (ueEncode L.id ++ (ueEncode L.log2 ++ (ueEncode 0 ++ (ueEncode L.lsb ++
      (ueEncode L.refs ++ ([L.gaps] ++ (ueEncode L.w ++ (ueEncode L.h ++
        ([1] ++ [L.direct]))))))))))))

/-- The synthetic SPS without cropping: `frame_cropping_flag` 0, then
`vui_parameters_present_flag` 0, zero-padded to a byte boundary. -/
def Layout.encode (L : Layout) : List Nat :=
  packBits (L.bits ++ ([0] ++ [0]))

/-- The synthetic SPS with cropping: `frame_cropping_flag` 1, the four
offsets in the order left, right, top, bottom, then
`vui_parameters_present_flag` 0, zero-padded to a byte boundary. -/
def Layout.encodeCrop (L : Layout) (l r t b : Nat) : List Nat :=
  packBits (L.bits ++ ([1] ++ (ueEncode l ++ (ueEncode r ++ (ueEncode t ++
    (ueEncode b ++ [0]))))))

/-- The record the synthetic SPS without cropping stands for. -/
def Layout.record (L : Layout) : SPS :=
  { profile_idc := L.profile, profile_iop := L.iop, level_idc := L.level,
    seq_parameter_set_id := L.id, log2_max_frame_num_minus4 := L.log2,
    pic_order_cnt_type := 0, log2_max_pic_order_cnt_lsb_minus4 := L.lsb,
    num_ref_frames := L.refs, gaps_in_frame_num_value_allowed_flag := L.gaps,
    pic_width_in_mbs_minus_1 := L.w, pic_height_in_map_units_minus_1 := L.h,
    frame_mbs_only_flag := 1, direct_8x8_inference_flag := L.direct }

/-- The record the synthetic SPS with cropping stands for. -/
def Layout.recordCrop (L : Layout) (l r t b : Nat) : SPS :=
  { L.record with frame_cropping_flag := 1, frame_crop_left_offset := l,
                  frame_crop_right_offset := r, frame_crop_top_offset := t,
                  frame_crop_bottom_offset := b }

/-- The 720p layout: Baseline profile, level 3.1, 80 by 45 macroblocks. -/
def layout720 : Layout :=
  { profile := 66, iop := 0xc0, level := 31, id := 0, log2 := 0, lsb := 2, refs := 1,
    gaps := 0, w := 79, h := 44, direct := 1 }

/-! ## Sequences of reads, for the sticky exhaustion statement -/

/-- The cursor has run past the end of its buffer: the flag is set and the
position is at the end. -/
def Exhausted (r : Reader) : Prop := r.EOF = true ∧ 8 * r.buf.length ≤ r.pos

/-- The flag of a cursor is set only at the end of its buffer. -/
def FlagAtEnd (r : Reader) : Prop := r.EOF = true → 8 * r.buf.length ≤ r.pos

/-- The reads of the cursor: one bit, `n` bits, a byte, an unsigned and a
signed Exp-Golomb code. -/
inductive Op where
  | bit
  | bits (n : Nat)
  | byte
  | ue
  | se
  deriving DecidableEq, Repr

/-- The read an `Op` stands for, its value as an integer. -/
def Op.run : Op → Rd Int
  | Op.bit => ReadBit >>= fun v => pure (v : Int)
  | Op.bits n => ReadBits n >>= fun v => pure (v : Int)
  | Op.byte => ReadByte >>= fun v => pure (v : Int)
  | Op.ue => ReadUEGolomb >>= fun v => pure (v : Int)
  | Op.se => ReadSEGolomb

/-- A sequence of reads, with the values they return in order. -/
def runOps : List Op → Rd (List Int)
  | [] => pure []
  | o :: os => o.run >>= fun v => runOps os >>= fun vs => pure (v :: vs)

/-- A Baseline SPS of one macroblock (`pic_width_in_mbs_minus_1` and
`pic_height_in_map_units_minus_1` 0) with `frame_crop_left_offset` 9 and
`frame_crop_top_offset` 9: the crop, 18, exceeds the 16 samples. -/
def spsUnderflow : List Nat := [0x67, 0x42, 0x00, 0x1e, 0xf4, 0xf8, 0xa8, 0xa8]

/-- The record `spsUnderflow` decodes to. -/
def recUnderflow : SPS :=
  { profile_idc := 66, level_idc := 30, num_ref_frames := 1, frame_mbs_only_flag := 1,
    direct_8x8_inference_flag := 1, frame_cropping_flag := 1,
    frame_crop_left_offset := 9, frame_crop_top_offset := 9 }

/-! ## Two cursors read in step -/

/-- The cursors are at the same place of buffers of the same length. -/
def SamePlace (r r' : Reader) : Prop :=
  r'.buf.length = r.buf.length ∧ r'.pos = r.pos ∧ r'.EOF = r.EOF ∧ r'.ticks = r.ticks

/-- The cursors are at the same bit with the same flag and read count, the
second over a buffer that is not longer. -/
def SameBit (r r' : Reader) : Prop :=
  r'.buf.length ≤ r.buf.length ∧ r'.pos = r.pos ∧ r'.EOF = r.EOF ∧ r'.ticks = r.ticks

/-- The cursors are at the same place and their buffers agree from the
position on. -/
def Fut (r r' : Reader) : Prop :=
  SamePlace r r' ∧ ∀ i, r.pos ≤ i → bitAt r'.buf i = bitAt r.buf i

/-- The cursors are at the same place and their buffers agree below bit `p`. -/
def Pre (p : Nat) (r r' : Reader) : Prop :=
  SamePlace r r' ∧ ∀ i, i < p → bitAt r'.buf i = bitAt r.buf i

/-- The cursor has not run out and has not passed bit `p`. -/
def Within (p : Nat) (r : Reader) : Prop := r.EOF = false ∧ r.pos ≤ p

/-- The cursor `r` is the cursor `r'` over the buffer of `r'` followed by the
bytes `t`. -/
def Cut (t : List Nat) (r r' : Reader) : Prop :=
  r.buf = r'.buf ++ t ∧ r'.pos = r.pos ∧ r'.EOF = r.EOF ∧ r'.ticks = r.ticks

/-- The cursor has not run out and has not reached the last `t.length` bytes
of its buffer. -/
def Inside (t : List Nat) (r : Reader) : Prop :=
  r.EOF = false ∧ r.pos + 8 * t.length ≤ 8 * r.buf.length

/-- The read `m` keeps two cursors related by `R` in step, with the same
value, whenever it leaves the first one in a state `C`; and a cursor out of
`C` stays out of it. -/
def Simul (R : Reader → Reader → Prop) (C : Reader → Prop) {α : Type} (m : Rd α) : Prop :=
  Pres (fun r => ¬ C r) m ∧
  ∀ r r', R r r' → C (m r).2 → (m r').1 = (m r).1 ∧ R (m r).2 (m r').2

/-! ## The record by groups of fields -/

/-- The identification fields. -/
def SPS.gIdent (s : SPS) : Nat × Nat × Nat × Nat :=
  (s.profile_idc, s.profile_iop, s.level_idc, s.seq_parameter_set_id)

/-- The chroma and bit-depth fields, written by lines 86-96. -/
def SPS.gChroma (s : SPS) : Nat × Nat × Nat × Nat × Nat × Nat :=
  (s.chroma_format_idc, s.separate_colour_plane_flag, s.bit_depth_luma_minus8,
    s.bit_depth_chroma_minus8, s.qpprime_y_zero_transform_bypass_flag,
    s.seq_scaling_matrix_present_flag)

/-- The frame number and picture order count fields, written by lines
107-118. -/
def SPS.gPOC (s : SPS) : Nat × Nat × Nat × Nat × Int × Int × Nat :=
  (s.log2_max_frame_num_minus4, s.pic_order_cnt_type, s.log2_max_pic_order_cnt_lsb_minus4,
    s.delta_pic_order_always_zero_flag, s.offset_for_non_ref_pic,
    s.offset_for_top_to_bottom_field, s.num_ref_frames_in_pic_order_cnt_cycle)

/-- The reference frame and picture size fields, written by lines 124-135. -/
def SPS.gFrame (s : SPS) : Nat × Nat × Nat × Nat × Nat × Nat × Nat :=
  (s.num_ref_frames, s.gaps_in_frame_num_value_allowed_flag, s.pic_width_in_mbs_minus_1,
    s.pic_height_in_map_units_minus_1, s.frame_mbs_only_flag,
    s.mb_adaptive_frame_field_flag, s.direct_8x8_inference_flag)

/-- The cropping fields, written by lines 137-142. -/
def SPS.gCrop (s : SPS) : Nat × Nat × Nat × Nat × Nat :=
  (s.frame_cropping_flag, s.frame_crop_left_offset, s.frame_crop_right_offset,
    s.frame_crop_top_offset, s.frame_crop_bottom_offset)

/-- The VUI fields, written by lines 145-152. -/
def SPS.gVUI (s : SPS) : Nat × Nat × Nat × Nat × Nat :=
  (s.vui_parameters_present_flag, s.aspect_ratio_info_present_flag, s.aspect_ratio_idc,
    s.sar_width, s.sar_height)

/-- The record after the picture order count fields, from the record `s` and
cursor `r` the `switch` of line 82 leaves. -/
def pocOf (s : SPS) (r : Reader) : SPS × Reader := readPOC s r

/-- The record after the picture size fields. -/
def frameOf (s : SPS) (r : Reader) : SPS × Reader :=
  readFrame (pocOf s r).1 (pocOf s r).2

/-- The record after the cropping fields. -/
def cropOf (s : SPS) (r : Reader) : SPS × Reader :=
  readCrop (frameOf s r).1 (frameOf s r).2

/-- The record after the VUI fields: the end of the walk. -/
def vuiOf (s : SPS) (r : Reader) : SPS × Reader :=
  readVUI (cropOf s r).1 (cropOf s r).2

/-- The conditional-field invariant of a decoded record. -/
def SPS.Conditional (s : SPS) : Prop :=
  (s.frame_cropping_flag = 0 →
    s.frame_crop_left_offset = 0 ∧ s.frame_crop_right_offset = 0 ∧
    s.frame_crop_top_offset = 0 ∧ s.frame_crop_bottom_offset = 0) ∧
  (s.frame_mbs_only_flag ≠ 0 → s.mb_adaptive_frame_field_flag = 0) ∧
  (s.pic_order_cnt_type ≠ 0 → s.log2_max_pic_order_cnt_lsb_minus4 = 0) ∧
  (s.pic_order_cnt_type ≠ 1 →
    s.delta_pic_order_always_zero_flag = 0 ∧ s.offset_for_non_ref_pic = 0 ∧
    s.offset_for_top_to_bottom_field = 0 ∧ s.num_ref_frames_in_pic_order_cnt_cycle = 0) ∧
  (s.vui_parameters_present_flag = 0 ∨ s.aspect_ratio_info_present_flag = 0 →
    s.aspect_ratio_idc = 0 ∧ s.sar_width = 0 ∧ s.sar_height = 0) ∧
  (s.aspect_ratio_idc ≠ 255 → s.sar_width = 0 ∧ s.sar_height = 0) ∧
  (s.separate_colour_plane_flag ≤ 1 ∧ s.qpprime_y_zero_transform_bypass_flag ≤ 1 ∧
    s.seq_scaling_matrix_present_flag ≤ 1 ∧ s.delta_pic_order_always_zero_flag ≤ 1 ∧
    s.gaps_in_frame_num_value_allowed_flag ≤ 1 ∧ s.frame_mbs_only_flag ≤ 1 ∧
    s.mb_adaptive_frame_field_flag ≤ 1 ∧ s.direct_8x8_inference_flag ≤ 1 ∧
    s.frame_cropping_flag ≤ 1 ∧ s.vui_parameters_present_flag ≤ 1 ∧
    s.aspect_ratio_info_present_flag ≤ 1)

/-- The invariant on the chroma group: its three flags are bits. -/
def condChroma (g : Nat × Nat × Nat × Nat × Nat × Nat) : Prop :=
  g.2.1 ≤ 1 ∧ g.2.2.2.2.1 ≤ 1 ∧ g.2.2.2.2.2 ≤ 1

/-- The invariant on the picture order count group. -/
def condPOC (g : Nat × Nat × Nat × Nat × Int × Int × Nat) : Prop :=
  (g.2.1 ≠ 0 → g.2.2.1 = 0) ∧
  (g.2.1 ≠ 1 → g.2.2.2.1 = 0 ∧ g.2.2.2.2.1 = 0 ∧ g.2.2.2.2.2.1 = 0 ∧ g.2.2.2.2.2.2 = 0) ∧
  g.2.2.2.1 ≤ 1

/-- The invariant on the picture size group. -/
def condFrame (g : Nat × Nat × Nat × Nat × Nat × Nat × Nat) : Prop :=
  (g.2.2.2.2.1 ≠ 0 → g.2.2.2.2.2.1 = 0) ∧
  g.2.1 ≤ 1 ∧ g.2.2.2.2.1 ≤ 1 ∧ g.2.2.2.2.2.1 ≤ 1 ∧ g.2.2.2.2.2.2 ≤ 1

/-- The invariant on the cropping group. -/
def condCrop (g : Nat × Nat × Nat × Nat × Nat) : Prop :=
  (g.1 = 0 → g.2.1 = 0 ∧ g.2.2.1 = 0 ∧ g.2.2.2.1 = 0 ∧ g.2.2.2.2 = 0) ∧ g.1 ≤ 1

/-- The invariant on the VUI group. -/
def condVUI (g : Nat × Nat × Nat × Nat × Nat) : Prop :=
  (g.1 = 0 ∨ g.2.1 = 0 → g.2.2.1 = 0 ∧ g.2.2.2.1 = 0 ∧ g.2.2.2.2 = 0) ∧
  (g.2.2.1 ≠ 255 → g.2.2.2.1 = 0 ∧ g.2.2.2.2 = 0) ∧ g.1 ≤ 1 ∧ g.2.1 ≤ 1

/-- A High profile SPS (profile 100) with `chroma_format_idc` 1 and
`seq_scaling_matrix_present_flag` 1 (bit 39): the eight per-entry flags
(bits 40 to 47) are 0 and the bit after them (bit 48) is 1. -/
def spsFlags8 : List Nat := [0x67, 0x64, 0x00, 0x1e, 0xad, 0x00, 0xf0, 0x50, 0x7e, 0x00]

/-- The same fields with `chroma_format_idc` 3: `separate_colour_plane_flag`
is bit 38, `seq_scaling_matrix_present_flag` bit 42, and of the twelve
per-entry flags (bits 43 to 54) the ninth (bit 51) is 1. -/
def spsFlags12 : List Nat := [0x67, 0x64, 0x00, 0x1e, 0x91, 0xa0, 0x1e, 0x0a, 0x0f, 0xc0]

/-! ## The picture order count branch -/

/-- The values read up to `num_ref_frames_in_pic_order_cnt_cycle` on the path
of `pic_order_cnt_type` 1: the header byte, the result of the profile
`switch` and the fields of lines 107-117. -/
structure CycleReads where
  hdr : Nat
  high : Option SPS
  log2_max_frame_num_minus4 : Nat
  pic_order_cnt_type : Nat
  delta_pic_order_always_zero_flag : Nat
  offset_for_non_ref_pic : Int
  offset_for_top_to_bottom_field : Int
  num_ref_frames_in_pic_order_cnt_cycle : Nat
  deriving DecidableEq, Repr

/-- Lines 70-117 on the path of `pic_order_cnt_type` 1: the reads of
`DecodeSPS` from the header byte to `num_ref_frames_in_pic_order_cnt_cycle`,
in order. -/
def readToCycle : Rd CycleReads := do
  let hdr ← ReadByte
  let s ← readIdent
  let high ← readHigh s
  let log2_max_frame_num_minus4 ← ReadUEGolomb
  let pic_order_cnt_type ← ReadUEGolomb
  let delta ← ReadBit
  let non_ref ← ReadSEGolomb
  let top_bottom ← ReadSEGolomb
  let cycle ← ReadUEGolomb
  pure { hdr := hdr, high := high, log2_max_frame_num_minus4 := log2_max_frame_num_minus4,
         pic_order_cnt_type := pic_order_cnt_type,
         delta_pic_order_always_zero_flag := delta,
         offset_for_non_ref_pic := non_ref,
         offset_for_top_to_bottom_field := top_bottom,
         num_ref_frames_in_pic_order_cnt_cycle := cycle }

/-- The values read from `b` up to the cycle count and the cursor at the
first per-cycle offset. -/
def cycleOf (b : List Nat) : CycleReads × Reader := readToCycle (NewReader b)

/-- The cursor after the loop of lines 118-120 over the per-cycle offsets of
`b`. -/
def afterCycle (b : List Nat) : Reader :=
  (readRefFrames (cycleOf b).1.num_ref_frames_in_pic_order_cnt_cycle (cycleOf b).2).2

/-- The record `s` with the picture order count fields of type 1 written
from the values read. -/
def pocRecord (s : SPS) (t : CycleReads) : SPS :=
  { s with log2_max_frame_num_minus4 := t.log2_max_frame_num_minus4,
           pic_order_cnt_type := t.pic_order_cnt_type,
           delta_pic_order_always_zero_flag := t.delta_pic_order_always_zero_flag,
           offset_for_non_ref_pic := t.offset_for_non_ref_pic,
           offset_for_top_to_bottom_field := t.offset_for_top_to_bottom_field,
           num_ref_frames_in_pic_order_cnt_cycle := t.num_ref_frames_in_pic_order_cnt_cycle }

/-- The record and cursor after lines 124-157, from the record `s` and the
cursor `q` after the picture order count fields. -/
def tailOf (s : SPS) (q : Reader) : SPS × Reader :=
  (readFrame s >>= fun s => readCrop s >>= fun s => readVUI s) q

/-- The buffer `spsPoc1` with the per-cycle signed code 5 (bits 49 to 53) in
the place of the code 4. -/
def spsPoc1b : List Nat := [0x67, 0x42, 0x00, 0x1e, 0xd1, 0x91, 0x19, 0x02, 0x83, 0xf0]

/-! ## The work of a walk -/

/-- The read `m` never moves the cursor back and makes at most `k`
single-bit reads more than twice the number of bits it advances by. -/
def Cost (k : Nat) {α : Type} (m : Rd α) : Prop :=
  ∀ r, r.pos ≤ (m r).2.pos ∧ (m r).2.ticks + 2 * r.pos ≤ r.ticks + 2 * (m r).2.pos + k

/-- The cycle count of the record a walk ended with, 0 for a walk that left
through a `return nil`. -/
def Outcome.cycle : Outcome → Nat
  | Outcome.walked s => s.num_ref_frames_in_pic_order_cnt_cycle
  | _ => 0

/-- A Baseline SPS of 7 bytes (56 bits) cut short after
`num_ref_frames_in_pic_order_cnt_cycle`: `pic_order_cnt_type` 1 and a cycle
count of 100, its code ending at bit 53. -/
def spsCycle : List Nat := [0x67, 0x42, 0x00, 0x1e, 0xd3, 0x03, 0x28]

/-- The cursor at `bit_depth_luma_minus8` (line 92) when the chroma group is
read from `r`: after `chroma_format_idc` and, when that is 3, after
`separate_colour_plane_flag`. -/
def lumaCursor (r : Reader) : Reader :=
  if (ReadUEGolomb r).1 = 3 then (ReadBit (ReadUEGolomb r).2).2 else (ReadUEGolomb r).2

/-! ## Properties kept along a walk -/

@[simp] theorem Rd.bind_apply {α β : Type} (m : Rd α) (f : α → Rd β) (r : Reader) :
    (m >>= f) r = f (m r).1 (m r).2 := rfl

@[simp] theorem Rd.pure_apply {α : Type} (a : α) (r : Reader) :
    (pure a : Rd α) r = (a, r) := rfl

theorem pres_pure {P : Reader → Prop} {α : Type} (a : α) : Pres P (pure a : Rd α) :=
  fun _ h => h

theorem pres_apply {P : Reader → Prop} {α : Type} {m : Rd α} (h : Pres P m) (r : Reader)
    (hr : P r) : P (m r).2 := h r hr

theorem pres_bind {P : Reader → Prop} {α β : Type} {m : Rd α} {f : α → Rd β}
    (hm : Pres P m) (hf : ∀ a, Pres P (f a)) : Pres P (m >>= f) :=
  fun r h => hf (m r).1 (m r).2 (hm r h)

theorem pres_ReadBits {P : Reader → Prop} (h : Pres P ReadBit) (n : Nat) : Pres P (ReadBits n) := by
  induction n with
  | zero => exact pres_pure 0
  | succ n ih => exact pres_bind h (fun _ => pres_bind ih (fun _ => pres_pure _))

theorem pres_ReadByte {P : Reader → Prop} (h : Pres P ReadBit) : Pres P ReadByte :=
  pres_bind (pres_ReadBits h 8) (fun _ => pres_pure _)

theorem pres_countZeros {P : Reader → Prop} (h : Pres P ReadBit) (n : Nat) :
    Pres P (countZeros n) := by
  induction n with
  | zero => exact pres_pure 0
  | succ n ih =>
    intro r hr
    simp only [H264.countZeros]
    split
    · exact h r hr
    · exact ih _ (h r hr)

theorem pres_ReadUEGolomb {P : Reader → Prop} (h : Pres P ReadBit) : Pres P ReadUEGolomb :=
  fun r hr => pres_ReadBits h _ _ (pres_countZeros h _ r hr)

theorem pres_ReadSEGolomb {P : Reader → Prop} (h : Pres P ReadBit) : Pres P ReadSEGolomb :=
  pres_bind (pres_ReadUEGolomb h) (fun _ => pres_pure _)

theorem pres_readRefFrames {P : Reader → Prop} (h : Pres P ReadBit) (n : Nat) :
    Pres P (readRefFrames n) := by
  induction n with
  | zero => exact pres_pure ()
  | succ n ih => exact pres_bind (pres_ReadSEGolomb h) (fun _ => ih)

theorem pres_readScalingFlags {P : Reader → Prop} (h : Pres P ReadBit) (n : Nat) :
    Pres P (readScalingFlags n) := by
  induction n with
  | zero => exact pres_pure false
  | succ n ih =>
    refine pres_bind h (fun b => ?_)
    split
    · exact pres_pure _
    · exact ih

theorem pres_readIdent {P : Reader → Prop} (h : Pres P ReadBit)  :
    Pres P readIdent := by
  unfold H264.readIdent
  repeat with_reducible first
    | exact pres_pure _
    | exact pres_ReadByte h
    | exact pres_ReadUEGolomb h
    | exact pres_ReadSEGolomb h
    | exact pres_ReadBits h _
    | exact pres_readRefFrames h _
    | exact pres_readScalingFlags h _
    | exact h
    | refine pres_bind ?_ (fun _ => ?_)
    | split

theorem pres_readChroma {P : Reader → Prop} (h : Pres P ReadBit) (s : SPS) :
    Pres P (readChroma s) := by
  unfold H264.readChroma
  repeat with_reducible first
    | exact pres_pure _
    | exact pres_ReadByte h
    | exact pres_ReadUEGolomb h
    | exact pres_ReadSEGolomb h
    | exact pres_ReadBits h _
    | exact pres_readRefFrames h _
    | exact pres_readScalingFlags h _
    | exact h
    | refine pres_bind ?_ (fun _ => ?_)
    | split

theorem pres_readHigh {P : Reader → Prop} (h : Pres P ReadBit) (s : SPS) :
    Pres P (readHigh s) := by
  unfold H264.readHigh
  repeat with_reducible first
    | exact pres_pure _
    | exact pres_ReadByte h
    | exact pres_ReadUEGolomb h
    | exact pres_ReadSEGolomb h
    | exact pres_ReadBits h _
    | exact pres_readRefFrames h _
    | exact pres_readScalingFlags h _
    | exact h
    | refine pres_bind ?_ (fun _ => ?_)
    | split
    | exact pres_readChroma h _

theorem pres_readPOC {P : Reader → Prop} (h : Pres P ReadBit) (s : SPS) :
    Pres P (readPOC s) := by
  unfold H264.readPOC
  repeat with_reducible first
    | exact pres_pure _
    | exact pres_ReadByte h
    | exact pres_ReadUEGolomb h
    | exact pres_ReadSEGolomb h
    | exact pres_ReadBits h _
    | exact pres_readRefFrames h _
    | exact pres_readScalingFlags h _
    | exact h
    | refine pres_bind ?_ (fun _ => ?_)
    | split

theorem pres_readFrame {P : Reader → Prop} (h : Pres P ReadBit) (s : SPS) :
    Pres P (readFrame s) := by
  unfold H264.readFrame
  repeat with_reducible first
    | exact pres_pure _
    | exact pres_ReadByte h
    | exact pres_ReadUEGolomb h
    | exact pres_ReadSEGolomb h
    | exact pres_ReadBits h _
    | exact pres_readRefFrames h _
    | exact pres_readScalingFlags h _
    | exact h
    | refine pres_bind ?_ (fun _ => ?_)
    | split

theorem pres_readCrop {P : Reader → Prop} (h : Pres P ReadBit) (s : SPS) :
    Pres P (readCrop s) := by
  unfold H264.readCrop
  repeat with_reducible first
    | exact pres_pure _
    | exact pres_ReadByte h
    | exact pres_ReadUEGolomb h
    | exact pres_ReadSEGolomb h
    | exact pres_ReadBits h _
    | exact pres_readRefFrames h _
    | exact pres_readScalingFlags h _
    | exact h
    | refine pres_bind ?_ (fun _ => ?_)
    | split

theorem pres_readVUI {P : Reader → Prop} (h : Pres P ReadBit) (s : SPS) :
    Pres P (readVUI s) := by
  unfold H264.readVUI
  repeat with_reducible first
    | exact pres_pure _
    | exact pres_ReadByte h
    | exact pres_ReadUEGolomb h
    | exact pres_ReadSEGolomb h
    | exact pres_ReadBits h _
    | exact pres_readRefFrames h _
    | exact pres_readScalingFlags h _
    | exact h
    | refine pres_bind ?_ (fun _ => ?_)
    | split

theorem pres_readFields {P : Reader → Prop} (h : Pres P ReadBit) : Pres P readFields := by
  unfold H264.readFields
  repeat with_reducible first
    | exact pres_pure _
    | exact pres_readIdent h
    | exact pres_readHigh h _
    | exact pres_readPOC h _
    | exact pres_readFrame h _
    | exact pres_readCrop h _
    | exact pres_readVUI h _
    | refine pres_bind ?_ (fun _ => ?_)
    | split

theorem pres_walk {P : Reader → Prop} (h : Pres P ReadBit) : Pres P walk := by
  unfold H264.walk
  refine pres_bind (pres_ReadByte h) (fun _ => ?_)
  split
  · exact pres_pure _
  · exact pres_readFields h

/-! ### Three properties every read keeps -/

theorem ReadBit_lt {r : Reader} (h : r.pos < 8 * r.buf.length) :
    ReadBit r = (bitAt r.buf r.pos, { r with pos := r.pos + 1, ticks := r.ticks + 1 }) := by
  simp [ReadBit, h]

theorem ReadBit_ge {r : Reader} (h : ¬ r.pos < 8 * r.buf.length) :
    ReadBit r = (0, { r with EOF := true, ticks := r.ticks + 1 }) := by
  simp [ReadBit, h]

theorem bitAt_le_one (b : List Nat) (i : Nat) : bitAt b i ≤ 1 := by
  unfold bitAt; omega

theorem ReadBit_le_one (r : Reader) : (ReadBit r).1 ≤ 1 := by
  by_cases h : r.pos < 8 * r.buf.length
  · rw [ReadBit_lt h]; exact bitAt_le_one _ _
  · rw [ReadBit_ge h]; exact Nat.zero_le _

/-- The exhaustion flag is sticky: no single-bit read clears it. -/
theorem sticky_ReadBit : Pres (fun r => r.EOF = true) ReadBit := by
  intro r h
  by_cases hp : r.pos < 8 * r.buf.length
  · rw [ReadBit_lt hp]; exact h
  · rw [ReadBit_ge hp]

/-- No read changes the buffer. -/
theorem buf_ReadBit (b : List Nat) : Pres (fun r => r.buf = b) ReadBit := by
  intro r h
  by_cases hp : r.pos < 8 * r.buf.length
  · rw [ReadBit_lt hp]; exact h
  · rw [ReadBit_ge hp]; exact h

theorem inv_ReadBit (b : List Nat) : Pres (Inv b) ReadBit := by
  rintro r ⟨h1, h2, h3⟩
  by_cases hp : r.pos < 8 * r.buf.length
  · rw [ReadBit_lt hp]
    refine ⟨h1, ?_, fun h => ?_⟩
    · subst h1; exact hp
    · show r.ticks + 1 = r.pos + 1
      rw [h3 h]
  · rw [ReadBit_ge hp]
    exact ⟨h1, h2, fun h => by cases h⟩

theorem inv_NewReader (b : List Nat) : Inv b (NewReader b) :=
  ⟨rfl, Nat.zero_le _, fun _ => rfl⟩
/-! ## Reads over an extended buffer -/

theorem good_pure {α : Type} (a : α) : Good (pure a : Rd α) :=
  ⟨pres_pure a, fun _ _ _ h _ => ⟨rfl, h⟩⟩

theorem good_bind {α β : Type} {m : Rd α} {f : α → Rd β}
    (hm : Good m) (hf : ∀ a, Good (f a)) : Good (m >>= f) := by
  refine ⟨pres_bind hm.1 (fun a => (hf a).1), ?_⟩
  intro t r r' hr he
  simp only [Rd.bind_apply] at he ⊢
  have h1 : (m r).2.EOF = false := by
    cases h : (m r).2.EOF
    · rfl
    · rw [(hf (m r).1).1 _ h] at he; exact he
  obtain ⟨hv, hx⟩ := hm.2 t r r' hr h1
  rw [hv]
  exact (hf (m r).1).2 t _ _ hx he

theorem bitAt_append (b t : List Nat) {i : Nat} (h : i < 8 * b.length) :
    bitAt (b ++ t) i = bitAt b i := by
  unfold bitAt
  have h' : i / 8 < b.length := by omega
  rw [List.getD_append _ _ _ _ h']

theorem good_ReadBit : Good ReadBit := by
  refine ⟨sticky_ReadBit, ?_⟩
  rintro t r r' ⟨h1, h2, h3, h4⟩ he
  by_cases hp : r.pos < 8 * r.buf.length
  · have hp' : r'.pos < 8 * r'.buf.length := by
      rw [h1, h2, List.length_append]; omega
    rw [ReadBit_lt hp, ReadBit_lt hp', h1, h2, h4, bitAt_append _ _ hp]
    exact ⟨rfl, rfl, rfl, h3, rfl⟩
  · rw [ReadBit_ge hp] at he
    cases he

theorem good_ReadBits (n : Nat) : Good (ReadBits n) := by
  induction n with
  | zero => exact good_pure 0
  | succ n ih => exact good_bind good_ReadBit (fun _ => good_bind ih (fun _ => good_pure _))

theorem good_ReadByte : Good ReadByte :=
  good_bind (good_ReadBits 8) (fun _ => good_pure _)

theorem countZeros_succ (f : Nat) (r : Reader) :
    countZeros (f + 1) r =
      if (ReadBit r).1 ≠ 0 ∨ (ReadBit r).2.EOF = true then (0, (ReadBit r).2)
      else ((countZeros f (ReadBit r).2).1 + 1, (countZeros f (ReadBit r).2).2) := rfl

/-- Counting leading zeros over an extended buffer, each with fuel above the
bits that remain. -/
theorem countZeros_ext (t : List Nat) :
    ∀ (f f' : Nat) (r r' : Reader), Ext t r r' →
      8 * r.buf.length - r.pos < f → 8 * r'.buf.length - r'.pos < f' →
      (countZeros f r).2.EOF = false →
      (countZeros f' r').1 = (countZeros f r).1 ∧
        Ext t (countZeros f r).2 (countZeros f' r').2 := by
  intro f
  induction f with
  | zero => intro f' r r' _ h; omega
  | succ f ih =>
    intro f' r r' hx hf hf' he
    obtain ⟨g, rfl⟩ : ∃ g, f' = g + 1 := ⟨f' - 1, by omega⟩
    have hE : r.EOF = false := by
      cases h : r.EOF
      · rfl
      · rw [pres_countZeros sticky_ReadBit (f + 1) r h] at he; exact he
    rw [countZeros_succ] at he ⊢
    rw [countZeros_succ]
    by_cases hp : r.pos < 8 * r.buf.length
    · have h0 : (ReadBit r).2.EOF = false := by rw [ReadBit_lt hp]; exact hE
      obtain ⟨hv, hx1⟩ := good_ReadBit.2 t r r' hx h0
      rw [hv, hx1.2.2.1]
      split
      · exact ⟨rfl, hx1⟩
      · rename_i hc
        rw [if_neg hc] at he
        have hb1 : (ReadBit r).2.buf = r.buf := buf_ReadBit r.buf r rfl
        have hb2 : (ReadBit r').2.buf = r'.buf := buf_ReadBit r'.buf r' rfl
        have hq1 : (ReadBit r).2.pos = r.pos + 1 := by rw [ReadBit_lt hp]
        have hq2 : (ReadBit r').2.pos = r.pos + 1 := by rw [hx1.2.1, hq1]
        have hl : r'.buf.length = r.buf.length + t.length := by
          rw [hx.1, List.length_append]
        obtain ⟨e1, e2⟩ := ih g _ _ hx1 (by rw [hb1, hq1]; omega)
          (by rw [hb2, hq2]; rw [hx.2.1] at hf'; omega) he
        exact ⟨by rw [e1], e2⟩
    · rw [ReadBit_ge hp] at he
      simp at he

/-- The zero count never stops for lack of fuel: any fuel above the bits that
remain gives the same count and cursor. -/
theorem countZeros_fuel : ∀ (f g : Nat) (r : Reader),
    8 * r.buf.length - r.pos < f → 8 * r.buf.length - r.pos < g →
      countZeros f r = countZeros g r := by
  intro f
  induction f with
  | zero => intro g r h; omega
  | succ f ih =>
    intro g r hf hg
    obtain ⟨g, rfl⟩ : ∃ k, g = k + 1 := ⟨g - 1, by omega⟩
    rw [countZeros_succ, countZeros_succ]
    by_cases hp : r.pos < 8 * r.buf.length
    · split
      · rfl
      · have hq : (ReadBit r).2.pos = r.pos + 1 := by rw [ReadBit_lt hp]
        have hb : (ReadBit r).2.buf = r.buf := buf_ReadBit r.buf r rfl
        rw [ih g (ReadBit r).2 (by rw [hq, hb]; omega) (by rw [hq, hb]; omega)]
    · rw [ReadBit_ge hp]
      simp only [or_true, if_true]

theorem good_countZeros_sticky (n : Nat) : Pres (fun r => r.EOF = true) (countZeros n) :=
  pres_countZeros sticky_ReadBit n

theorem good_ReadUEGolomb : Good ReadUEGolomb := by
  refine ⟨pres_ReadUEGolomb sticky_ReadBit, ?_⟩
  intro t r r' hx he
  unfold H264.ReadUEGolomb at he ⊢
  simp only at he ⊢
  have h1 : (countZeros (8 * r.buf.length - r.pos + 1) r).2.EOF = false := by
    cases h : (countZeros (8 * r.buf.length - r.pos + 1) r).2.EOF
    · rfl
    · rw [(good_ReadBits _).1 _ h] at he; exact he
  obtain ⟨e1, e2⟩ := countZeros_ext t _ (8 * r'.buf.length - r'.pos + 1) r r' hx
    (Nat.lt_succ_self _) (Nat.lt_succ_self _) h1
  obtain ⟨e3, e4⟩ := (good_ReadBits _).2 t _ _ e2 he
  rw [e1, e3]
  exact ⟨rfl, e4⟩

theorem good_ReadSEGolomb : Good ReadSEGolomb :=
  good_bind good_ReadUEGolomb (fun _ => good_pure _)

theorem good_readRefFrames (n : Nat) : Good (readRefFrames n) := by
  induction n with
  | zero => exact good_pure ()
  | succ n ih => exact good_bind good_ReadSEGolomb (fun _ => ih)

theorem good_readScalingFlags (n : Nat) : Good (readScalingFlags n) := by
  induction n with
  | zero => exact good_pure false
  | succ n ih =>
    refine good_bind good_ReadBit (fun b => ?_)
    split
    · exact good_pure _
    · exact ih

theorem good_readIdent  : Good readIdent := by
  unfold H264.readIdent
  repeat with_reducible first
    | exact good_pure _
    | exact good_ReadByte
    | exact good_ReadUEGolomb
    | exact good_ReadSEGolomb
    | exact good_ReadBits _
    | exact good_readRefFrames _
    | exact good_readScalingFlags _
    | exact good_ReadBit
    | refine good_bind ?_ (fun _ => ?_)
    | split

theorem good_readChroma (s : SPS) : Good (readChroma s) := by
  unfold H264.readChroma
  repeat with_reducible first
    | exact good_pure _
    | exact good_ReadByte
    | exact good_ReadUEGolomb
    | exact good_ReadSEGolomb
    | exact good_ReadBits _
    | exact good_readRefFrames _
    | exact good_readScalingFlags _
    | exact good_ReadBit
    | refine good_bind ?_ (fun _ => ?_)
    | split

theorem good_readHigh (s : SPS) : Good (readHigh s) := by
  unfold H264.readHigh
  repeat with_reducible first
    | exact good_pure _
    | exact good_ReadByte
    | exact good_ReadUEGolomb
    | exact good_ReadSEGolomb
    | exact good_ReadBits _
    | exact good_readRefFrames _
    | exact good_readScalingFlags _
    | exact good_ReadBit
    | refine good_bind ?_ (fun _ => ?_)
    | split
    | exact good_readChroma _

theorem good_readPOC (s : SPS) : Good (readPOC s) := by
  unfold H264.readPOC
  repeat with_reducible first
    | exact good_pure _
    | exact good_ReadByte
    | exact good_ReadUEGolomb
    | exact good_ReadSEGolomb
    | exact good_ReadBits _
    | exact good_readRefFrames _
    | exact good_readScalingFlags _
    | exact good_ReadBit
    | refine good_bind ?_ (fun _ => ?_)
    | split

theorem good_readFrame (s : SPS) : Good (readFrame s) := by
  unfold H264.readFrame
  repeat with_reducible first
    | exact good_pure _
    | exact good_ReadByte
    | exact good_ReadUEGolomb
    | exact good_ReadSEGolomb
    | exact good_ReadBits _
    | exact good_readRefFrames _
    | exact good_readScalingFlags _
    | exact good_ReadBit
    | refine good_bind ?_ (fun _ => ?_)
    | split

theorem good_readCrop (s : SPS) : Good (readCrop s) := by
  unfold H264.readCrop
  repeat with_reducible first
    | exact good_pure _
    | exact good_ReadByte
    | exact good_ReadUEGolomb
    | exact good_ReadSEGolomb
    | exact good_ReadBits _
    | exact good_readRefFrames _
    | exact good_readScalingFlags _
    | exact good_ReadBit
    | refine good_bind ?_ (fun _ => ?_)
    | split

theorem good_readVUI (s : SPS) : Good (readVUI s) := by
  unfold H264.readVUI
  repeat with_reducible first
    | exact good_pure _
    | exact good_ReadByte
    | exact good_ReadUEGolomb
    | exact good_ReadSEGolomb
    | exact good_ReadBits _
    | exact good_readRefFrames _
    | exact good_readScalingFlags _
    | exact good_ReadBit
    | refine good_bind ?_ (fun _ => ?_)
    | split

theorem good_readFields : Good readFields := by
  unfold H264.readFields
  repeat with_reducible first
    | exact good_pure _
    | exact good_readIdent
    | exact good_readHigh _
    | exact good_readPOC _
    | exact good_readFrame _
    | exact good_readCrop _
    | exact good_readVUI _
    | refine good_bind ?_ (fun _ => ?_)
    | split

theorem good_walk : Good walk := by
  unfold H264.walk
  refine good_bind good_ReadByte (fun _ => ?_)
  split
  · exact good_pure _
  · exact good_readFields

/-! ## The three ways `DecodeSPS` returns nil -/

theorem ReadByte_NewReader_nil : ReadByte (NewReader []) = (0, ⟨[], 0, true, 8⟩) := by
  decide

theorem ReadBit_head (x : Nat) (xs : List Nat) (i : Nat) (e : Bool) (t : Nat) (h : i < 8) :
    ReadBit ⟨x :: xs, i, e, t⟩ = (x / 2 ^ (7 - i) % 2, ⟨x :: xs, i + 1, e, t + 1⟩) := by
  have hp : (⟨x :: xs, i, e, t⟩ : Reader).pos < 8 * (⟨x :: xs, i, e, t⟩ : Reader).buf.length := by
    simp only [List.length_cons]; omega
  rw [ReadBit_lt hp]
  have h0 : i / 8 = 0 := by omega
  have h1 : i % 8 = i := by omega
  simp only [bitAt, h0, h1, List.getD_cons_zero]

theorem ReadByte_NewReader_cons (x : Nat) (xs : List Nat) :
    ReadByte (NewReader (x :: xs)) = (x % 256, ⟨x :: xs, 8, false, 8⟩) := by
  simp only [ReadByte, ReadBits, NewReader, Rd.bind_apply, Rd.pure_apply]
  rw [ReadBit_head _ _ 0 _ _ (by omega)]
  simp only []
  rw [ReadBit_head _ _ 1 _ _ (by omega)]
  simp only []
  rw [ReadBit_head _ _ 2 _ _ (by omega)]
  simp only []
  rw [ReadBit_head _ _ 3 _ _ (by omega)]
  simp only []
  rw [ReadBit_head _ _ 4 _ _ (by omega)]
  simp only []
  rw [ReadBit_head _ _ 5 _ _ (by omega)]
  simp only []
  rw [ReadBit_head _ _ 6 _ _ (by omega)]
  simp only []
  rw [ReadBit_head _ _ 7 _ _ (by omega)]
  simp only [Prod.mk.injEq, and_true]
  norm_num
  omega

theorem hdr_mod (b : List Nat) : (ReadByte (NewReader b)).1 % 32 = b.headD 0 % 32 := by
  cases b with
  | nil => rw [ReadByte_NewReader_nil]; rfl
  | cons x xs => rw [ReadByte_NewReader_cons]; simp only [List.headD_cons]; omega

theorem walk_NewReader (b : List Nat) :
    walk (NewReader b) =
      if b.headD 0 % 32 ≠ NALUTypeSPS then (Outcome.wrongType, afterHeader b)
      else readFields (afterHeader b) := by
  unfold H264.walk
  simp only [Rd.bind_apply, hdr_mod]
  split <;> rfl

theorem readScalingFlags_succ (n : Nat) (r : Reader) :
    readScalingFlags (n + 1) r =
      if (ReadBit r).1 ≠ 0 then (true, (ReadBit r).2)
      else readScalingFlags n (ReadBit r).2 := by
  simp only [readScalingFlags, Rd.bind_apply]
  split <;> rfl

/-- The scaling-list loop leaves through `return nil` exactly when one of the
`n` bits at the cursor is inside the buffer and set. -/
theorem readScalingFlags_true_iff : ∀ (n : Nat) (r : Reader),
    (readScalingFlags n r).1 = true ↔
      ∃ i, i < n ∧ r.pos + i < 8 * r.buf.length ∧ bitAt r.buf (r.pos + i) = 1 := by
  intro n
  induction n with
  | zero => intro r; simp [readScalingFlags]
  | succ n ih =>
    intro r
    rw [readScalingFlags_succ]
    by_cases hp : r.pos < 8 * r.buf.length
    · rw [ReadBit_lt hp]
      simp only
      split
      · rename_i hb
        have h1 : bitAt r.buf r.pos = 1 := by
          have := bitAt_le_one r.buf r.pos; omega
        exact ⟨fun _ => ⟨0, Nat.succ_pos _, by simpa using hp, by simpa using h1⟩, fun _ => rfl⟩
      · rename_i hb
        have h0 : bitAt r.buf r.pos = 0 := by simpa using hb
        rw [ih]
        simp only
        constructor
        · rintro ⟨i, hi, h1, h2⟩
          exact ⟨i + 1, by omega, by omega, by rw [← h2]; congr 1; omega⟩
        · rintro ⟨i, hi, h1, h2⟩
          cases i with
          | zero => rw [Nat.add_zero, h0] at h2; cases h2
          | succ j => exact ⟨j, by omega, by omega, by rw [← h2]; congr 1; omega⟩
    · rw [ReadBit_ge hp]
      simp only [ne_eq, not_true_eq_false, if_false]
      rw [ih]
      simp only
      constructor
      · rintro ⟨i, _, h1, _⟩; omega
      · rintro ⟨i, _, h1, _⟩; omega

theorem readChroma_matrix_le_one (s : SPS) (r : Reader) :
    (readChroma s r).1.1.seq_scaling_matrix_present_flag ≤ 1 := by
  simp only [readChroma, Rd.bind_apply, Rd.pure_apply]
  split <;> exact ReadBit_le_one _

theorem readHigh_apply (s : SPS) (r : Reader) :
    readHigh s r =
      if s.profile_idc ∈ highProfiles then
        if (readChroma s r).1.1.seq_scaling_matrix_present_flag ≠ 0 then
          if (readScalingFlags (readChroma s r).1.2 (readChroma s r).2).1 = true then
            (none, (readScalingFlags (readChroma s r).1.2 (readChroma s r).2).2)
          else
            (some (readChroma s r).1.1, (readScalingFlags (readChroma s r).1.2 (readChroma s r).2).2)
        else (some (readChroma s r).1.1, (readChroma s r).2)
      else (some s, r) := by
  unfold H264.readHigh
  split
  · simp only [Rd.bind_apply]
    split
    · simp only [Rd.bind_apply]
      split <;> rfl
    · rfl
  · rfl

theorem readHigh_none_iff (s : SPS) (r : Reader) :
    (readHigh s r).1 = none ↔
      s.profile_idc ∈ highProfiles ∧
      (readChroma s r).1.1.seq_scaling_matrix_present_flag = 1 ∧
      (readScalingFlags (readChroma s r).1.2 (readChroma s r).2).1 = true := by
  rw [readHigh_apply]
  have hle := readChroma_matrix_le_one s r
  split
  · rename_i hp
    split
    · rename_i hm
      have h1 : (readChroma s r).1.1.seq_scaling_matrix_present_flag = 1 := by omega
      split
      · rename_i hf; simp [hp, h1, hf]
      · rename_i hf; simp [hf]
    · rename_i hm
      have h0 : (readChroma s r).1.1.seq_scaling_matrix_present_flag = 0 := by simpa using hm
      simp [h0]
  · rename_i hp; simp [hp]

theorem readFields_apply (r : Reader) :
    readFields r =
      match (readHigh (readIdent r).1 (readIdent r).2).1 with
      | none => (Outcome.scalingList, (readHigh (readIdent r).1 (readIdent r).2).2)
      | some s =>
        ((readPOC s >>= fun s => readFrame s >>= fun s => readCrop s >>= fun s =>
            readVUI s >>= fun s => pure (Outcome.walked s))
          (readHigh (readIdent r).1 (readIdent r).2).2) := by
  unfold H264.readFields
  simp only [Rd.bind_apply]
  split <;> simp_all

theorem afterHeader_buf (b : List Nat) : (afterHeader b).buf = b := by
  unfold afterHeader
  exact pres_apply (pres_ReadByte (buf_ReadBit b)) (NewReader b) rfl

theorem identOf_buf (b : List Nat) : (identOf b).2.buf = b := by
  unfold identOf
  exact pres_apply (pres_readIdent (buf_ReadBit b)) (afterHeader b) (afterHeader_buf b)

theorem chromaOf_buf (b : List Nat) : (chromaOf b).2.buf = b := by
  unfold chromaOf
  exact pres_apply (pres_readChroma (buf_ReadBit b) _) (identOf b).2 (identOf_buf b)

theorem scalingRefused_iff (b : List Nat) :
    scalingRefused b ↔ (readHigh (identOf b).1 (identOf b).2).1 = none := by
  rw [readHigh_none_iff, readScalingFlags_true_iff]
  have hb : (readChroma (identOf b).1 (identOf b).2).2.buf = b := by
    have h := chromaOf_buf b
    unfold chromaOf at h
    exact h
  rw [hb]
  unfold scalingRefused chromaOf
  exact Iff.rfl

theorem readFields_scaling {r : Reader} (h : (readHigh (readIdent r).1 (readIdent r).2).1 = none) :
    readFields r = (Outcome.scalingList, (readHigh (readIdent r).1 (readIdent r).2).2) := by
  rw [readFields_apply, h]

theorem readFields_walked {r : Reader} {s : SPS}
    (h : (readHigh (readIdent r).1 (readIdent r).2).1 = some s) :
    ∃ s', (readFields r).1 = Outcome.walked s' := by
  rw [readFields_apply, h]
  exact ⟨_, rfl⟩

theorem DecodeSPS_eq_some_iff (b : List Nat) (s : SPS) :
    DecodeSPS b = some s ↔
      (walk (NewReader b)).1 = Outcome.walked s ∧ (walk (NewReader b)).2.EOF = false := by
  unfold DecodeSPS
  rcases h : walk (NewReader b) with ⟨o, rf⟩
  cases o with
  | wrongType => simp
  | scalingList => simp
  | walked s' =>
    cases he : rf.EOF <;> simp [he]

theorem DecodeSPS_eq_none_iff (b : List Nat) :
    DecodeSPS b = none ↔
      (walk (NewReader b)).1 = Outcome.wrongType ∨ (walk (NewReader b)).1 = Outcome.scalingList ∨
        (walk (NewReader b)).2.EOF = true := by
  unfold DecodeSPS
  rcases h : walk (NewReader b) with ⟨o, rf⟩
  cases o with
  | wrongType => simp
  | scalingList => simp
  | walked s' =>
    cases he : rf.EOF <;> simp [he]

theorem walk_wrongType_iff (b : List Nat) :
    (walk (NewReader b)).1 = Outcome.wrongType ↔ b.headD 0 % 32 ≠ NALUTypeSPS := by
  rw [walk_NewReader]
  by_cases h : b.headD 0 % 32 ≠ NALUTypeSPS
  · rw [if_pos h]; exact ⟨fun _ => h, fun _ => rfl⟩
  · rw [if_neg h]
    refine ⟨fun hc => ?_, fun hc => absurd hc h⟩
    cases hq : (readHigh (readIdent (afterHeader b)).1 (readIdent (afterHeader b)).2).1 with
    | none => rw [readFields_scaling hq] at hc; cases hc
    | some s =>
      obtain ⟨s', hs'⟩ := readFields_walked hq
      rw [hs'] at hc; cases hc

theorem walk_scalingList_iff (b : List Nat) :
    (walk (NewReader b)).1 = Outcome.scalingList ↔
      b.headD 0 % 32 = NALUTypeSPS ∧ scalingRefused b := by
  rw [walk_NewReader, scalingRefused_iff]
  by_cases h : b.headD 0 % 32 ≠ NALUTypeSPS
  · rw [if_pos h]
    exact ⟨fun hc => (by cases hc), fun hc => absurd hc.1 h⟩
  · have h' : b.headD 0 % 32 = NALUTypeSPS := Decidable.not_not.mp h
    rw [if_neg h]
    show (readFields (afterHeader b)).1 = Outcome.scalingList ↔
      b.headD 0 % 32 = NALUTypeSPS ∧
        (readHigh (readIdent (afterHeader b)).1 (readIdent (afterHeader b)).2).1 = none
    cases hq : (readHigh (readIdent (afterHeader b)).1 (readIdent (afterHeader b)).2).1 with
    | none =>
      rw [readFields_scaling hq]
      exact ⟨fun _ => ⟨h', rfl⟩, fun _ => rfl⟩
    | some s =>
      obtain ⟨s', hs'⟩ := readFields_walked hq
      rw [hs']
      exact ⟨fun hc => (by cases hc), fun hc => (by cases hc.2)⟩

/-- C1: `DecodeSPS` returns nil exactly when the low 5 bits of the first byte
are not the SPS type tag, or the scaling-list refusal applies (high profile,
`seq_scaling_matrix_present_flag` 1, a per-entry flag 1), or the exhaustion
flag of the cursor is set when the walk ends; and a walk that returns a
record made only in-buffer reads: one position per single-bit read, at most
`8 * len` of them. -/
theorem decodeSPS_nil_iff (b : List Nat) :
    (DecodeSPS b = none ↔
      b.headD 0 % 32 ≠ NALUTypeSPS ∨ scalingRefused b ∨ (walk (NewReader b)).2.EOF = true) ∧
    (∀ s, DecodeSPS b = some s →
      (walk (NewReader b)).2.ticks = (walk (NewReader b)).2.pos ∧
      (walk (NewReader b)).2.ticks ≤ 8 * b.length) := by
  refine ⟨?_, fun s hs => ?_⟩
  · rw [DecodeSPS_eq_none_iff, walk_wrongType_iff, walk_scalingList_iff]
    by_cases h : b.headD 0 % 32 = NALUTypeSPS
    · simp only [h, ne_eq, not_true_eq_false, true_and]
    · simp only [h, ne_eq, not_false_eq_true, true_or]
  · obtain ⟨_, he⟩ := (DecodeSPS_eq_some_iff b s).1 hs
    obtain ⟨_, h2, h3⟩ := pres_walk (inv_ReadBit b) _ (inv_NewReader b)
    rw [h3 he]
    exact ⟨rfl, h2⟩

/-- C1 at the Baseline SPS: a record comes back and its walk made 78
single-bit reads, of the 80 bits of the buffer. -/
theorem decodeSPS_nil_iff_witness :
    (DecodeSPS spsBaseline).isSome = true ∧
    (walk (NewReader spsBaseline)).2.ticks = 78 ∧
    (walk (NewReader spsBaseline)).2.ticks ≤ 8 * spsBaseline.length := by
  have h : ∃ s, DecodeSPS spsBaseline = some s := by
    cases hd : DecodeSPS spsBaseline with
    | none => exact absurd hd (by decide)
    | some s => exact ⟨s, rfl⟩
  obtain ⟨s, hs⟩ := h
  exact ⟨by rw [hs]; rfl, by decide, ((decodeSPS_nil_iff spsBaseline).2 s hs).2⟩

/-- C2: a buffer, empty or not, whose first byte does not carry the SPS type
tag in its low 5 bits is refused, and the walk stops with the cursor where
the read of the header byte left it: 8 single-bit reads made, no position
beyond the first byte. -/
theorem decodeSPS_wrongType (b : List Nat) (h : b.headD 0 % 32 ≠ NALUTypeSPS) :
    DecodeSPS b = none ∧
    walk (NewReader b) = (Outcome.wrongType, (ReadByte (NewReader b)).2) ∧
    (walk (NewReader b)).2.ticks = 8 ∧
    (walk (NewReader b)).2.pos = min 8 (8 * b.length) := by
  have hw : walk (NewReader b) = (Outcome.wrongType, (ReadByte (NewReader b)).2) := by
    rw [walk_NewReader, if_pos h]; rfl
  refine ⟨?_, hw, ?_, ?_⟩
  · rw [DecodeSPS_eq_none_iff, hw]; exact Or.inl rfl
  · rw [hw]
    cases b with
    | nil => rfl
    | cons x xs => rw [ReadByte_NewReader_cons]
  · rw [hw]
    cases b with
    | nil => rfl
    | cons x xs =>
      rw [ReadByte_NewReader_cons]
      simp only [List.length_cons]
      omega

/-- C2 at a picture parameter set (type 8): nil, with the cursor at bit 8;
and at the empty buffer: nil, with the cursor still at bit 0. -/
theorem decodeSPS_wrongType_witness :
    (DecodeSPS ppsUnit = none ∧ (walk (NewReader ppsUnit)).2.pos = 8 ∧
      (walk (NewReader ppsUnit)).2.ticks = 8) ∧
    (DecodeSPS [] = none ∧ (walk (NewReader [])).2.pos = 0) := by
  have h := decodeSPS_wrongType ppsUnit (by decide)
  have h0 := decodeSPS_wrongType [] (by decide)
  exact ⟨⟨h.1, by rw [h.2.2.2]; decide, h.2.2.1⟩, h0.1, by rw [h0.2.2.2]; decide⟩

/-- C3: a buffer with the SPS type tag, a high profile, a decoded
`seq_scaling_matrix_present_flag` of 1 and a set bit among the per-entry
flags that follow is refused, whatever the rest of the buffer holds. -/
theorem decodeSPS_scalingList (b : List Nat) (hh : b.headD 0 % 32 = NALUTypeSPS)
    (hp : (identOf b).1.profile_idc ∈ highProfiles)
    (hm : (chromaOf b).1.1.seq_scaling_matrix_present_flag = 1)
    (hf : ∃ i, i < (chromaOf b).1.2 ∧ (chromaOf b).2.pos + i < 8 * b.length ∧
      bitAt b ((chromaOf b).2.pos + i) = 1) :
    DecodeSPS b = none := by
  rw [DecodeSPS_eq_none_iff, walk_scalingList_iff]
  exact Or.inr (Or.inl ⟨hh, hp, hm, hf⟩)

/-- C3 at a High profile SPS whose first scaling-list flag (bit 39) is set. -/
theorem decodeSPS_scalingList_witness : DecodeSPS spsScaling = none :=
  decodeSPS_scalingList spsScaling (by decide) (by decide) (by decide)
    ⟨0, by decide, by decide, by decide⟩

/-! ## Extending the buffer -/

theorem Ext_NewReader (b t : List Nat) : Ext t (NewReader b) (NewReader (b ++ t)) :=
  ⟨rfl, rfl, rfl, rfl⟩

/-- A decode that succeeds on `b` succeeds on every extension of `b`, with
the same record and the walk ending at the same bit. -/
theorem DecodeSPS_append {b : List Nat} {s : SPS} (t : List Nat) (h : DecodeSPS b = some s) :
    DecodeSPS (b ++ t) = some s ∧
      (walk (NewReader (b ++ t))).2.pos = (walk (NewReader b)).2.pos := by
  obtain ⟨h1, h2⟩ := (DecodeSPS_eq_some_iff b s).1 h
  obtain ⟨e1, e2⟩ := good_walk.2 t _ _ (Ext_NewReader b t) h2
  refine ⟨(DecodeSPS_eq_some_iff _ s).2 ⟨by rw [e1, h1], by rw [e2.2.2.1, h2]⟩, e2.2.1⟩

theorem walk_pos_le (b : List Nat) : (walk (NewReader b)).2.pos ≤ 8 * b.length :=
  (pres_apply (pres_walk (inv_ReadBit b)) (NewReader b) (inv_NewReader b)).2.1

/-! ## Width and height -/

/-- C5: `Width` is the integer `16*(w+1) - 2*(left+right)` reduced modulo
`2^16`, whatever wraps in the 32-bit steps; and it is that integer itself
when `2*(left+right) ≤ 16*(w+1) ≤ 65535`. -/
theorem width_formula (s : SPS) :
    ((s.Width : Int) =
      (16 * ((s.pic_width_in_mbs_minus_1 : Int) + 1) -
        2 * ((s.frame_crop_left_offset : Int) + (s.frame_crop_right_offset : Int))) % 65536) ∧
    (2 * (s.frame_crop_left_offset + s.frame_crop_right_offset) ≤
        16 * (s.pic_width_in_mbs_minus_1 + 1) →
      16 * (s.pic_width_in_mbs_minus_1 + 1) ≤ 65535 →
      s.Width = 16 * (s.pic_width_in_mbs_minus_1 + 1) -
        2 * (s.frame_crop_left_offset + s.frame_crop_right_offset)) := by
  unfold SPS.Width sub32
  simp only []
  constructor
  · omega
  · intro h1 h2; omega

/-- C5 at 80 macroblocks without horizontal cropping: 1280. -/
theorem width_formula_witness : rec720.Width = 1280 :=
  (width_formula rec720).2 (by decide) (by decide)

/-- C6: `Height` is the integer `16*(h+1)*m - 2*(top+bottom)` reduced modulo
`2^16`, with `m = 1` when `frame_mbs_only_flag` is non-zero and `m = 2` when
it is zero; the crop term is the same in both cases. -/
theorem height_formula (s : SPS) :
    (s.Height : Int) =
      (16 * ((s.pic_height_in_map_units_minus_1 : Int) + 1) *
          (if s.frame_mbs_only_flag = 0 then 2 else 1) -
        2 * ((s.frame_crop_top_offset : Int) + (s.frame_crop_bottom_offset : Int))) % 65536 := by
  unfold SPS.Height sub32
  simp only []
  split <;> omega

/-! ## Reading what was encoded -/

theorem adv_zero (r : Reader) : adv r 0 = r := rfl

theorem adv_adv (r : Reader) (a b : Nat) : adv (adv r a) b = adv r (a + b) := by
  simp only [adv, Nat.add_assoc]

theorem Holds.cons {r : Reader} {x : Nat} {l : List Nat} (h : Holds r (x :: l)) :
    ReadBit r = (x, adv r 1) ∧ Holds (adv r 1) l := by
  obtain ⟨h1, h2, h3⟩ := h
  simp only [List.length_cons] at h2 h3
  have hp : r.pos < 8 * r.buf.length := by omega
  refine ⟨?_, h1, ?_, ?_⟩
  · rw [ReadBit_lt hp]
    have := h3 0 (Nat.succ_pos _)
    simp only [Nat.add_zero, List.getD_cons_zero] at this
    rw [this]; rfl
  · show r.pos + 1 + l.length ≤ 8 * r.buf.length
    omega
  · intro i hi
    have := h3 (i + 1) (by omega)
    simp only [List.getD_cons_succ] at this
    rw [← this]
    show bitAt r.buf (r.pos + 1 + i) = _
    congr 1; omega

theorem Holds.drop {r : Reader} (l : List Nat) {rest : List Nat} (h : Holds r (l ++ rest)) :
    Holds (adv r l.length) rest := by
  induction l generalizing r with
  | nil => exact h
  | cons x l ih =>
    have h' := ih (Holds.cons h).2
    rw [adv_adv] at h'
    rw [List.length_cons, Nat.add_comm]
    exact h'

theorem reads_pure {α : Type} (a : α) : Reads (pure a : Rd α) [] a :=
  fun _ _ _ => rfl

theorem reads_bind {α β : Type} {m : Rd α} {f : α → Rd β} {l1 l2 : List Nat} {a : α} {b : β}
    (hm : Reads m l1 a) (hf : Reads (f a) l2 b) : Reads (m >>= f) (l1 ++ l2) b := by
  intro r rest h
  rw [List.append_assoc] at h
  rw [Rd.bind_apply, hm r _ h]
  show f a (adv r l1.length) = _
  rw [hf _ rest (Holds.drop l1 h), adv_adv, List.length_append]

theorem reads_ReadBit (x : Nat) : Reads ReadBit [x] x :=
  fun _ _ h => (Holds.cons h).1

theorem toBits_length (n v : Nat) : (toBits n v).length = n := by
  induction n with
  | zero => rfl
  | succ n ih => simp only [toBits, List.length_cons, ih]

theorem reads_ReadBits (n v : Nat) : Reads (ReadBits n) (toBits n v) (v % 2 ^ n) := by
  induction n with
  | zero =>
    intro r rest _
    simp only [H264.ReadBits, toBits, Rd.pure_apply, pow_zero, Nat.mod_one]
    rfl
  | succ n ih =>
    intro r rest h
    have h1 := Holds.cons h
    simp only [H264.ReadBits, Rd.bind_apply, Rd.pure_apply, h1.1, ih _ rest h1.2, adv_adv,
      toBits, List.length_cons, toBits_length]
    rw [Nat.add_comm 1 n, Nat.mod_pow_succ]
    congr 1
    rw [Nat.mul_comm, Nat.add_comm]

theorem reads_ReadByte {v : Nat} (hv : v < 256) : Reads ReadByte (toBits 8 v) v := by
  intro r rest h
  simp only [H264.ReadByte, Rd.bind_apply, Rd.pure_apply, reads_ReadBits 8 v r rest h]
  congr 1
  omega

theorem log2Fuel_spec : ∀ (f n : Nat), 1 ≤ n → n ≤ f →
    2 ^ log2Fuel f n ≤ n ∧ n < 2 ^ (log2Fuel f n + 1) := by
  intro f
  induction f with
  | zero => intro n h1 h2; omega
  | succ f ih =>
    intro n h1 h2
    unfold log2Fuel
    split
    · simp only [pow_zero, zero_add, pow_one]; omega
    · obtain ⟨a, b⟩ := ih (n / 2) (by omega) (by omega)
      rw [pow_succ] at b ⊢
      rw [pow_succ]
      constructor <;> omega

theorem ueZeros_spec (k : Nat) : 2 ^ ueZeros k ≤ k + 1 ∧ k + 1 < 2 ^ (ueZeros k + 1) :=
  log2Fuel_spec (k + 1) (k + 1) (by omega) (Nat.le_refl _)

theorem ueEncode_length (k : Nat) : (ueEncode k).length = 2 * ueZeros k + 1 := by
  simp only [ueEncode, List.length_append, List.length_replicate, List.length_cons, toBits_length]
  omega

/-- Counting the leading zeros of `z` zero bits followed by a 1 bit. -/
theorem countZeros_replicate : ∀ (z fuel : Nat) (r : Reader) (rest : List Nat), z < fuel →
    Holds r (List.replicate z 0 ++ 1 :: rest) → countZeros fuel r = (z, adv r (z + 1)) := by
  intro z
  induction z with
  | zero =>
    intro fuel r rest hf h
    obtain ⟨g, rfl⟩ : ∃ g, fuel = g + 1 := ⟨fuel - 1, by omega⟩
    simp only [List.replicate_zero, List.nil_append] at h
    rw [countZeros_succ, (Holds.cons h).1]
    simp
  | succ z ih =>
    intro fuel r rest hf h
    obtain ⟨g, rfl⟩ : ∃ g, fuel = g + 1 := ⟨fuel - 1, by omega⟩
    rw [List.replicate_succ, List.cons_append] at h
    have h1 := Holds.cons h
    rw [countZeros_succ, h1.1]
    have he : (adv r 1).EOF = false := h1.2.1
    simp only [ne_eq, not_true_eq_false, he, Bool.false_eq_true, or_self, if_false]
    rw [ih g _ rest (by omega) h1.2, adv_adv, Nat.add_comm 1 (z + 1)]

theorem reads_ReadUEGolomb {k : Nat} (hk : k + 1 < 2 ^ 32) :
    Reads ReadUEGolomb (ueEncode k) k := by
  intro r rest h
  obtain ⟨hz1, hz2⟩ := ueZeros_spec k
  have hlen := h.2.1
  rw [List.length_append, ueEncode_length] at hlen
  unfold ueEncode at h
  rw [List.append_assoc, List.cons_append] at h
  have hc := countZeros_replicate (ueZeros k) (8 * r.buf.length - r.pos + 1) r _
    (by omega) h
  have h2 : Holds (adv r (ueZeros k + 1)) (toBits (ueZeros k) (k + 1) ++ rest) := by
    have hd : Holds r ((List.replicate (ueZeros k) 0 ++ [1]) ++
        (toBits (ueZeros k) (k + 1) ++ rest)) := by simpa using h
    have := Holds.drop (List.replicate (ueZeros k) 0 ++ [1]) hd
    simpa using this
  have hb := reads_ReadBits (ueZeros k) (k + 1) _ rest h2
  unfold H264.ReadUEGolomb
  simp only [hc, hb, adv_adv, toBits_length, ueEncode_length]
  have e1 : ueZeros k + 1 + ueZeros k = 2 * ueZeros k + 1 := by omega
  rw [e1]
  congr 1
  have hm : (k + 1) % 2 ^ ueZeros k = k + 1 - 2 ^ ueZeros k := by
    rw [pow_succ] at hz2
    rw [Nat.mod_eq_sub_mod hz1, Nat.mod_eq_of_lt (by omega)]
  rw [hm]
  have : 2 ^ ueZeros k - 1 + (k + 1 - 2 ^ ueZeros k) = k := by omega
  rw [this]
  exact Nat.mod_eq_of_lt (by omega)

theorem reads_ReadSEGolomb {k : Nat} (hk : k + 1 < 2 ^ 32) :
    Reads ReadSEGolomb (ueEncode k) (seMap k) := by
  intro r rest h
  simp only [H264.ReadSEGolomb, Rd.bind_apply, Rd.pure_apply, reads_ReadUEGolomb hk r rest h]

/-! ## The Exp-Golomb reads -/

/-- C9: for `k` in `[0, 10000]`, wherever the standard Exp-Golomb code of `k`
(`z = floor (log2 (k+1))` zero bits, a 1 bit, the `z` low bits of `k+1`) lies
at the cursor, the unsigned Exp-Golomb read returns `k` and advances the
cursor by `2z+1` bits; the code of 0 is the single bit 1. -/
theorem ue_round_trip (k : Nat) (hk : k ≤ 10000) (r : Reader) (rest : List Nat)
    (h : Holds r (ueEncode k ++ rest)) :
    ReadUEGolomb r = (k, adv r (2 * ueZeros k + 1)) ∧
    (2 ^ ueZeros k ≤ k + 1 ∧ k + 1 < 2 ^ (ueZeros k + 1)) ∧
    ueEncode k = List.replicate (ueZeros k) 0 ++ 1 :: toBits (ueZeros k) (k + 1) ∧
    ueEncode 0 = [1] := by
  refine ⟨?_, ueZeros_spec k, rfl, rfl⟩
  have h32 : k + 1 < 2 ^ 32 := by
    have : (2 : Nat) ^ 32 = 4294967296 := by norm_num
    omega
  rw [reads_ReadUEGolomb h32 r rest h, ueEncode_length]

/-- C9 at `k = 10000`: 13 zero bits, and the read at bit 0 of the four bytes
that hold the code returns 10000 and leaves the cursor at bit 27. -/
theorem ue_round_trip_witness :
    ueZeros 10000 = 13 ∧
    ReadUEGolomb (NewReader ueBuf10000) = (10000, ⟨ueBuf10000, 27, false, 27⟩) := by
  have h := ue_round_trip 10000 (by decide) (NewReader ueBuf10000) [] (by decide)
  refine ⟨by decide, ?_⟩
  rw [h.1]
  decide

theorem readPOC_type1 (s : SPS) (r : Reader)
    (h : (ReadUEGolomb (ReadUEGolomb r).2).1 = 1) :
    (readPOC s r).1.offset_for_non_ref_pic =
        seMap (ReadUEGolomb (ReadBit (ReadUEGolomb (ReadUEGolomb r).2).2).2).1 ∧
      (readPOC s r).1.offset_for_top_to_bottom_field =
        seMap (ReadUEGolomb
          (ReadUEGolomb (ReadBit (ReadUEGolomb (ReadUEGolomb r).2).2).2).2).1 := by
  simp only [readPOC, Rd.bind_apply, Rd.pure_apply, h, ReadSEGolomb]
  simp

/-- C10: the signed Exp-Golomb read is the unsigned read followed by the
mapping `k ↦ -(k/2)` for even `k`, `(k+1)/2` for odd `k`; codes 0..4 map to
0, 1, -1, 2, -2; and when the decoded `pic_order_cnt_type` is 1 the walk
stores in `offset_for_non_ref_pic` and `offset_for_top_to_bottom_field` the
mapped values of the two codes that follow the delta flag. -/
theorem se_mapping :
    (∀ r : Reader, ReadSEGolomb r = (seMap (ReadUEGolomb r).1, (ReadUEGolomb r).2)) ∧
    (∀ k : Nat, (k % 2 = 0 → seMap k = -((k / 2 : Nat) : Int)) ∧
      (k % 2 = 1 → seMap k = (((k + 1) / 2 : Nat) : Int))) ∧
    [seMap 0, seMap 1, seMap 2, seMap 3, seMap 4] = [0, 1, -1, 2, -2] ∧
    (∀ (s : SPS) (r : Reader), (ReadUEGolomb (ReadUEGolomb r).2).1 = 1 →
      (readPOC s r).1.offset_for_non_ref_pic =
          seMap (ReadUEGolomb (ReadBit (ReadUEGolomb (ReadUEGolomb r).2).2).2).1 ∧
        (readPOC s r).1.offset_for_top_to_bottom_field =
          seMap (ReadUEGolomb
            (ReadUEGolomb (ReadBit (ReadUEGolomb (ReadUEGolomb r).2).2).2).2).1) ∧
    (DecodeSPS spsPoc1).map (fun s => (s.pic_order_cnt_type, s.offset_for_non_ref_pic,
      s.offset_for_top_to_bottom_field)) = some (1, -1, 2) := by
  refine ⟨fun r => rfl, fun k => ⟨fun h => ?_, fun h => ?_⟩, by decide, readPOC_type1, by decide⟩
  · simp only [seMap, h, if_true]
  · have : ¬ k % 2 = 0 := by omega
    simp only [seMap, this, if_false]

/-- C10 on the picture order count fields of `spsPoc1`, read from bit 33:
the type is 1 and the codes 2 and 3 are stored as -1 and 2. -/
theorem se_mapping_witness :
    (readPOC {} ⟨spsPoc1, 33, false, 33⟩).1.offset_for_non_ref_pic = -1 ∧
      (readPOC {} ⟨spsPoc1, 33, false, 33⟩).1.offset_for_top_to_bottom_field = 2 := by
  have h := se_mapping.2.2.2.1 {} ⟨spsPoc1, 33, false, 33⟩ (by decide)
  refine ⟨?_, ?_⟩
  · rw [h.1]; decide
  · rw [h.2]; decide

/-! ## Packed bit strings -/

theorem getD_le_one {l : List Nat} (h : ∀ x ∈ l, x ≤ 1) (i : Nat) : l.getD i 0 ≤ 1 := by
  by_cases hi : i < l.length
  · rw [List.getD_eq_getElem _ _ hi]
    exact h _ (List.getElem_mem _)
  · rw [List.getD_eq_default _ _ (by omega)]
    omega

theorem packBits_length (l : List Nat) : (packBits l).length = (l.length + 7) / 8 := by
  simp only [packBits, List.length_map, List.length_range]

theorem packBits_getD (l : List Nat) (j : Nat) (hj : j < (l.length + 7) / 8) :
    (packBits l).getD j 0 = byteOfBits l j := by
  have hj' : j < (packBits l).length := by rw [packBits_length]; exact hj
  rw [List.getD_eq_getElem _ _ hj']
  simp only [packBits, List.getElem_map, List.getElem_range]

/-- Bit `i` of the packed bytes is bit `i` of the bit string. -/
theorem bitAt_packBits {l : List Nat} (h : ∀ x ∈ l, x ≤ 1) (i : Nat) :
    bitAt (packBits l) i = l.getD i 0 := by
  unfold bitAt
  by_cases hj : i / 8 < (l.length + 7) / 8
  · rw [packBits_getD l _ hj]
    unfold byteOfBits
    have h0 := getD_le_one h (8 * (i / 8))
    have h1 := getD_le_one h (8 * (i / 8) + 1)
    have h2 := getD_le_one h (8 * (i / 8) + 2)
    have h3 := getD_le_one h (8 * (i / 8) + 3)
    have h4 := getD_le_one h (8 * (i / 8) + 4)
    have h5 := getD_le_one h (8 * (i / 8) + 5)
    have h6 := getD_le_one h (8 * (i / 8) + 6)
    have h7 := getD_le_one h (8 * (i / 8) + 7)
    have hk : i % 8 < 8 := Nat.mod_lt _ (by omega)
    have hi : i = 8 * (i / 8) + i % 8 := by omega
    generalize i / 8 = q at *
    generalize i % 8 = k at *
    subst hi
    interval_cases k <;> simp only [Nat.add_zero, Nat.reduceSub, Nat.reducePow, Nat.div_one] <;> omega
  · have hl : l.length ≤ i := by omega
    rw [List.getD_eq_default _ _ (by rw [packBits_length]; omega),
      List.getD_eq_default _ _ hl]
    simp

theorem Holds_packBits {l : List Nat} (h : ∀ x ∈ l, x ≤ 1) :
    Holds (NewReader (packBits l)) (l ++ []) := by
  refine ⟨rfl, ?_, fun i _ => ?_⟩
  · show 0 + (l ++ []).length ≤ 8 * (packBits l).length
    rw [packBits_length, List.append_nil]
    omega
  · show bitAt (packBits l) (0 + i) = _
    rw [Nat.zero_add, List.append_nil, bitAt_packBits h]

theorem toBits_le_one (n v : Nat) : ∀ x ∈ toBits n v, x ≤ 1 := by
  induction n with
  | zero => intro x hx; cases hx
  | succ n ih =>
    intro x hx
    simp only [toBits, List.mem_cons] at hx
    rcases hx with rfl | hx
    · omega
    · exact ih x hx

theorem ueEncode_le_one (k : Nat) : ∀ x ∈ ueEncode k, x ≤ 1 := by
  intro x hx
  simp only [ueEncode, List.mem_append, List.mem_replicate, List.mem_cons] at hx
  rcases hx with ⟨_, rfl⟩ | rfl | hx
  · omega
  · omega
  · exact toBits_le_one _ _ x hx

/-! ## The synthetic SPS -/

theorem reads_of_eq {α : Type} {m : Rd α} {l l' : List Nat} {v : α} (h : Reads m l' v)
    (e : l = l') : Reads m l v := e ▸ h

theorem reads_readIdent {p c lv id : Nat} (hp : p < 256) (hc : c < 256) (hl : lv < 256)
    (hid : id + 1 < 2 ^ 32) :
    Reads readIdent (toBits 8 p ++ (toBits 8 c ++ (toBits 8 lv ++ (ueEncode id ++ []))))
      { profile_idc := p, profile_iop := c, level_idc := lv, seq_parameter_set_id := id } := by
  unfold H264.readIdent
  exact reads_bind (reads_ReadByte hp) (reads_bind (reads_ReadByte hc)
    (reads_bind (reads_ReadByte hl) (reads_bind (reads_ReadUEGolomb hid) (reads_pure _))))

theorem reads_readHigh {s : SPS} (h : s.profile_idc ∉ highProfiles) :
    Reads (readHigh s) [] (some s) := by
  unfold H264.readHigh
  rw [if_neg h]
  exact reads_pure _

theorem reads_readPOC (s : SPS) {log2 lsb : Nat} (h1 : log2 + 1 < 2 ^ 32)
    (h2 : lsb + 1 < 2 ^ 32) :
    Reads (readPOC s) (ueEncode log2 ++ (ueEncode 0 ++ (ueEncode lsb ++ [])))
      { s with log2_max_frame_num_minus4 := log2, pic_order_cnt_type := 0,
               log2_max_pic_order_cnt_lsb_minus4 := lsb } := by
  unfold H264.readPOC
  exact reads_bind (reads_ReadUEGolomb h1) (reads_bind (reads_ReadUEGolomb (by norm_num))
    (reads_bind (reads_ReadUEGolomb h2) (reads_pure _)))

theorem reads_readFrame (s : SPS) {refs gaps w h d8 : Nat} (h1 : refs + 1 < 2 ^ 32)
    (hw : w + 1 < 2 ^ 32) (hh : h + 1 < 2 ^ 32) :
    Reads (readFrame s)
      (ueEncode refs ++ ([gaps] ++ (ueEncode w ++ (ueEncode h ++ ([1] ++ ([] ++ ([d8] ++ [])))))))
      { s with num_ref_frames := refs, gaps_in_frame_num_value_allowed_flag := gaps,
               pic_width_in_mbs_minus_1 := w, pic_height_in_map_units_minus_1 := h,
               frame_mbs_only_flag := 1, direct_8x8_inference_flag := d8 } := by
  unfold H264.readFrame
  exact reads_bind (reads_ReadUEGolomb h1) (reads_bind (reads_ReadBit gaps)
    (reads_bind (reads_ReadUEGolomb hw) (reads_bind (reads_ReadUEGolomb hh)
      (reads_bind (reads_ReadBit 1) (reads_bind (reads_pure _)
        (reads_bind (reads_ReadBit d8) (reads_pure _)))))))

theorem reads_readCrop_off (s : SPS) :
    Reads (readCrop s) ([0] ++ []) { s with frame_cropping_flag := 0 } := by
  unfold H264.readCrop
  exact reads_bind (reads_ReadBit 0) (reads_pure _)

theorem reads_readCrop_on (s : SPS) {l r t b : Nat} (hl : l + 1 < 2 ^ 32)
    (hr : r + 1 < 2 ^ 32) (ht : t + 1 < 2 ^ 32) (hb : b + 1 < 2 ^ 32) :
    Reads (readCrop s) ([1] ++ (ueEncode l ++ (ueEncode r ++ (ueEncode t ++ (ueEncode b ++ [])))))
      { s with frame_cropping_flag := 1, frame_crop_left_offset := l,
               frame_crop_right_offset := r, frame_crop_top_offset := t,
               frame_crop_bottom_offset := b } := by
  unfold H264.readCrop
  exact reads_bind (reads_ReadBit 1) (reads_bind (reads_ReadUEGolomb hl)
    (reads_bind (reads_ReadUEGolomb hr) (reads_bind (reads_ReadUEGolomb ht)
      (reads_bind (reads_ReadUEGolomb hb) (reads_pure _)))))

theorem reads_readVUI_off (s : SPS) :
    Reads (readVUI s) ([0] ++ []) { s with vui_parameters_present_flag := 0 } := by
  unfold H264.readVUI
  exact reads_bind (reads_ReadBit 0) (reads_pure _)

theorem reads_walk_of_fields {l : List Nat} {v : Outcome} (h : Reads readFields l v) :
    Reads walk (toBits 8 0x67 ++ l) v := by
  unfold H264.walk
  exact reads_bind (reads_ReadByte (by norm_num)) h

/-- The walk over the synthetic SPS, given the decoding of its cropping
part. -/
theorem reads_walk_layout (L : Layout) (hok : L.ok) (hw : L.w < 2 ^ 31) (hh : L.h < 2 ^ 31)
    {crop : List Nat} {f : SPS → SPS} (hcrop : ∀ s, Reads (readCrop s) crop (f s)) :
    Reads walk (L.bits ++ (crop ++ [0]))
      (Outcome.walked { f L.record with vui_parameters_present_flag := 0 }) := by
  obtain ⟨h1, h2, h3, h4, h5, h6, h7, h8, h9, h10⟩ := hok
  have hw' : L.w + 1 < 2 ^ 32 := by
    have : (2 : Nat) ^ 32 = 2 * 2 ^ 31 := by norm_num
    omega
  have hh' : L.h + 1 < 2 ^ 32 := by
    have : (2 : Nat) ^ 32 = 2 * 2 ^ 31 := by norm_num
    omega
  have hF : Reads readFields
      ((toBits 8 L.profile ++ (toBits 8 L.iop ++ (toBits 8 L.level ++ (ueEncode L.id ++ [])))) ++
        ([] ++ ((ueEncode L.log2 ++ (ueEncode 0 ++ (ueEncode L.lsb ++ []))) ++
          ((ueEncode L.refs ++ ([L.gaps] ++ (ueEncode L.w ++ (ueEncode L.h ++
              ([1] ++ ([] ++ ([L.direct] ++ []))))))) ++
            (crop ++ (([0] ++ []) ++ []))))))
      (Outcome.walked { f L.record with vui_parameters_present_flag := 0 }) := by
    unfold H264.readFields
    exact reads_bind (reads_readIdent h1 h3 h4 h5) (reads_bind (reads_readHigh h2)
      (reads_bind (reads_readPOC _ h6 h7) (reads_bind (reads_readFrame _ h8 hw' hh')
        (reads_bind (hcrop _) (reads_bind (reads_readVUI_off _) (reads_pure _))))))
  refine reads_of_eq (reads_walk_of_fields hF) ?_
  simp only [Layout.bits, List.append_assoc, List.append_nil, List.nil_append]

theorem le_one_append {a b : List Nat} (ha : ∀ x ∈ a, x ≤ 1) (hb : ∀ x ∈ b, x ≤ 1) :
    ∀ x ∈ a ++ b, x ≤ 1 := by
  intro x hx
  rcases List.mem_append.1 hx with h | h
  · exact ha x h
  · exact hb x h

theorem le_one_single {v : Nat} (h : v ≤ 1) : ∀ x ∈ [v], x ≤ 1 := by
  intro x hx
  rw [List.mem_singleton] at hx
  omega

theorem Layout.bits_le_one (L : Layout) (hok : L.ok) : ∀ x ∈ L.bits, x ≤ 1 := by
  obtain ⟨_, _, _, _, _, _, _, _, h9, h10⟩ := hok
  unfold Layout.bits
  exact le_one_append (toBits_le_one _ _) (le_one_append (toBits_le_one _ _)
    (le_one_append (toBits_le_one _ _) (le_one_append (toBits_le_one _ _)
    (le_one_append (ueEncode_le_one _) (le_one_append (ueEncode_le_one _)
    (le_one_append (ueEncode_le_one _) (le_one_append (ueEncode_le_one _)
    (le_one_append (ueEncode_le_one _) (le_one_append (le_one_single h9)
    (le_one_append (ueEncode_le_one _) (le_one_append (ueEncode_le_one _)
    (le_one_append (le_one_single (Nat.le_refl 1)) (le_one_single h10)))))))))))))

/-- A walk that decodes a bit string decodes its packed bytes: `DecodeSPS`
returns the record and the walk ends at the end of the bit string. -/
theorem DecodeSPS_of_Reads {l : List Nat} {s : SPS} (h : Reads walk l (Outcome.walked s))
    (h01 : ∀ x ∈ l, x ≤ 1) :
    DecodeSPS (packBits l) = some s ∧ (walk (NewReader (packBits l))).2.pos = l.length := by
  have hw := h (NewReader (packBits l)) [] (Holds_packBits h01)
  rw [DecodeSPS_eq_some_iff, hw]
  exact ⟨⟨rfl, rfl⟩, Nat.zero_add _⟩

theorem pow31_lt {n : Nat} (h : n < 2 ^ 31) : n + 1 < 2 ^ 32 := by
  have : (2 : Nat) ^ 32 = 2 * 2 ^ 31 := by norm_num
  omega

/-- C7: the synthetic SPS without cropping (header `0x67`, a profile outside
the high profiles, constraint and level bytes, the Exp-Golomb codes in walk
order with `pic_order_cnt_type` 0, `frame_mbs_only_flag` 1, cropping and VUI
flags 0, zero-padded) decodes, for every `w` and `h` below `2^31`, to the
record with `pic_width_in_mbs_minus_1 = w` and
`pic_height_in_map_units_minus_1 = h`, of width `16*(w+1) mod 2^16` and
height `16*(h+1) mod 2^16`. -/
theorem decode_layout (L : Layout) (hok : L.ok) (hw : L.w < 2 ^ 31) (hh : L.h < 2 ^ 31) :
    DecodeSPS L.encode = some L.record ∧
    L.record.pic_width_in_mbs_minus_1 = L.w ∧
    L.record.pic_height_in_map_units_minus_1 = L.h ∧
    L.record.Width = 16 * (L.w + 1) % 2 ^ 16 ∧
    L.record.Height = 16 * (L.h + 1) % 2 ^ 16 := by
  have hr := reads_walk_layout L hok hw hh (fun s => reads_readCrop_off s)
  have h01 : ∀ x ∈ L.bits ++ ([0] ++ [] ++ [0]), x ≤ 1 :=
    le_one_append (L.bits_le_one hok) (by decide)
  refine ⟨(DecodeSPS_of_Reads hr h01).1, rfl, rfl, ?_, ?_⟩
  · simp only [SPS.Width, Layout.record, sub32]
    omega
  · simp only [SPS.Height, Layout.record, sub32]
    rw [if_neg (by decide)]
    omega

/-- C7 at `w = 79`, `h = 44`: the nine bytes of the 720p layout decode to
1280 by 720. -/
theorem decode_layout_witness :
    layout720.encode = [0x67, 0x42, 0xc0, 0x1f, 0xed, 0x00, 0xa0, 0x0b, 0x70] ∧
    (DecodeSPS layout720.encode).map (fun s => (s.Width, s.Height)) = some (1280, 720) := by
  have h := decode_layout layout720 (by decide) (by decide) (by decide)
  refine ⟨by decide, ?_⟩
  rw [h.1, Option.map_some', h.2.2.2.1, h.2.2.2.2]
  decide

/-- C8: the synthetic SPS with `frame_cropping_flag` 1 followed by the codes
of `l`, `r`, `t`, `b` decodes to the record that holds them as the left,
right, top and bottom offsets; its height is `16*(h+1) - 2*(t+b)` and its
width `16*(w+1) - 2*(l+r)` modulo `2^16`, so that with `l = r = 0` the
width is that of the SPS without cropping, whatever `t` and `b`. -/
theorem decode_layout_crop (L : Layout) (hok : L.ok) (hw : L.w < 2 ^ 31) (hh : L.h < 2 ^ 31)
    (l r t b : Nat) (hl : l < 2 ^ 31) (hr : r < 2 ^ 31) (ht : t < 2 ^ 31) (hb : b < 2 ^ 31) :
    DecodeSPS (L.encodeCrop l r t b) = some (L.recordCrop l r t b) ∧
    ((L.recordCrop l r t b).frame_crop_left_offset = l ∧
      (L.recordCrop l r t b).frame_crop_right_offset = r ∧
      (L.recordCrop l r t b).frame_crop_top_offset = t ∧
      (L.recordCrop l r t b).frame_crop_bottom_offset = b) ∧
    ((L.recordCrop l r t b).Height : Int) =
      (16 * ((L.h : Int) + 1) - 2 * ((t : Int) + (b : Int))) % 65536 ∧
    ((L.recordCrop l r t b).Width : Int) =
      (16 * ((L.w : Int) + 1) - 2 * ((l : Int) + (r : Int))) % 65536 ∧
    (l = 0 → r = 0 → (L.recordCrop l r t b).Width = L.record.Width) := by
  have hr' := reads_walk_layout L hok hw hh
    (fun s => reads_readCrop_on s (pow31_lt hl) (pow31_lt hr) (pow31_lt ht) (pow31_lt hb))
  have h01 : ∀ x ∈ L.bits ++ ([1] ++ (ueEncode l ++ (ueEncode r ++ (ueEncode t ++
      (ueEncode b ++ [])))) ++ [0]), x ≤ 1 :=
    le_one_append (L.bits_le_one hok) (le_one_append (le_one_append (by decide)
      (le_one_append (ueEncode_le_one _) (le_one_append (ueEncode_le_one _)
        (le_one_append (ueEncode_le_one _) (le_one_append (ueEncode_le_one _)
          (by decide)))))) (by decide))
  have hd := (DecodeSPS_of_Reads hr' h01).1
  have he : L.encodeCrop l r t b = packBits (L.bits ++ ([1] ++ (ueEncode l ++ (ueEncode r ++
      (ueEncode t ++ (ueEncode b ++ [])))) ++ [0])) := by
    simp only [Layout.encodeCrop, List.append_assoc, List.append_nil]
  rw [he]
  refine ⟨hd, ⟨rfl, rfl, rfl, rfl⟩, ?_, ?_, ?_⟩
  · simp only [SPS.Height, Layout.recordCrop, Layout.record, sub32]
    rw [if_neg (by decide)]
    omega
  · simp only [SPS.Width, Layout.recordCrop, Layout.record, sub32]
    omega
  · intro h1 h2
    subst h1 h2
    rfl

/-- C8 at `w = 79`, `h = 44`, `l = r = 0`, `t = b = 4`: the eleven bytes
decode to 1280 by 704. -/
theorem decode_layout_crop_witness :
    layout720.encodeCrop 0 0 4 4 =
      [0x67, 0x42, 0xc0, 0x1f, 0xed, 0x00, 0xa0, 0x0b, 0x7e, 0x52, 0x80] ∧
    (DecodeSPS (layout720.encodeCrop 0 0 4 4)).map (fun s => (s.Width, s.Height)) =
      some (1280, 704) := by
  have h := decode_layout_crop layout720 (by decide) (by decide) (by decide) 0 0 4 4
    (by decide) (by decide) (by decide) (by decide)
  refine ⟨by decide, ?_⟩
  rw [h.1, Option.map_some']
  decide

/-! ## Sticky exhaustion -/

theorem flagAtEnd_ReadBit : Pres FlagAtEnd ReadBit := by
  intro r h
  by_cases hp : r.pos < 8 * r.buf.length
  · rw [ReadBit_lt hp]
    intro he
    have := h he
    omega
  · rw [ReadBit_ge hp]
    intro _
    show 8 * r.buf.length ≤ r.pos
    omega

theorem pres_run {P : Reader → Prop} (h : Pres P ReadBit) (o : Op) : Pres P o.run := by
  cases o with
  | bit => exact pres_bind h (fun _ => pres_pure _)
  | bits n => exact pres_bind (pres_ReadBits h n) (fun _ => pres_pure _)
  | byte => exact pres_bind (pres_ReadByte h) (fun _ => pres_pure _)
  | ue => exact pres_bind (pres_ReadUEGolomb h) (fun _ => pres_pure _)
  | se => exact pres_ReadSEGolomb h

theorem pres_runOps {P : Reader → Prop} (h : Pres P ReadBit) (os : List Op) :
    Pres P (runOps os) := by
  induction os with
  | nil => exact pres_pure _
  | cons o os ih =>
    exact pres_bind (pres_run h o) (fun _ => pres_bind ih (fun _ => pres_pure _))

theorem exhausted_ReadBit {r : Reader} (h : Exhausted r) :
    (ReadBit r).1 = 0 ∧ Exhausted (ReadBit r).2 := by
  have hp : ¬ r.pos < 8 * r.buf.length := by have := h.2; omega
  rw [ReadBit_ge hp]
  exact ⟨rfl, rfl, h.2⟩

theorem exhausted_ReadBits (n : Nat) {r : Reader} (h : Exhausted r) :
    (ReadBits n r).1 = 0 ∧ Exhausted (ReadBits n r).2 := by
  induction n generalizing r with
  | zero => exact ⟨rfl, h⟩
  | succ n ih =>
    obtain ⟨h1, h2⟩ := exhausted_ReadBit h
    obtain ⟨h3, h4⟩ := ih h2
    simp only [ReadBits, Rd.bind_apply, Rd.pure_apply, h1, h3]
    exact ⟨by simp, h4⟩

theorem exhausted_ReadByte {r : Reader} (h : Exhausted r) :
    (ReadByte r).1 = 0 ∧ Exhausted (ReadByte r).2 := by
  obtain ⟨h1, h2⟩ := exhausted_ReadBits 8 h
  simp only [ReadByte, Rd.bind_apply, Rd.pure_apply, h1]
  exact ⟨trivial, h2⟩

theorem exhausted_ReadUEGolomb {r : Reader} (h : Exhausted r) :
    (ReadUEGolomb r).1 = 0 ∧ Exhausted (ReadUEGolomb r).2 := by
  obtain ⟨h1, h2⟩ := exhausted_ReadBit h
  have hc : countZeros (8 * r.buf.length - r.pos + 1) r = (0, (ReadBit r).2) := by
    rw [countZeros_succ, if_pos (Or.inr h2.1)]
  unfold ReadUEGolomb
  simp only [hc, ReadBits, Rd.pure_apply]
  exact ⟨by norm_num, h2⟩

theorem exhausted_ReadSEGolomb {r : Reader} (h : Exhausted r) :
    (ReadSEGolomb r).1 = 0 ∧ Exhausted (ReadSEGolomb r).2 := by
  obtain ⟨h1, h2⟩ := exhausted_ReadUEGolomb h
  simp only [ReadSEGolomb, Rd.bind_apply, Rd.pure_apply, h1]
  exact ⟨by decide, h2⟩

theorem exhausted_run (o : Op) {r : Reader} (h : Exhausted r) :
    (o.run r).1 = 0 ∧ Exhausted (o.run r).2 := by
  cases o with
  | bit =>
    obtain ⟨h1, h2⟩ := exhausted_ReadBit h
    simp only [Op.run, Rd.bind_apply, Rd.pure_apply, h1]
    exact ⟨rfl, h2⟩
  | bits n =>
    obtain ⟨h1, h2⟩ := exhausted_ReadBits n h
    simp only [Op.run, Rd.bind_apply, Rd.pure_apply, h1]
    exact ⟨rfl, h2⟩
  | byte =>
    obtain ⟨h1, h2⟩ := exhausted_ReadByte h
    simp only [Op.run, Rd.bind_apply, Rd.pure_apply, h1]
    exact ⟨rfl, h2⟩
  | ue =>
    obtain ⟨h1, h2⟩ := exhausted_ReadUEGolomb h
    simp only [Op.run, Rd.bind_apply, Rd.pure_apply, h1]
    exact ⟨rfl, h2⟩
  | se => exact exhausted_ReadSEGolomb h

theorem exhausted_runOps (os : List Op) {r : Reader} (h : Exhausted r) :
    (∀ v ∈ (runOps os r).1, v = 0) ∧ Exhausted (runOps os r).2 := by
  induction os generalizing r with
  | nil => exact ⟨fun v hv => (by cases hv), h⟩
  | cons o os ih =>
    obtain ⟨h1, h2⟩ := exhausted_run o h
    obtain ⟨h3, h4⟩ := ih h2
    simp only [runOps, Rd.bind_apply, Rd.pure_apply]
    refine ⟨fun v hv => ?_, h4⟩
    rcases List.mem_cons.1 hv with rfl | hv
    · exact h1
    · exact h3 v hv

/-- C11: over any buffer, once a sequence of reads has set the exhaustion
flag, every read of any sequence that follows (bit, `n` bits, byte, unsigned
or signed Exp-Golomb) returns 0 and leaves the flag set; the walk of
`DecodeSPS` keeps a flag that is set, so a record is returned only when every
single-bit read of the walk was inside the buffer. -/
theorem sticky_exhaustion (b : List Nat) (before after : List Op)
    (h : (runOps before (NewReader b)).2.EOF = true) :
    (∀ v ∈ (runOps after (runOps before (NewReader b)).2).1, v = 0) ∧
    (runOps after (runOps before (NewReader b)).2).2.EOF = true ∧
    (∀ r : Reader, r.EOF = true → (walk r).2.EOF = true) ∧
    (∀ s, DecodeSPS b = some s →
      (walk (NewReader b)).2.ticks = (walk (NewReader b)).2.pos) := by
  have hf : FlagAtEnd (runOps before (NewReader b)).2 :=
    pres_apply (pres_runOps flagAtEnd_ReadBit before) (NewReader b) (fun he => by cases he)
  obtain ⟨h1, h2⟩ := exhausted_runOps after ⟨h, hf h⟩
  refine ⟨h1, h2.1, fun r hr => pres_apply (pres_walk sticky_ReadBit) r hr, fun s hs => ?_⟩
  obtain ⟨_, he⟩ := (DecodeSPS_eq_some_iff b s).1 hs
  exact (pres_apply (pres_walk (inv_ReadBit b)) (NewReader b) (inv_NewReader b)).2.2 he

/-- C11 over the two bytes `0xff 0x00`: a 16-bit read, then an unsigned
Exp-Golomb read that runs out of bits, then five more reads, all 0. -/
theorem sticky_exhaustion_witness :
    (runOps [Op.bits 16, Op.ue] (NewReader [0xff, 0x00])).2.EOF = true ∧
    (∀ v ∈ (runOps [Op.bit, Op.bits 5, Op.byte, Op.ue, Op.se]
      (runOps [Op.bits 16, Op.ue] (NewReader [0xff, 0x00])).2).1, v = 0) ∧
    (runOps [Op.bit, Op.bits 5, Op.byte, Op.ue, Op.se]
      (runOps [Op.bits 16, Op.ue] (NewReader [0xff, 0x00])).2).2.EOF = true ∧
    (runOps [Op.bit, Op.bits 5, Op.byte, Op.ue, Op.se]
      (runOps [Op.bits 16, Op.ue] (NewReader [0xff, 0x00])).2).1 = [0, 0, 0, 0, 0] := by
  have h := sticky_exhaustion [0xff, 0x00] [Op.bits 16, Op.ue]
    [Op.bit, Op.bits 5, Op.byte, Op.ue, Op.se] (by decide)
  exact ⟨by decide, h.1, h.2.1, by decide⟩

/-! ## One nil for every failure -/

/-- C12, the claim as stated fails: a scaling-list refusal, a wrong type tag
and a truncated buffer all give the same result, nil. -/
theorem failure_kinds_counterexample :
    (walk (NewReader spsScaling)).1 = Outcome.scalingList ∧
    (walk (NewReader ppsUnit)).1 = Outcome.wrongType ∧
    ((walk (NewReader spsBaseline.dropLast)).1 ≠ Outcome.wrongType ∧
      (walk (NewReader spsBaseline.dropLast)).1 ≠ Outcome.scalingList ∧
      (walk (NewReader spsBaseline.dropLast)).2.EOF = true) ∧
    DecodeSPS spsScaling = DecodeSPS ppsUnit ∧
    DecodeSPS spsScaling = DecodeSPS spsBaseline.dropLast := by
  decide

/-- C12, amended: `DecodeSPS` has one result for every failed decode; a
buffer refused for a scaling-list flag and a buffer refused for its type tag
or for truncation (the walk ended with the exhaustion flag set) both give
nil, so the result does not tell the failure kinds apart. -/
theorem failure_kinds_merge (b1 b2 : List Nat)
    (h1 : (walk (NewReader b1)).1 = Outcome.scalingList)
    (h2 : (walk (NewReader b2)).1 = Outcome.wrongType ∨
      (walk (NewReader b2)).2.EOF = true) :
    DecodeSPS b1 = none ∧ DecodeSPS b2 = none ∧ DecodeSPS b1 = DecodeSPS b2 := by
  have e1 : DecodeSPS b1 = none := (DecodeSPS_eq_none_iff b1).2 (Or.inr (Or.inl h1))
  have e2 : DecodeSPS b2 = none := by
    rcases h2 with h | h
    · exact (DecodeSPS_eq_none_iff b2).2 (Or.inl h)
    · exact (DecodeSPS_eq_none_iff b2).2 (Or.inr (Or.inr h))
  exact ⟨e1, e2, by rw [e1, e2]⟩

/-- C12 amended, at the High profile SPS with a scaling-list flag and at the
Baseline SPS without its last byte. -/
theorem failure_kinds_merge_witness :
    DecodeSPS spsScaling = none ∧ DecodeSPS spsBaseline.dropLast = none ∧
      DecodeSPS spsScaling = DecodeSPS spsBaseline.dropLast :=
  failure_kinds_merge spsScaling spsBaseline.dropLast (by decide) (Or.inr (by decide))

/-! ## Extension and crop underflow -/

/-- C19: when `DecodeSPS` succeeds on `b` it succeeds on `b` followed by any
bytes `t`, with the same record, hence the same width and height, and the
walk ends at the same bit: the bytes after the last field read have no
influence. -/
theorem decode_extension (b t : List Nat) (s : SPS) (h : DecodeSPS b = some s) :
    DecodeSPS (b ++ t) = some s ∧
    (DecodeSPS (b ++ t)).map SPS.Width = (DecodeSPS b).map SPS.Width ∧
    (DecodeSPS (b ++ t)).map SPS.Height = (DecodeSPS b).map SPS.Height ∧
    (walk (NewReader (b ++ t))).2.pos = (walk (NewReader b)).2.pos := by
  obtain ⟨h1, h2⟩ := DecodeSPS_append t h
  exact ⟨h1, by rw [h1, h], by rw [h1, h], h2⟩

/-- C19 at the Baseline SPS followed by two bytes: the same 320 by 742. -/
theorem decode_extension_witness :
    (DecodeSPS (spsBaseline ++ [0xde, 0xad])).map (fun s => (s.Width, s.Height)) =
      some (320, 742) ∧
    DecodeSPS (spsBaseline ++ [0xde, 0xad]) = DecodeSPS spsBaseline := by
  have hs : ∃ s, DecodeSPS spsBaseline = some s := by
    cases hd : DecodeSPS spsBaseline with
    | none => exact absurd hd (by decide)
    | some s => exact ⟨s, rfl⟩
  obtain ⟨s, hs⟩ := hs
  have h := decode_extension spsBaseline [0xde, 0xad] s hs
  refine ⟨?_, by rw [h.1, hs]⟩
  rw [h.1, ← hs]
  decide

/-- C17: crop offsets are not checked against the picture size. `DecodeSPS`
returns a record for a one-macroblock SPS with left and top offsets 9, whose
crop (18) exceeds the 16 samples, and `Width` and `Height` return the
wrapped value 65534; in general, when the crop exceeds the uncropped size by
`d ≤ 65536`, the result is `65536 - d`. -/
theorem crop_underflow :
    (∃ s, DecodeSPS spsUnderflow = some s ∧
      s.pic_width_in_mbs_minus_1 = 0 ∧ s.frame_crop_left_offset = 9 ∧
      16 * (s.pic_width_in_mbs_minus_1 + 1) <
        2 * (s.frame_crop_left_offset + s.frame_crop_right_offset) ∧
      s.Width = 65534 ∧
      s.pic_height_in_map_units_minus_1 = 0 ∧ s.frame_crop_top_offset = 9 ∧
      16 * (s.pic_height_in_map_units_minus_1 + 1) <
        2 * (s.frame_crop_top_offset + s.frame_crop_bottom_offset) ∧
      s.Height = 65534) ∧
    (∀ s : SPS,
      16 * (s.pic_width_in_mbs_minus_1 + 1) <
          2 * (s.frame_crop_left_offset + s.frame_crop_right_offset) →
        2 * (s.frame_crop_left_offset + s.frame_crop_right_offset) -
          16 * (s.pic_width_in_mbs_minus_1 + 1) ≤ 65536 →
        s.Width = 65536 - (2 * (s.frame_crop_left_offset + s.frame_crop_right_offset) -
          16 * (s.pic_width_in_mbs_minus_1 + 1))) ∧
    (∀ s : SPS, s.frame_mbs_only_flag ≠ 0 →
      16 * (s.pic_height_in_map_units_minus_1 + 1) <
          2 * (s.frame_crop_top_offset + s.frame_crop_bottom_offset) →
        2 * (s.frame_crop_top_offset + s.frame_crop_bottom_offset) -
          16 * (s.pic_height_in_map_units_minus_1 + 1) ≤ 65536 →
        s.Height = 65536 - (2 * (s.frame_crop_top_offset + s.frame_crop_bottom_offset) -
          16 * (s.pic_height_in_map_units_minus_1 + 1))) := by
  refine ⟨?_, fun s h1 h2 => ?_, fun s h0 h1 h2 => ?_⟩
  · exact ⟨recUnderflow, by decide, by decide⟩
  · unfold SPS.Width sub32
    simp only []
    omega
  · unfold SPS.Height sub32
    simp only []
    rw [if_neg h0]
    omega

/-- C17 at one macroblock with a left offset of 9: 16 - 18 wraps to 65534. -/
theorem crop_underflow_witness :
    ({ pic_width_in_mbs_minus_1 := 0, frame_crop_left_offset := 9 } : SPS).Width = 65534 :=
  crop_underflow.2.1 { pic_width_in_mbs_minus_1 := 0, frame_crop_left_offset := 9 }
    (by decide) (by decide)

/-! ## Reads in step -/

theorem simul_pure {R : Reader → Reader → Prop} {C : Reader → Prop} {α : Type} (a : α) :
    Simul R C (pure a : Rd α) :=
  ⟨pres_pure a, fun _ _ h _ => ⟨rfl, h⟩⟩

theorem simul_bind {R : Reader → Reader → Prop} {C : Reader → Prop} {α β : Type}
    {m : Rd α} {f : α → Rd β} (hm : Simul R C m) (hf : ∀ a, Simul R C (f a)) :
    Simul R C (m >>= f) := by
  refine ⟨pres_bind hm.1 (fun a => (hf a).1), ?_⟩
  intro r r' hr hc
  simp only [Rd.bind_apply] at hc ⊢
  have h1 : C (m r).2 := by
    by_contra hn
    exact (hf (m r).1).1 _ hn hc
  obtain ⟨hv, hx⟩ := hm.2 r r' hr h1
  rw [hv]
  exact (hf (m r).1).2 _ _ hx hc

theorem simul_ReadBits {R : Reader → Reader → Prop} {C : Reader → Prop}
    (hb : Simul R C ReadBit) (n : Nat) : Simul R C (ReadBits n) := by
  induction n with
  | zero => exact simul_pure 0
  | succ n ih => exact simul_bind hb (fun _ => simul_bind ih (fun _ => simul_pure _))

theorem simul_ReadByte {R : Reader → Reader → Prop} {C : Reader → Prop}
    (hb : Simul R C ReadBit) : Simul R C ReadByte :=
  simul_bind (simul_ReadBits hb 8) (fun _ => simul_pure _)

theorem simul_countZeros {R : Reader → Reader → Prop} {C : Reader → Prop}
    (hs : ∀ r r', R r r' → SameBit r r') (hb : Simul R C ReadBit) (n : Nat) :
    Simul R C (countZeros n) := by
  refine ⟨pres_countZeros hb.1 n, ?_⟩
  induction n with
  | zero => intro r r' h _; exact ⟨rfl, h⟩
  | succ n ih =>
    intro r r' hr hc
    rw [countZeros_succ] at hc ⊢
    rw [countZeros_succ]
    have h1 : C (ReadBit r).2 := by
      by_contra hn
      split at hc
      · exact hn hc
      · exact pres_countZeros hb.1 n _ hn hc
    obtain ⟨hv, hx⟩ := hb.2 r r' hr h1
    rw [hv, (hs _ _ hx).2.2.1]
    split
    · exact ⟨rfl, hx⟩
    · rename_i hcond
      rw [if_neg hcond] at hc
      obtain ⟨e1, e2⟩ := ih _ _ hx hc
      exact ⟨by rw [e1], e2⟩

theorem simul_ReadUEGolomb {R : Reader → Reader → Prop} {C : Reader → Prop}
    (hs : ∀ r r', R r r' → SameBit r r') (hb : Simul R C ReadBit) :
    Simul R C ReadUEGolomb := by
  refine ⟨pres_ReadUEGolomb hb.1, ?_⟩
  intro r r' hr hc
  unfold H264.ReadUEGolomb at hc ⊢
  simp only at hc ⊢
  obtain ⟨hl, hp, _, _⟩ := hs r r' hr
  rw [countZeros_fuel (8 * r'.buf.length - r'.pos + 1) (8 * r.buf.length - r.pos + 1) r'
    (Nat.lt_succ_self _) (by rw [hp]; omega)]
  have h1 : C (countZeros (8 * r.buf.length - r.pos + 1) r).2 := by
    by_contra hn
    exact (simul_ReadBits hb _).1 _ hn hc
  obtain ⟨e1, e2⟩ := (simul_countZeros hs hb _).2 r r' hr h1
  obtain ⟨e3, e4⟩ := (simul_ReadBits hb _).2 _ _ e2 hc
  rw [e1, e3]
  exact ⟨rfl, e4⟩

theorem simul_ReadSEGolomb {R : Reader → Reader → Prop} {C : Reader → Prop}
    (hs : ∀ r r', R r r' → SameBit r r') (hb : Simul R C ReadBit) :
    Simul R C ReadSEGolomb :=
  simul_bind (simul_ReadUEGolomb hs hb) (fun _ => simul_pure _)

theorem simul_readRefFrames {R : Reader → Reader → Prop} {C : Reader → Prop}
    (hs : ∀ r r', R r r' → SameBit r r') (hb : Simul R C ReadBit) (n : Nat) :
    Simul R C (readRefFrames n) := by
  induction n with
  | zero => exact simul_pure ()
  | succ n ih => exact simul_bind (simul_ReadSEGolomb hs hb) (fun _ => ih)

theorem simul_readScalingFlags {R : Reader → Reader → Prop} {C : Reader → Prop}
    (hb : Simul R C ReadBit) (n : Nat) : Simul R C (readScalingFlags n) := by
  induction n with
  | zero => exact simul_pure false
  | succ n ih =>
    refine simul_bind hb (fun b => ?_)
    split
    · exact simul_pure _
    · exact ih

theorem simul_readIdent {R : Reader → Reader → Prop} {C : Reader → Prop}
    (hs : ∀ r r', R r r' → SameBit r r') (hb : Simul R C ReadBit)  :
    Simul R C readIdent := by
  unfold H264.readIdent
  repeat with_reducible first
    | exact simul_pure _
    | exact simul_ReadByte hb
    | exact simul_ReadUEGolomb hs hb
    | exact simul_ReadSEGolomb hs hb
    | exact simul_ReadBits hb _
    | exact simul_readRefFrames hs hb _
    | exact simul_readScalingFlags hb _
    | exact hb
    | refine simul_bind ?_ (fun _ => ?_)
    | split

theorem simul_readChroma {R : Reader → Reader → Prop} {C : Reader → Prop}
    (hs : ∀ r r', R r r' → SameBit r r') (hb : Simul R C ReadBit) (s : SPS) :
    Simul R C (readChroma s) := by
  unfold H264.readChroma
  repeat with_reducible first
    | exact simul_pure _
    | exact simul_ReadByte hb
    | exact simul_ReadUEGolomb hs hb
    | exact simul_ReadSEGolomb hs hb
    | exact simul_ReadBits hb _
    | exact simul_readRefFrames hs hb _
    | exact simul_readScalingFlags hb _
    | exact hb
    | refine simul_bind ?_ (fun _ => ?_)
    | split

theorem simul_readHigh {R : Reader → Reader → Prop} {C : Reader → Prop}
    (hs : ∀ r r', R r r' → SameBit r r') (hb : Simul R C ReadBit) (s : SPS) :
    Simul R C (readHigh s) := by
  unfold H264.readHigh
  repeat with_reducible first
    | exact simul_pure _
    | exact simul_ReadByte hb
    | exact simul_ReadUEGolomb hs hb
    | exact simul_ReadSEGolomb hs hb
    | exact simul_ReadBits hb _
    | exact simul_readRefFrames hs hb _
    | exact simul_readScalingFlags hb _
    | exact hb
    | refine simul_bind ?_ (fun _ => ?_)
    | split
    | exact simul_readChroma hs hb _

theorem simul_readPOC {R : Reader → Reader → Prop} {C : Reader → Prop}
    (hs : ∀ r r', R r r' → SameBit r r') (hb : Simul R C ReadBit) (s : SPS) :
    Simul R C (readPOC s) := by
  unfold H264.readPOC
  repeat with_reducible first
    | exact simul_pure _
    | exact simul_ReadByte hb
    | exact simul_ReadUEGolomb hs hb
    | exact simul_ReadSEGolomb hs hb
    | exact simul_ReadBits hb _
    | exact simul_readRefFrames hs hb _
    | exact simul_readScalingFlags hb _
    | exact hb
    | refine simul_bind ?_ (fun _ => ?_)
    | split

theorem simul_readFrame {R : Reader → Reader → Prop} {C : Reader → Prop}
    (hs : ∀ r r', R r r' → SameBit r r') (hb : Simul R C ReadBit) (s : SPS) :
    Simul R C (readFrame s) := by
  unfold H264.readFrame
  repeat with_reducible first
    | exact simul_pure _
    | exact simul_ReadByte hb
    | exact simul_ReadUEGolomb hs hb
    | exact simul_ReadSEGolomb hs hb
    | exact simul_ReadBits hb _
    | exact simul_readRefFrames hs hb _
    | exact simul_readScalingFlags hb _
    | exact hb
    | refine simul_bind ?_ (fun _ => ?_)
    | split

theorem simul_readCrop {R : Reader → Reader → Prop} {C : Reader → Prop}
    (hs : ∀ r r', R r r' → SameBit r r') (hb : Simul R C ReadBit) (s : SPS) :
    Simul R C (readCrop s) := by
  unfold H264.readCrop
  repeat with_reducible first
    | exact simul_pure _
    | exact simul_ReadByte hb
    | exact simul_ReadUEGolomb hs hb
    | exact simul_ReadSEGolomb hs hb
    | exact simul_ReadBits hb _
    | exact simul_readRefFrames hs hb _
    | exact simul_readScalingFlags hb _
    | exact hb
    | refine simul_bind ?_ (fun _ => ?_)
    | split

theorem simul_readVUI {R : Reader → Reader → Prop} {C : Reader → Prop}
    (hb : Simul R C ReadBit) (s : SPS) :
    Simul R C (readVUI s) := by
  unfold H264.readVUI
  repeat with_reducible first
    | exact simul_pure _
    | exact simul_ReadByte hb
    | exact simul_ReadBits hb _
    | exact simul_readScalingFlags hb _
    | exact hb
    | refine simul_bind ?_ (fun _ => ?_)
    | split

theorem simul_readFields {R : Reader → Reader → Prop} {C : Reader → Prop}
    (hs : ∀ r r', R r r' → SameBit r r') (hb : Simul R C ReadBit) :
    Simul R C readFields := by
  unfold H264.readFields
  repeat with_reducible first
    | exact simul_pure _
    | exact simul_readIdent hs hb
    | exact simul_readHigh hs hb _
    | exact simul_readPOC hs hb _
    | exact simul_readFrame hs hb _
    | exact simul_readCrop hs hb _
    | exact simul_readVUI hb _
    | refine simul_bind ?_ (fun _ => ?_)
    | split

/-- Cursors at the same place over buffers that agree from there on read the
same. -/
theorem fut_ReadBit : Simul Fut (fun _ => True) ReadBit := by
  refine ⟨fun _ h _ => h trivial, ?_⟩
  rintro r r' ⟨⟨h1, h2, h3, h4⟩, hbits⟩ _
  by_cases hp : r.pos < 8 * r.buf.length
  · have hp' : r'.pos < 8 * r'.buf.length := by rw [h1, h2]; exact hp
    rw [ReadBit_lt hp, ReadBit_lt hp', h2, h4, hbits _ (Nat.le_refl _)]
    exact ⟨rfl, ⟨h1, rfl, h3, rfl⟩, fun i hi => hbits i (by
      have : r.pos + 1 ≤ i := hi
      omega)⟩
  · have hp' : ¬ r'.pos < 8 * r'.buf.length := by rw [h1, h2]; exact hp
    rw [ReadBit_ge hp, ReadBit_ge hp', h4]
    exact ⟨rfl, ⟨h1, h2, rfl, rfl⟩, fun i hi => hbits i hi⟩

/-- Cursors at the same place over buffers that agree below bit `p` read the
same as long as the read stays below `p` and inside the buffer. -/
theorem pre_ReadBit (p : Nat) : Simul (Pre p) (Within p) ReadBit := by
  refine ⟨?_, ?_⟩
  · intro r hn hc
    apply hn
    by_cases hp : r.pos < 8 * r.buf.length
    · rw [ReadBit_lt hp] at hc
      exact ⟨hc.1, by have := hc.2; simp only at this; omega⟩
    · rw [ReadBit_ge hp] at hc
      exact absurd hc.1 (by simp)
  · rintro r r' ⟨⟨h1, h2, h3, h4⟩, hbits⟩ hc
    by_cases hp : r.pos < 8 * r.buf.length
    · have hp' : r'.pos < 8 * r'.buf.length := by rw [h1, h2]; exact hp
      rw [ReadBit_lt hp] at hc
      have hlt : r.pos < p := by have := hc.2; simp only at this; omega
      rw [ReadBit_lt hp, ReadBit_lt hp', h2, h4, hbits _ hlt]
      exact ⟨rfl, ⟨h1, rfl, h3, rfl⟩, hbits⟩
    · rw [ReadBit_ge hp] at hc
      exact absurd hc.1 (by simp)

theorem fut_sameBit (r r' : Reader) (h : Fut r r') : SameBit r r' :=
  ⟨Nat.le_of_eq h.1.1, h.1.2⟩

theorem pre_sameBit (p : Nat) (r r' : Reader) (h : Pre p r r') : SameBit r r' :=
  ⟨Nat.le_of_eq h.1.1, h.1.2⟩

/-! ## The high bits of the header byte -/

theorem DecodeSPS_congr {b b' : List Nat}
    (h1 : (walk (NewReader b')).1 = (walk (NewReader b)).1)
    (h2 : (walk (NewReader b')).2.EOF = (walk (NewReader b)).2.EOF) :
    DecodeSPS b' = DecodeSPS b := by
  unfold DecodeSPS
  rcases hw : walk (NewReader b) with ⟨o, rf⟩
  rcases hw' : walk (NewReader b') with ⟨o', rf'⟩
  rw [hw, hw'] at h1 h2
  simp only at h1 h2
  subst h1
  cases o' with
  | wrongType => rfl
  | scalingList => rfl
  | walked s => simp only [h2]

theorem bitAt_cons_tail (x y : Nat) (xs : List Nat) {i : Nat} (hi : 8 ≤ i) :
    bitAt (y :: xs) i = bitAt (x :: xs) i := by
  unfold bitAt
  obtain ⟨k, hk⟩ : ∃ k, i / 8 = k + 1 := ⟨i / 8 - 1, by omega⟩
  rw [hk, List.getD_cons_succ, List.getD_cons_succ]

theorem fut_afterHeader (x y : Nat) (xs : List Nat) :
    Fut (afterHeader (x :: xs)) (afterHeader (y :: xs)) := by
  unfold afterHeader
  rw [ReadByte_NewReader_cons, ReadByte_NewReader_cons]
  exact ⟨⟨rfl, rfl, rfl, rfl⟩, fun i hi => bitAt_cons_tail x y xs hi⟩

/-- C20: two buffers that differ only in the three high bits of their first
byte (the same low 5 bits, the same bytes after it) give the same result:
nil for both, or the same record. -/
theorem header_high_bits (x y : Nat) (xs : List Nat) (h : x % 32 = y % 32) :
    DecodeSPS (y :: xs) = DecodeSPS (x :: xs) := by
  have hf := fut_afterHeader x y xs
  apply DecodeSPS_congr
  · rw [walk_NewReader, walk_NewReader]
    simp only [List.headD_cons, h]
    split
    · rfl
    · exact ((simul_readFields fut_sameBit fut_ReadBit).2 _ _ hf trivial).1
  · rw [walk_NewReader, walk_NewReader]
    simp only [List.headD_cons, h]
    split
    · exact hf.1.2.2.1
    · exact ((simul_readFields fut_sameBit fut_ReadBit).2 _ _ hf trivial).2.1.2.2.1

/-- C20 at the Baseline SPS with header byte `0x07` (`nal_ref_idc` 0) and
`0xe7` (all three high bits set) instead of `0x67`. -/
theorem header_high_bits_witness :
    DecodeSPS (0x07 :: spsBaseline.tail) = DecodeSPS spsBaseline ∧
    DecodeSPS (0xe7 :: spsBaseline.tail) = DecodeSPS spsBaseline :=
  ⟨header_high_bits 0x67 0x07 spsBaseline.tail (by decide),
   header_high_bits 0x67 0xe7 spsBaseline.tail (by decide)⟩

/-! ## Removing the final byte -/

/-- C4, the claim as stated fails: the Baseline SPS followed by one more byte
decodes, and so does the same buffer with its final byte removed, to the
same record. -/
theorem decodeSPS_dropLast_counterexample :
    spsTrailing ≠ [] ∧ (DecodeSPS spsTrailing).isSome = true ∧
      DecodeSPS spsTrailing.dropLast = DecodeSPS spsTrailing := by
  have h : ∃ s, DecodeSPS spsBaseline = some s := by
    cases hd : DecodeSPS spsBaseline with
    | none => exact absurd hd (by decide)
    | some s => exact ⟨s, rfl⟩
  obtain ⟨s, hs⟩ := h
  have h2 : DecodeSPS spsTrailing = some s := (DecodeSPS_append [0x80] hs).1
  have h3 : spsTrailing.dropLast = spsBaseline := by decide
  refine ⟨by decide, by rw [h2]; rfl, by rw [h3, h2, hs]⟩

/-- A single-bit read that stays before the bytes `t` reads the same with
and without them. -/
theorem cut_ReadBit (t : List Nat) : Simul (Cut t) (Inside t) ReadBit := by
  refine ⟨?_, ?_⟩
  · intro r hn hc
    apply hn
    by_cases hp : r.pos < 8 * r.buf.length
    · rw [ReadBit_lt hp] at hc
      exact ⟨hc.1, by have := hc.2; simp only at this; omega⟩
    · rw [ReadBit_ge hp] at hc
      exact absurd hc.1 (by simp)
  · rintro r r' ⟨h1, h2, h3, h4⟩ hc
    have hl : r.buf.length = r'.buf.length + t.length := by
      rw [h1, List.length_append]
    by_cases hp : r.pos < 8 * r.buf.length
    · rw [ReadBit_lt hp] at hc
      have hlt : r.pos < 8 * r'.buf.length := by
        have := hc.2
        simp only at this
        omega
      have hp' : r'.pos < 8 * r'.buf.length := by rw [h2]; exact hlt
      rw [ReadBit_lt hp, ReadBit_lt hp', h2, h4, h1, bitAt_append r'.buf t hlt]
      exact ⟨rfl, rfl, rfl, h3, rfl⟩
    · rw [ReadBit_ge hp] at hc
      exact absurd hc.1 (by simp)

theorem cut_sameBit (t : List Nat) (r r' : Reader) (h : Cut t r r') : SameBit r r' :=
  ⟨by rw [h.1, List.length_append]; exact Nat.le_add_right _ _, h.2⟩

theorem simul_walk {R : Reader → Reader → Prop} {C : Reader → Prop}
    (hs : ∀ r r', R r r' → SameBit r r') (hb : Simul R C ReadBit) : Simul R C walk := by
  unfold H264.walk
  refine simul_bind (simul_ReadByte hb) (fun _ => ?_)
  split
  · exact simul_pure _
  · exact simul_readFields hs hb

/-- A decode that succeeds on `b` followed by `t` without its walk reaching
the bytes `t` succeeds on `b` alone, with the same record. -/
theorem DecodeSPS_cut {b t : List Nat} {s : SPS} (h : DecodeSPS (b ++ t) = some s)
    (hp : (walk (NewReader (b ++ t))).2.pos ≤ 8 * b.length) : DecodeSPS b = some s := by
  obtain ⟨h1, h2⟩ := (DecodeSPS_eq_some_iff (b ++ t) s).1 h
  have hb : (walk (NewReader (b ++ t))).2.buf = b ++ t :=
    pres_apply (pres_walk (buf_ReadBit (b ++ t))) (NewReader (b ++ t)) rfl
  have hc : Inside t (walk (NewReader (b ++ t))).2 := by
    refine ⟨h2, ?_⟩
    rw [hb, List.length_append]
    omega
  obtain ⟨e1, e2⟩ := (simul_walk (cut_sameBit t) (cut_ReadBit t)).2
    (NewReader (b ++ t)) (NewReader b) ⟨rfl, rfl, rfl, rfl⟩ hc
  exact (DecodeSPS_eq_some_iff b s).2 ⟨by rw [e1, h1], by rw [e2.2.2.1, h2]⟩

/-- C4, amended: when `DecodeSPS` succeeds on a non-empty buffer and its walk
read into the final byte (it ended after bit `8 * (len - 1)`), `DecodeSPS`
on the buffer without its final byte returns nil; when the walk ended before
the final byte, removing that byte leaves the result unchanged. -/
theorem decodeSPS_dropLast (b : List Nat) (hne : b ≠ []) (s : SPS)
    (hs : DecodeSPS b = some s) :
    (8 * (b.length - 1) < (walk (NewReader b)).2.pos → DecodeSPS b.dropLast = none) ∧
    ((walk (NewReader b)).2.pos ≤ 8 * (b.length - 1) →
      DecodeSPS b.dropLast = some s ∧ DecodeSPS b.dropLast = DecodeSPS b) := by
  constructor
  · intro hlast
    cases hd : DecodeSPS b.dropLast with
    | none => rfl
    | some s' =>
      exfalso
      have h1 := (DecodeSPS_append [b.getLast hne] hd).2
      rw [List.dropLast_append_getLast hne] at h1
      have h2 := walk_pos_le b.dropLast
      rw [List.length_dropLast] at h2
      omega
  · intro hbefore
    have hb : b.dropLast ++ [b.getLast hne] = b := List.dropLast_append_getLast hne
    have h1 : DecodeSPS (b.dropLast ++ [b.getLast hne]) = some s := by rw [hb]; exact hs
    have h2 : (walk (NewReader (b.dropLast ++ [b.getLast hne]))).2.pos ≤
        8 * b.dropLast.length := by
      rw [hb, List.length_dropLast]
      exact hbefore
    have h3 := DecodeSPS_cut h1 h2
    exact ⟨h3, by rw [h3, hs]⟩

/-- C4 amended, at the Baseline SPS: its walk ends at bit 78, inside the
tenth byte, and the first nine bytes alone are refused; with one more byte
after it the walk still ends at bit 78, before the final byte, and removing
that byte changes nothing. -/
theorem decodeSPS_dropLast_witness :
    ((walk (NewReader spsBaseline)).2.pos = 78 ∧ DecodeSPS spsBaseline.dropLast = none) ∧
    ((walk (NewReader spsTrailing)).2.pos = 78 ∧
      DecodeSPS spsTrailing.dropLast = DecodeSPS spsTrailing ∧
      (DecodeSPS spsTrailing.dropLast).isSome = true) := by
  have h : ∃ s, DecodeSPS spsBaseline = some s := by
    cases hd : DecodeSPS spsBaseline with
    | none => exact absurd hd (by decide)
    | some s => exact ⟨s, rfl⟩
  obtain ⟨s, hs⟩ := h
  have ht : DecodeSPS spsTrailing = some s := (DecodeSPS_append [0x80] hs).1
  have h1 := (decodeSPS_dropLast spsBaseline (by decide) s hs).1 (by decide)
  have h2 := (decodeSPS_dropLast spsTrailing (by decide) s ht).2 (by decide)
  exact ⟨⟨by decide, h1⟩, by decide, h2.2, by rw [h2.1]; rfl⟩

/-! ## What each stage writes -/

theorem readPOC_apply (s : SPS) (r : Reader) :
    readPOC s r =
      if (ReadUEGolomb (ReadUEGolomb r).2).1 = 0 then
        ({ s with log2_max_frame_num_minus4 := (ReadUEGolomb r).1,
                  pic_order_cnt_type := (ReadUEGolomb (ReadUEGolomb r).2).1,
                  log2_max_pic_order_cnt_lsb_minus4 :=
                    (ReadUEGolomb (ReadUEGolomb (ReadUEGolomb r).2).2).1 },
          (ReadUEGolomb (ReadUEGolomb (ReadUEGolomb r).2).2).2)
      else if (ReadUEGolomb (ReadUEGolomb r).2).1 = 1 then
        ({ s with log2_max_frame_num_minus4 := (ReadUEGolomb r).1,
                  pic_order_cnt_type := (ReadUEGolomb (ReadUEGolomb r).2).1,
                  delta_pic_order_always_zero_flag :=
                    (ReadBit (ReadUEGolomb (ReadUEGolomb r).2).2).1,
                  offset_for_non_ref_pic :=
                    (ReadSEGolomb (ReadBit (ReadUEGolomb (ReadUEGolomb r).2).2).2).1,
                  offset_for_top_to_bottom_field :=
                    (ReadSEGolomb
                      (ReadSEGolomb (ReadBit (ReadUEGolomb (ReadUEGolomb r).2).2).2).2).1,
                  num_ref_frames_in_pic_order_cnt_cycle :=
                    (ReadUEGolomb (ReadSEGolomb
                      (ReadSEGolomb (ReadBit (ReadUEGolomb (ReadUEGolomb r).2).2).2).2).2).1 },
          (readRefFrames
            (ReadUEGolomb (ReadSEGolomb
              (ReadSEGolomb (ReadBit (ReadUEGolomb (ReadUEGolomb r).2).2).2).2).2).1
            (ReadUEGolomb (ReadSEGolomb
              (ReadSEGolomb (ReadBit (ReadUEGolomb (ReadUEGolomb r).2).2).2).2).2).2).2)
      else
        ({ s with log2_max_frame_num_minus4 := (ReadUEGolomb r).1,
                  pic_order_cnt_type := (ReadUEGolomb (ReadUEGolomb r).2).1 },
          (ReadUEGolomb (ReadUEGolomb r).2).2) := by
  unfold H264.readPOC
  simp only [Rd.bind_apply]
  split
  · rfl
  · split <;> rfl

theorem readCrop_apply (s : SPS) (r : Reader) :
    readCrop s r =
      if (ReadBit r).1 ≠ 0 then
        ({ s with frame_cropping_flag := (ReadBit r).1,
                  frame_crop_left_offset := (ReadUEGolomb (ReadBit r).2).1,
                  frame_crop_right_offset := (ReadUEGolomb (ReadUEGolomb (ReadBit r).2).2).1,
                  frame_crop_top_offset :=
                    (ReadUEGolomb (ReadUEGolomb (ReadUEGolomb (ReadBit r).2).2).2).1,
                  frame_crop_bottom_offset :=
                    (ReadUEGolomb
                      (ReadUEGolomb (ReadUEGolomb (ReadUEGolomb (ReadBit r).2).2).2).2).1 },
          (ReadUEGolomb (ReadUEGolomb (ReadUEGolomb (ReadUEGolomb (ReadBit r).2).2).2).2).2)
      else ({ s with frame_cropping_flag := (ReadBit r).1 }, (ReadBit r).2) := by
  unfold H264.readCrop
  simp only [Rd.bind_apply]
  split <;> rfl

theorem readVUI_apply (s : SPS) (r : Reader) :
    readVUI s r =
      if (ReadBit r).1 ≠ 0 then
        if (ReadBit (ReadBit r).2).1 ≠ 0 then
          if (ReadBits 8 (ReadBit (ReadBit r).2).2).1 = 255 then
            ({ s with vui_parameters_present_flag := (ReadBit r).1,
                      aspect_ratio_info_present_flag := (ReadBit (ReadBit r).2).1,
                      aspect_ratio_idc := (ReadBits 8 (ReadBit (ReadBit r).2).2).1,
                      sar_width := (ReadBits 16 (ReadBits 8 (ReadBit (ReadBit r).2).2).2).1,
                      sar_height := (ReadBits 16
                        (ReadBits 16 (ReadBits 8 (ReadBit (ReadBit r).2).2).2).2).1 },
              (ReadBits 16 (ReadBits 16 (ReadBits 8 (ReadBit (ReadBit r).2).2).2).2).2)
          else
            ({ s with vui_parameters_present_flag := (ReadBit r).1,
                      aspect_ratio_info_present_flag := (ReadBit (ReadBit r).2).1,
                      aspect_ratio_idc := (ReadBits 8 (ReadBit (ReadBit r).2).2).1 },
              (ReadBits 8 (ReadBit (ReadBit r).2).2).2)
        else
          ({ s with vui_parameters_present_flag := (ReadBit r).1,
                    aspect_ratio_info_present_flag := (ReadBit (ReadBit r).2).1 },
            (ReadBit (ReadBit r).2).2)
      else ({ s with vui_parameters_present_flag := (ReadBit r).1 }, (ReadBit r).2) := by
  unfold H264.readVUI
  simp only [Rd.bind_apply]
  split
  · simp only [Rd.bind_apply]
    split
    · simp only [Rd.bind_apply]
      split <;> rfl
    · rfl
  · rfl

theorem readChroma_gIdent (s : SPS) (r : Reader) : (readChroma s r).1.1.gIdent = s.gIdent := by
  simp only [readChroma, Rd.bind_apply, Rd.pure_apply]
  split <;> rfl

theorem readChroma_gPOC (s : SPS) (r : Reader) : (readChroma s r).1.1.gPOC = s.gPOC := by
  simp only [readChroma, Rd.bind_apply, Rd.pure_apply]
  split <;> rfl

theorem readChroma_gFrame (s : SPS) (r : Reader) : (readChroma s r).1.1.gFrame = s.gFrame := by
  simp only [readChroma, Rd.bind_apply, Rd.pure_apply]
  split <;> rfl

theorem readChroma_gCrop (s : SPS) (r : Reader) : (readChroma s r).1.1.gCrop = s.gCrop := by
  simp only [readChroma, Rd.bind_apply, Rd.pure_apply]
  split <;> rfl

theorem readChroma_gVUI (s : SPS) (r : Reader) : (readChroma s r).1.1.gVUI = s.gVUI := by
  simp only [readChroma, Rd.bind_apply, Rd.pure_apply]
  split <;> rfl

theorem readPOC_gIdent (s : SPS) (r : Reader) : (readPOC s r).1.gIdent = s.gIdent := by
  simp only [readPOC, Rd.bind_apply, Rd.pure_apply]
  split
  · rfl
  · split <;> rfl

theorem readPOC_gChroma (s : SPS) (r : Reader) : (readPOC s r).1.gChroma = s.gChroma := by
  simp only [readPOC, Rd.bind_apply, Rd.pure_apply]
  split
  · rfl
  · split <;> rfl

theorem readPOC_gFrame (s : SPS) (r : Reader) : (readPOC s r).1.gFrame = s.gFrame := by
  simp only [readPOC, Rd.bind_apply, Rd.pure_apply]
  split
  · rfl
  · split <;> rfl

theorem readPOC_gCrop (s : SPS) (r : Reader) : (readPOC s r).1.gCrop = s.gCrop := by
  simp only [readPOC, Rd.bind_apply, Rd.pure_apply]
  split
  · rfl
  · split <;> rfl

theorem readPOC_gVUI (s : SPS) (r : Reader) : (readPOC s r).1.gVUI = s.gVUI := by
  simp only [readPOC, Rd.bind_apply, Rd.pure_apply]
  split
  · rfl
  · split <;> rfl

theorem readFrame_gIdent (s : SPS) (r : Reader) : (readFrame s r).1.gIdent = s.gIdent := rfl

theorem readFrame_gChroma (s : SPS) (r : Reader) : (readFrame s r).1.gChroma = s.gChroma := rfl

theorem readFrame_gPOC (s : SPS) (r : Reader) : (readFrame s r).1.gPOC = s.gPOC := rfl

theorem readFrame_gCrop (s : SPS) (r : Reader) : (readFrame s r).1.gCrop = s.gCrop := rfl

theorem readFrame_gVUI (s : SPS) (r : Reader) : (readFrame s r).1.gVUI = s.gVUI := rfl

theorem readCrop_gIdent (s : SPS) (r : Reader) : (readCrop s r).1.gIdent = s.gIdent := by
  simp only [readCrop, Rd.bind_apply, Rd.pure_apply]
  split <;> rfl

theorem readCrop_gChroma (s : SPS) (r : Reader) : (readCrop s r).1.gChroma = s.gChroma := by
  simp only [readCrop, Rd.bind_apply, Rd.pure_apply]
  split <;> rfl

theorem readCrop_gPOC (s : SPS) (r : Reader) : (readCrop s r).1.gPOC = s.gPOC := by
  simp only [readCrop, Rd.bind_apply, Rd.pure_apply]
  split <;> rfl

theorem readCrop_gFrame (s : SPS) (r : Reader) : (readCrop s r).1.gFrame = s.gFrame := by
  simp only [readCrop, Rd.bind_apply, Rd.pure_apply]
  split <;> rfl

theorem readCrop_gVUI (s : SPS) (r : Reader) : (readCrop s r).1.gVUI = s.gVUI := by
  simp only [readCrop, Rd.bind_apply, Rd.pure_apply]
  split <;> rfl

theorem readVUI_gIdent (s : SPS) (r : Reader) : (readVUI s r).1.gIdent = s.gIdent := by
  rw [readVUI_apply]
  split
  · split
    · split <;> rfl
    · rfl
  · rfl

theorem readVUI_gChroma (s : SPS) (r : Reader) : (readVUI s r).1.gChroma = s.gChroma := by
  rw [readVUI_apply]
  split
  · split
    · split <;> rfl
    · rfl
  · rfl

theorem readVUI_gPOC (s : SPS) (r : Reader) : (readVUI s r).1.gPOC = s.gPOC := by
  rw [readVUI_apply]
  split
  · split
    · split <;> rfl
    · rfl
  · rfl

theorem readVUI_gFrame (s : SPS) (r : Reader) : (readVUI s r).1.gFrame = s.gFrame := by
  rw [readVUI_apply]
  split
  · split
    · split <;> rfl
    · rfl
  · rfl

theorem readVUI_gCrop (s : SPS) (r : Reader) : (readVUI s r).1.gCrop = s.gCrop := by
  rw [readVUI_apply]
  split
  · split
    · split <;> rfl
    · rfl
  · rfl

/-! ## The conditional fields of a decoded record -/

theorem conditional_iff (s : SPS) :
    s.Conditional ↔
      condChroma s.gChroma ∧ condPOC s.gPOC ∧ condFrame s.gFrame ∧ condCrop s.gCrop ∧
        condVUI s.gVUI := by
  unfold SPS.Conditional condChroma condPOC condFrame condCrop condVUI
  simp only [SPS.gChroma, SPS.gPOC, SPS.gFrame, SPS.gCrop, SPS.gVUI]
  tauto

theorem readIdent_zero (r : Reader) :
    (readIdent r).1.gChroma = (0, 0, 0, 0, 0, 0) ∧ (readIdent r).1.gPOC = (0, 0, 0, 0, 0, 0, 0) ∧
    (readIdent r).1.gFrame = (0, 0, 0, 0, 0, 0, 0) ∧ (readIdent r).1.gCrop = (0, 0, 0, 0, 0) ∧
    (readIdent r).1.gVUI = (0, 0, 0, 0, 0) :=
  ⟨rfl, rfl, rfl, rfl, rfl⟩

theorem readChroma_cond (s : SPS) (r : Reader) (h : s.gChroma = (0, 0, 0, 0, 0, 0)) :
    condChroma (readChroma s r).1.1.gChroma := by
  have hs : s.separate_colour_plane_flag = 0 := by
    have := congrArg (fun g => g.2.1) h
    exact this
  simp only [readChroma, Rd.bind_apply, Rd.pure_apply]
  split <;> simp only [condChroma, SPS.gChroma]
  · exact ⟨ReadBit_le_one _, ReadBit_le_one _, ReadBit_le_one _⟩
  · refine ⟨?_, ReadBit_le_one _, ReadBit_le_one _⟩
    show s.separate_colour_plane_flag ≤ 1
    omega

theorem readPOC_cond (s : SPS) (r : Reader) (h : s.gPOC = (0, 0, 0, 0, 0, 0, 0)) :
    condPOC (readPOC s r).1.gPOC := by
  simp only [SPS.gPOC, Prod.mk.injEq] at h
  obtain ⟨_, _, h3, h4, h5, h6, h7⟩ := h
  rw [readPOC_apply]
  split
  · rename_i h0
    simp only [condPOC, SPS.gPOC]
    refine ⟨fun hn => absurd h0 hn, fun _ => ⟨h4, h5, h6, h7⟩, ?_⟩
    show s.delta_pic_order_always_zero_flag ≤ 1
    omega
  · rename_i h0
    split <;> simp only [condPOC, SPS.gPOC]
    · rename_i h1
      exact ⟨fun _ => h3, fun hn => absurd h1 hn, ReadBit_le_one _⟩
    · refine ⟨fun _ => h3, fun _ => ⟨h4, h5, h6, h7⟩, ?_⟩
      show s.delta_pic_order_always_zero_flag ≤ 1
      omega

theorem readFrame_cond (s : SPS) (r : Reader) (h : s.gFrame = (0, 0, 0, 0, 0, 0, 0)) :
    condFrame (readFrame s r).1.gFrame := by
  simp only [SPS.gFrame, Prod.mk.injEq] at h
  obtain ⟨_, _, _, _, _, h6, _⟩ := h
  simp only [readFrame, Rd.bind_apply, Rd.pure_apply, SPS.gFrame, condFrame]
  refine ⟨fun hn => ?_, ReadBit_le_one _, ReadBit_le_one _, ?_, ReadBit_le_one _⟩
  · rw [if_neg hn]
    exact h6
  · split
    · exact ReadBit_le_one _
    · show s.mb_adaptive_frame_field_flag ≤ 1
      omega

theorem readCrop_cond (s : SPS) (r : Reader) (h : s.gCrop = (0, 0, 0, 0, 0)) :
    condCrop (readCrop s r).1.gCrop := by
  simp only [SPS.gCrop, Prod.mk.injEq] at h
  obtain ⟨_, h2, h3, h4, h5⟩ := h
  rw [readCrop_apply]
  split <;> simp only [condCrop, SPS.gCrop]
  · rename_i h0
    exact ⟨fun hn => absurd hn h0, ReadBit_le_one _⟩
  · exact ⟨fun _ => ⟨h2, h3, h4, h5⟩, ReadBit_le_one _⟩

theorem readVUI_cond (s : SPS) (r : Reader) (h : s.gVUI = (0, 0, 0, 0, 0)) :
    condVUI (readVUI s r).1.gVUI := by
  simp only [SPS.gVUI, Prod.mk.injEq] at h
  obtain ⟨_, h2, h3, h4, h5⟩ := h
  rw [readVUI_apply]
  split
  · rename_i h0
    split
    · rename_i h1
      split <;> simp only [condVUI, SPS.gVUI]
      · rename_i h255
        exact ⟨fun hn => by rcases hn with hn | hn <;> [exact absurd hn h0; exact absurd hn h1],
          fun hn => absurd h255 hn, ReadBit_le_one _, ReadBit_le_one _⟩
      · exact ⟨fun hn => by rcases hn with hn | hn <;> [exact absurd hn h0; exact absurd hn h1],
          fun _ => ⟨h4, h5⟩, ReadBit_le_one _, ReadBit_le_one _⟩
    · simp only [condVUI, SPS.gVUI]
      exact ⟨fun _ => ⟨h3, h4, h5⟩, fun _ => ⟨h4, h5⟩, ReadBit_le_one _, ReadBit_le_one _⟩
  · simp only [condVUI, SPS.gVUI]
    refine ⟨fun _ => ⟨h3, h4, h5⟩, fun _ => ⟨h4, h5⟩, ReadBit_le_one _, ?_⟩
    show s.aspect_ratio_info_present_flag ≤ 1
    omega

theorem readFields_some {r : Reader} {s2 : SPS}
    (h : (readHigh (readIdent r).1 (readIdent r).2).1 = some s2) :
    readFields r = (Outcome.walked (vuiOf s2 (readHigh (readIdent r).1 (readIdent r).2).2).1,
      (vuiOf s2 (readHigh (readIdent r).1 (readIdent r).2).2).2) := by
  rw [readFields_apply, h]
  rfl

/-- A returned record is the one built by the stages after a `switch` that
did not refuse, and the walk ended with the exhaustion flag clear. -/
theorem DecodeSPS_chain {b : List Nat} {s : SPS} (h : DecodeSPS b = some s) :
    b.headD 0 % 32 = NALUTypeSPS ∧
    ∃ s2, (readHigh (identOf b).1 (identOf b).2).1 = some s2 ∧
      s = (vuiOf s2 (readHigh (identOf b).1 (identOf b).2).2).1 ∧
      (vuiOf s2 (readHigh (identOf b).1 (identOf b).2).2).2.EOF = false := by
  obtain ⟨h1, h2⟩ := (DecodeSPS_eq_some_iff b s).1 h
  rw [walk_NewReader] at h1 h2
  by_cases hh : b.headD 0 % 32 ≠ NALUTypeSPS
  · rw [if_pos hh] at h1
    cases h1
  · rw [if_neg hh] at h1 h2
    refine ⟨Decidable.not_not.mp hh, ?_⟩
    unfold identOf
    have hex : ∃ s2, (readHigh (readIdent (afterHeader b)).1
        (readIdent (afterHeader b)).2).1 = some s2 := by
      cases hq : (readHigh (readIdent (afterHeader b)).1 (readIdent (afterHeader b)).2).1 with
      | none =>
        rw [readFields_scaling hq] at h1
        cases h1
      | some s2 => exact ⟨s2, rfl⟩
    obtain ⟨s2, hq⟩ := hex
    rw [readFields_some hq] at h1 h2
    dsimp only at h1 h2
    exact ⟨s2, hq, (Outcome.walked.inj h1).symm, h2⟩

theorem readHigh_some {s s' : SPS} {r : Reader} (h : (readHigh s r).1 = some s') :
    (s.profile_idc ∉ highProfiles ∧ s' = s ∧ (readHigh s r).2 = r) ∨
      (s.profile_idc ∈ highProfiles ∧ s' = (readChroma s r).1.1) := by
  rw [readHigh_apply] at h ⊢
  by_cases hp : s.profile_idc ∈ highProfiles
  · rw [if_pos hp] at h
    refine Or.inr ⟨hp, ?_⟩
    split at h
    · split at h
      · cases h
      · exact (Option.some.inj h).symm
    · exact (Option.some.inj h).symm
  · rw [if_neg hp] at h ⊢
    exact Or.inl ⟨hp, (Option.some.inj h).symm, rfl⟩

/-- The groups of the record at the end of the walk, stage by stage. -/
theorem vuiOf_groups (s2 : SPS) (r2 : Reader) :
    (vuiOf s2 r2).1.gIdent = s2.gIdent ∧
    (vuiOf s2 r2).1.gChroma = s2.gChroma ∧
    (vuiOf s2 r2).1.gPOC = (readPOC s2 r2).1.gPOC ∧
    (vuiOf s2 r2).1.gFrame = (frameOf s2 r2).1.gFrame ∧
    (vuiOf s2 r2).1.gCrop = (cropOf s2 r2).1.gCrop ∧
    (frameOf s2 r2).1.gCrop = s2.gCrop ∧
    (pocOf s2 r2).1.gFrame = s2.gFrame ∧
    (cropOf s2 r2).1.gVUI = s2.gVUI := by
  unfold vuiOf cropOf frameOf pocOf
  refine ⟨?_, ?_, ?_, ?_, ?_, ?_, ?_, ?_⟩
  · rw [readVUI_gIdent, readCrop_gIdent, readFrame_gIdent, readPOC_gIdent]
  · rw [readVUI_gChroma, readCrop_gChroma, readFrame_gChroma, readPOC_gChroma]
  · rw [readVUI_gPOC, readCrop_gPOC, readFrame_gPOC]
  · rw [readVUI_gFrame, readCrop_gFrame]
  · rw [readVUI_gCrop]
  · rw [readFrame_gCrop, readPOC_gCrop]
  · rw [readPOC_gFrame]
  · rw [readCrop_gVUI, readFrame_gVUI, readPOC_gVUI]

theorem identOf_zero (b : List Nat) :
    (identOf b).1.gChroma = (0, 0, 0, 0, 0, 0) ∧ (identOf b).1.gPOC = (0, 0, 0, 0, 0, 0, 0) ∧
    (identOf b).1.gFrame = (0, 0, 0, 0, 0, 0, 0) ∧ (identOf b).1.gCrop = (0, 0, 0, 0, 0) ∧
    (identOf b).1.gVUI = (0, 0, 0, 0, 0) := by
  unfold identOf
  exact readIdent_zero _

theorem condChroma_zero : condChroma (0, 0, 0, 0, 0, 0) := by
  unfold condChroma
  decide

/-- The record the `switch` of line 82 passes on has only its identification
and chroma groups written, the chroma flags being bits. -/
theorem readHigh_groups {b : List Nat} {s2 : SPS}
    (h : (readHigh (identOf b).1 (identOf b).2).1 = some s2) :
    s2.gIdent = (identOf b).1.gIdent ∧ condChroma s2.gChroma ∧
    s2.gPOC = (0, 0, 0, 0, 0, 0, 0) ∧ s2.gFrame = (0, 0, 0, 0, 0, 0, 0) ∧
    s2.gCrop = (0, 0, 0, 0, 0) ∧ s2.gVUI = (0, 0, 0, 0, 0) ∧
    ((identOf b).1.profile_idc ∉ highProfiles → s2.gChroma = (0, 0, 0, 0, 0, 0)) := by
  obtain ⟨z1, z2, z3, z4, z5⟩ := identOf_zero b
  rcases readHigh_some h with ⟨hp, he, _⟩ | ⟨hp, he⟩
  · rw [he, z1, z2, z3, z4, z5]
    exact ⟨rfl, condChroma_zero, rfl, rfl, rfl, rfl, fun _ => rfl⟩
  · rw [he, readChroma_gIdent, readChroma_gPOC, readChroma_gFrame, readChroma_gCrop,
      readChroma_gVUI, z2, z3, z4, z5]
    exact ⟨rfl, readChroma_cond _ _ z1, rfl, rfl, rfl, rfl, fun hn => absurd hp hn⟩

/-- C18: every record `DecodeSPS` returns satisfies the conditional-field
invariant (offsets 0 without the cropping flag, no field flag in a
frames-only stream, picture order count fields of the other types 0, aspect
ratio fields 0 unless present, flags 0 or 1), and without cropping its width
is `16*(w+1) mod 2^16` and its height a multiple of 16. -/
theorem decoded_conditional (b : List Nat) (s : SPS) (h : DecodeSPS b = some s) :
    s.Conditional ∧
    (s.frame_cropping_flag = 0 →
      s.Width = 16 * (s.pic_width_in_mbs_minus_1 + 1) % 2 ^ 16 ∧ 16 ∣ s.Height) := by
  obtain ⟨_, s2, h2, hs, _⟩ := DecodeSPS_chain h
  obtain ⟨_, c2, z3, z4, z5, z6, _⟩ := readHigh_groups h2
  obtain ⟨_, g2, g3, g4, g5, g6, g7, g8⟩ :=
    vuiOf_groups s2 (readHigh (identOf b).1 (identOf b).2).2
  have hc : s.Conditional := by
    rw [conditional_iff, hs, g2, g3, g4, g5]
    refine ⟨c2, readPOC_cond _ _ z3, ?_, ?_, ?_⟩
    · unfold frameOf
      exact readFrame_cond _ _ (by rw [g7, z4])
    · unfold cropOf
      exact readCrop_cond _ _ (by rw [g6, z5])
    · unfold vuiOf
      exact readVUI_cond _ _ (by rw [g8, z6])
  refine ⟨hc, fun h0 => ?_⟩
  obtain ⟨h1, h2, h3, h4⟩ := hc.1 h0
  unfold SPS.Width SPS.Height sub32
  simp only [h1, h2, h3, h4]
  constructor
  · omega
  · split <;> omega

/-- C18 at the Baseline SPS with `pic_order_cnt_type` 1 and no cropping. -/
theorem decoded_conditional_witness :
    ∃ s, DecodeSPS spsPoc1 = some s ∧ s.Conditional ∧ s.Width = 320 ∧ s.Height = 240 := by
  cases hd : DecodeSPS spsPoc1 with
  | none => exact absurd hd (by decide)
  | some s =>
    have h := decoded_conditional spsPoc1 s hd
    have hs : DecodeSPS spsPoc1 = some s := hd
    refine ⟨s, rfl, h.1, ?_⟩
    have hk : (DecodeSPS spsPoc1).map (fun s => (s.Width, s.Height)) = some (320, 240) := by
      decide
    rw [hs, Option.map_some'] at hk
    have := Option.some.inj hk
    exact ⟨congrArg Prod.fst this, congrArg Prod.snd this⟩

/-! ## Profile gating -/

theorem identOf_last (b : List Nat) :
    (identOf b).1.seq_parameter_set_id =
        (ReadUEGolomb (ReadByte (ReadByte (ReadByte (afterHeader b)).2).2).2).1 ∧
      (identOf b).2 = (ReadUEGolomb (ReadByte (ReadByte (ReadByte (afterHeader b)).2).2).2).2 := by
  simp only [identOf, readIdent, Rd.bind_apply, Rd.pure_apply, and_self]

theorem readChroma_format (s : SPS) (r : Reader) :
    (readChroma s r).1.1.chroma_format_idc = (ReadUEGolomb r).1 := by
  simp only [readChroma, Rd.bind_apply, Rd.pure_apply]

theorem readPOC_log2 (s : SPS) (r : Reader) :
    (readPOC s r).1.log2_max_frame_num_minus4 = (ReadUEGolomb r).1 := by
  rw [readPOC_apply]
  split
  · rfl
  · split <;> rfl

/-! ## The scaling-list flag count -/

theorem readChroma_count (s : SPS) (r : Reader) :
    (readChroma s r).1.2 = if (readChroma s r).1.1.chroma_format_idc = 3 then 12 else 8 := by
  simp only [readChroma, Rd.bind_apply, Rd.pure_apply]
  split <;> rfl

theorem readChroma_separate (s : SPS) (r : Reader) :
    (readChroma s r).1.1.separate_colour_plane_flag =
        (if (ReadUEGolomb r).1 = 3 then (ReadBit (ReadUEGolomb r).2).1
         else s.separate_colour_plane_flag) ∧
      (readChroma s r).1.1.bit_depth_luma_minus8 =
        (ReadUEGolomb (if (ReadUEGolomb r).1 = 3 then (ReadBit (ReadUEGolomb r).2).2
          else (ReadUEGolomb r).2)).1 := by
  simp only [readChroma, Rd.bind_apply, Rd.pure_apply]
  split <;> exact ⟨rfl, rfl⟩

/-- A scaling-list loop that ends without `return nil` and without the
exhaustion flag has read `n` zero bits inside the buffer. -/
theorem readScalingFlags_false : ∀ (n : Nat) (r : Reader), r.pos ≤ 8 * r.buf.length →
    (readScalingFlags n r).1 = false → (readScalingFlags n r).2.EOF = false →
      r.pos + n ≤ 8 * r.buf.length ∧ (∀ i, i < n → bitAt r.buf (r.pos + i) = 0) ∧
        (readScalingFlags n r).2 = adv r n := by
  intro n
  induction n with
  | zero =>
    intro r hr _ _
    exact ⟨hr, fun i hi => absurd hi (Nat.not_lt_zero i), rfl⟩
  | succ n ih =>
    intro r _ hf he
    rw [readScalingFlags_succ] at hf he ⊢
    by_cases hp : r.pos < 8 * r.buf.length
    · rw [ReadBit_lt hp] at hf he ⊢
      simp only at hf he ⊢
      by_cases hb : bitAt r.buf r.pos ≠ 0
      · rw [if_pos hb] at hf
        cases hf
      · rw [if_neg hb] at hf he ⊢
        obtain ⟨h1, h2, h3⟩ := ih _ (Nat.succ_le_of_lt hp) hf he
        simp only at h1 h2
        refine ⟨by omega, fun i hi => ?_, ?_⟩
        · cases i with
          | zero => exact Decidable.not_not.mp hb
          | succ j =>
            have := h2 j (by omega)
            rw [show r.pos + (j + 1) = r.pos + 1 + j by omega]
            exact this
        · rw [h3]
          simp only [adv, Reader.mk.injEq, true_and]
          omega
    · exfalso
      rw [ReadBit_ge hp] at he
      simp only [ne_eq, not_true_eq_false, if_false] at he
      have := pres_apply (pres_readScalingFlags sticky_ReadBit n)
        { r with EOF := true, ticks := r.ticks + 1 } rfl
      rw [this] at he
      cases he

/-- A scaling-list loop over `n` zero bits inside the buffer reads all of them
and goes on. -/
theorem readScalingFlags_zero : ∀ (n : Nat) (r : Reader), r.pos + n ≤ 8 * r.buf.length →
    (∀ i, i < n → bitAt r.buf (r.pos + i) = 0) → readScalingFlags n r = (false, adv r n) := by
  intro n
  induction n with
  | zero => intro r _ _; rfl
  | succ n ih =>
    intro r hr hz
    have hp : r.pos < 8 * r.buf.length := by omega
    have h0 : bitAt r.buf r.pos = 0 := hz 0 (Nat.succ_pos n)
    rw [readScalingFlags_succ, ReadBit_lt hp]
    simp only [h0, ne_eq, not_true_eq_false, if_false]
    rw [ih]
    · simp only [adv, Prod.mk.injEq, Reader.mk.injEq, true_and]
      omega
    · simp only
      omega
    · intro i hi
      have := hz (i + 1) (by omega)
      simp only
      rw [show r.pos + 1 + i = r.pos + (i + 1) by omega]
      exact this

theorem vuiOf_sticky (s : SPS) (r : Reader) (h : r.EOF = true) : (vuiOf s r).2.EOF = true := by
  unfold vuiOf cropOf frameOf pocOf
  exact pres_apply (pres_readVUI sticky_ReadBit _) _
    (pres_apply (pres_readCrop sticky_ReadBit _) _
      (pres_apply (pres_readFrame sticky_ReadBit _) _
        (pres_apply (pres_readPOC sticky_ReadBit _) _ h)))

theorem identOf_inv (b : List Nat) : Inv b (identOf b).2 := by
  unfold identOf afterHeader
  exact pres_apply (pres_readIdent (inv_ReadBit b)) _
    (pres_apply (pres_ReadByte (inv_ReadBit b)) _ (inv_NewReader b))

theorem chromaOf_inv (b : List Nat) : Inv b (chromaOf b).2 := by
  unfold chromaOf
  exact pres_apply (pres_readChroma (inv_ReadBit b) _) _ (identOf_inv b)

/-- C13: for a buffer with the SPS type tag, a high profile and a decoded
`seq_scaling_matrix_present_flag` of 1, the number `n` of per-entry presence
flags is 12 when `chroma_format_idc` is 3 and 8 otherwise. The walk leaves
through the scaling-list `return nil` exactly when one of the `n` bits after
the matrix flag is set; when they are all 0 the cursor is passed on `n` bits
further, and in every returned record `log2_max_frame_num_minus4` is the
Exp-Golomb value read there. So with `chroma_format_idc` other than 3 the bits
9 to 12 after the matrix flag never cause the refusal, with 3 a set one does.
`separate_colour_plane_flag` is the bit after `chroma_format_idc` when that is
3 and is not read (stays 0) otherwise, `bit_depth_luma_minus8` following. -/
theorem scaling_flag_count (b : List Nat) (hh : b.headD 0 % 32 = NALUTypeSPS)
    (hp : (identOf b).1.profile_idc ∈ highProfiles)
    (hm : (chromaOf b).1.1.seq_scaling_matrix_present_flag = 1) :
    ((chromaOf b).1.2 = if (chromaOf b).1.1.chroma_format_idc = 3 then 12 else 8) ∧
    ((walk (NewReader b)).1 = Outcome.scalingList ↔
      ∃ i, i < (chromaOf b).1.2 ∧ (chromaOf b).2.pos + i < 8 * b.length ∧
        bitAt b ((chromaOf b).2.pos + i) = 1) ∧
    ((chromaOf b).2.pos + (chromaOf b).1.2 ≤ 8 * b.length →
      (∀ i, i < (chromaOf b).1.2 → bitAt b ((chromaOf b).2.pos + i) = 0) →
        readHigh (identOf b).1 (identOf b).2 =
          (some (chromaOf b).1.1, adv (chromaOf b).2 (chromaOf b).1.2)) ∧
    (∀ s, DecodeSPS b = some s →
      (chromaOf b).2.pos + (chromaOf b).1.2 ≤ 8 * b.length ∧
      (∀ i, i < (chromaOf b).1.2 → bitAt b ((chromaOf b).2.pos + i) = 0) ∧
      s.log2_max_frame_num_minus4 =
        (ReadUEGolomb (adv (chromaOf b).2 (chromaOf b).1.2)).1) ∧
    ((chromaOf b).1.1.chroma_format_idc ≠ 3 →
      (∀ i, i < 8 → (chromaOf b).2.pos + i < 8 * b.length →
        bitAt b ((chromaOf b).2.pos + i) = 0) →
      (walk (NewReader b)).1 ≠ Outcome.scalingList) ∧
    ((chromaOf b).1.1.chroma_format_idc = 3 →
      (∃ i, 8 ≤ i ∧ i < 12 ∧ (chromaOf b).2.pos + i < 8 * b.length ∧
        bitAt b ((chromaOf b).2.pos + i) = 1) →
      (walk (NewReader b)).1 = Outcome.scalingList ∧ DecodeSPS b = none) ∧
    ((chromaOf b).1.1.separate_colour_plane_flag =
        (if (chromaOf b).1.1.chroma_format_idc = 3
          then (ReadBit (ReadUEGolomb (identOf b).2).2).1 else 0) ∧
      (chromaOf b).1.1.bit_depth_luma_minus8 =
        (ReadUEGolomb (if (chromaOf b).1.1.chroma_format_idc = 3
          then (ReadBit (ReadUEGolomb (identOf b).2).2).2
          else (ReadUEGolomb (identOf b).2).2)).1) := by
  have hn : (chromaOf b).1.2 = if (chromaOf b).1.1.chroma_format_idc = 3 then 12 else 8 := by
    unfold chromaOf
    exact readChroma_count _ _
  have hbuf := chromaOf_buf b
  have hiff : (walk (NewReader b)).1 = Outcome.scalingList ↔
      ∃ i, i < (chromaOf b).1.2 ∧ (chromaOf b).2.pos + i < 8 * b.length ∧
        bitAt b ((chromaOf b).2.pos + i) = 1 := by
    rw [walk_scalingList_iff]
    exact ⟨fun h => h.2.2.2, fun h => ⟨hh, hp, hm, h⟩⟩
  have hzero : (chromaOf b).2.pos + (chromaOf b).1.2 ≤ 8 * b.length →
      (∀ i, i < (chromaOf b).1.2 → bitAt b ((chromaOf b).2.pos + i) = 0) →
        readHigh (identOf b).1 (identOf b).2 =
          (some (chromaOf b).1.1, adv (chromaOf b).2 (chromaOf b).1.2) := by
    intro hfit hz
    have hq := readScalingFlags_zero (chromaOf b).1.2 (chromaOf b).2
      (by rw [hbuf]; exact hfit) (by rw [hbuf]; exact hz)
    have hm' : (chromaOf b).1.1.seq_scaling_matrix_present_flag ≠ 0 := by
      rw [hm]
      exact Nat.one_ne_zero
    unfold chromaOf at hq hm' ⊢
    rw [readHigh_apply, if_pos hp, if_pos hm', hq]
    rfl
  refine ⟨hn, hiff, hzero, ?_, ?_, ?_, ?_⟩
  · intro s hs
    obtain ⟨_, s2, h2, hs2, he⟩ := DecodeSPS_chain hs
    have he2 : (readHigh (identOf b).1 (identOf b).2).2.EOF = false := by
      cases hq : (readHigh (identOf b).1 (identOf b).2).2.EOF with
      | false => rfl
      | true =>
        rw [vuiOf_sticky s2 _ hq] at he
        cases he
    have hm' : (chromaOf b).1.1.seq_scaling_matrix_present_flag ≠ 0 := by
      rw [hm]
      exact Nat.one_ne_zero
    have hfl : (readScalingFlags (chromaOf b).1.2 (chromaOf b).2).1 = false ∧
        (readScalingFlags (chromaOf b).1.2 (chromaOf b).2).2.EOF = false := by
      unfold chromaOf at hm' ⊢
      rw [readHigh_apply, if_pos hp, if_pos hm'] at h2 he2
      cases hq : (readScalingFlags (readChroma (identOf b).1 (identOf b).2).1.2
          (readChroma (identOf b).1 (identOf b).2).2).1 with
      | true =>
        rw [hq] at h2
        simp only [if_true] at h2
        cases h2
      | false =>
        rw [hq] at he2
        simp only [Bool.false_eq_true, if_false] at he2
        exact ⟨rfl, he2⟩
    obtain ⟨f1, f2, _⟩ := readScalingFlags_false _ _
      (by rw [hbuf]; exact (chromaOf_inv b).2.1) hfl.1 hfl.2
    rw [hbuf] at f1 f2
    refine ⟨f1, f2, ?_⟩
    have hr := hzero f1 f2
    rw [hr] at h2 hs2
    obtain ⟨_, _, g3, _⟩ := vuiOf_groups s2 (adv (chromaOf b).2 (chromaOf b).1.2)
    have hl : s.gPOC = (readPOC s2 (adv (chromaOf b).2 (chromaOf b).1.2)).1.gPOC := by
      rw [hs2]
      exact g3
    have hl2 := congrArg (fun g => g.1) hl
    simp only [SPS.gPOC] at hl2
    rw [hl2, readPOC_log2]
  · intro hc hz hw
    obtain ⟨i, hi, hin, hb⟩ := hiff.1 hw
    rw [hn, if_neg hc] at hi
    rw [hz i hi hin] at hb
    cases hb
  · intro hc ⟨i, _, hi, hin, hb⟩
    have hw : (walk (NewReader b)).1 = Outcome.scalingList :=
      hiff.2 ⟨i, by rw [hn, if_pos hc]; exact hi, hin, hb⟩
    exact ⟨hw, (DecodeSPS_eq_none_iff b).2 (Or.inr (Or.inl hw))⟩
  · have hsep := readChroma_separate (identOf b).1 (identOf b).2
    have hf : (chromaOf b).1.1.chroma_format_idc = (ReadUEGolomb (identOf b).2).1 := by
      unfold chromaOf
      exact readChroma_format _ _
    have hz : (identOf b).1.separate_colour_plane_flag = 0 := by
      have := (identOf_zero b).1
      simp only [SPS.gChroma, Prod.mk.injEq] at this
      exact this.2.1
    rw [hz] at hsep
    rw [hf]
    unfold chromaOf
    exact hsep

/-- C13 at two High profile buffers with the matrix flag set, eight zero
flags and a 1 bit in position 9: with `chroma_format_idc` 1 the count is 8,
the 1 bit starts `log2_max_frame_num_minus4` and the buffer decodes; with
`chroma_format_idc` 3 the count is 12 and the same bit is the refusal. -/
theorem scaling_flag_count_witness :
    ((chromaOf spsFlags8).1.2 = 8 ∧
      bitAt spsFlags8 ((chromaOf spsFlags8).2.pos + 8) = 1 ∧
      (walk (NewReader spsFlags8)).1 ≠ Outcome.scalingList ∧
      (readHigh (identOf spsFlags8).1 (identOf spsFlags8).2).2.pos = 48) ∧
    ((chromaOf spsFlags12).1.2 = 12 ∧
      bitAt spsFlags12 ((chromaOf spsFlags12).2.pos + 8) = 1 ∧
      (walk (NewReader spsFlags12)).1 = Outcome.scalingList ∧ DecodeSPS spsFlags12 = none) := by
  have h8 := scaling_flag_count spsFlags8 (by decide) (by decide) (by decide)
  have h12 := scaling_flag_count spsFlags12 (by decide) (by decide) (by decide)
  have c8 : (chromaOf spsFlags8).1.1.chroma_format_idc ≠ 3 := by decide
  have c12 : (chromaOf spsFlags12).1.1.chroma_format_idc = 3 := by decide
  have p8 : (chromaOf spsFlags8).2.pos = 40 := by decide
  have p12 : (chromaOf spsFlags12).2.pos = 43 := by decide
  have n8 : (chromaOf spsFlags8).1.2 = 8 := by rw [h8.1, if_neg c8]
  have n12 : (chromaOf spsFlags12).1.2 = 12 := by rw [h12.1, if_pos c12]
  refine ⟨⟨n8, by rw [p8]; decide, ?_, ?_⟩, n12, by rw [p12]; decide, ?_⟩
  · refine h8.2.2.2.2.1 c8 ?_
    rw [p8]
    decide
  · rw [h8.2.2.1 (by rw [p8, n8]; decide) (by rw [p8, n8]; decide), n8]
    simp only [adv, p8]
  · refine h12.2.2.2.2.2.1 c12 ⟨8, Nat.le_refl 8, by decide, ?_, ?_⟩
    · rw [p12]
      decide
    · rw [p12]
      decide

/-! ## The picture order count branch -/

theorem pres_readToCycle {P : Reader → Prop} (h : Pres P ReadBit) : Pres P readToCycle := by
  unfold H264.readToCycle
  repeat with_reducible first
    | exact pres_pure _
    | exact pres_ReadByte h
    | exact pres_readIdent h
    | exact pres_readHigh h _
    | exact pres_ReadUEGolomb h
    | exact pres_ReadSEGolomb h
    | exact h
    | refine pres_bind ?_ (fun _ => ?_)

theorem simul_readToCycle {R : Reader → Reader → Prop} {C : Reader → Prop}
    (hs : ∀ r r', R r r' → SameBit r r') (hb : Simul R C ReadBit) :
    Simul R C readToCycle := by
  unfold H264.readToCycle
  repeat with_reducible first
    | exact simul_pure _
    | exact simul_ReadByte hb
    | exact simul_readIdent hs hb
    | exact simul_readHigh hs hb _
    | exact simul_ReadUEGolomb hs hb
    | exact simul_ReadSEGolomb hs hb
    | exact hb
    | refine simul_bind ?_ (fun _ => ?_)

theorem simul_tailOf {R : Reader → Reader → Prop} {C : Reader → Prop}
    (hs : ∀ r r', R r r' → SameBit r r') (hb : Simul R C ReadBit) (s : SPS) :
    Simul R C (readFrame s >>= fun s => readCrop s >>= fun s => readVUI s) :=
  simul_bind (simul_readFrame hs hb s)
    (fun _ => simul_bind (simul_readCrop hs hb _) (fun _ => simul_readVUI hb _))

theorem vuiOf_tailOf (s : SPS) (r : Reader) :
    vuiOf s r = tailOf (readPOC s r).1 (readPOC s r).2 := by
  unfold vuiOf cropOf frameOf pocOf tailOf
  simp only [Rd.bind_apply]

theorem cycleOf_hdr (b : List Nat) : (cycleOf b).1.hdr % 32 = b.headD 0 % 32 := by
  rw [← hdr_mod]
  unfold cycleOf
  simp only [readToCycle, Rd.bind_apply, Rd.pure_apply]

theorem cycleOf_high (b : List Nat) :
    (cycleOf b).1.high = (readHigh (identOf b).1 (identOf b).2).1 := by
  unfold cycleOf identOf afterHeader
  simp only [readToCycle, Rd.bind_apply, Rd.pure_apply]

theorem cycleOf_type (b : List Nat) :
    (cycleOf b).1.pic_order_cnt_type =
      (ReadUEGolomb (ReadUEGolomb (readHigh (identOf b).1 (identOf b).2).2).2).1 := by
  unfold cycleOf identOf afterHeader
  simp only [readToCycle, Rd.bind_apply, Rd.pure_apply]

/-- On the path of type 1 the record after the picture order count fields is
made of the values read up to the cycle count, and the cursor is the one the
loop over the per-cycle offsets leaves. -/
theorem readPOC_cycle (b : List Nat) (s2 : SPS) (ht : (cycleOf b).1.pic_order_cnt_type = 1) :
    readPOC s2 (readHigh (identOf b).1 (identOf b).2).2 =
      (pocRecord s2 (cycleOf b).1, afterCycle b) := by
  rw [cycleOf_type] at ht
  rw [readPOC_apply, if_neg (by rw [ht]; exact Nat.one_ne_zero), if_pos ht]
  unfold afterCycle cycleOf identOf afterHeader pocRecord
  simp only [readToCycle, Rd.bind_apply, Rd.pure_apply]

theorem readPOC_type (s : SPS) (r : Reader) :
    (readPOC s r).1.pic_order_cnt_type = (ReadUEGolomb (ReadUEGolomb r).2).1 := by
  rw [readPOC_apply]
  split
  · rfl
  · split <;> rfl

/-- The result of `DecodeSPS` by the three ways the walk can end. -/
theorem DecodeSPS_cases (b : List Nat) :
    (b.headD 0 % 32 ≠ NALUTypeSPS → DecodeSPS b = none) ∧
    ((readHigh (identOf b).1 (identOf b).2).1 = none → DecodeSPS b = none) ∧
    (∀ s2, b.headD 0 % 32 = NALUTypeSPS → (readHigh (identOf b).1 (identOf b).2).1 = some s2 →
      DecodeSPS b =
        if (vuiOf s2 (readHigh (identOf b).1 (identOf b).2).2).2.EOF = true then none
        else some (vuiOf s2 (readHigh (identOf b).1 (identOf b).2).2).1) := by
  refine ⟨fun h => ?_, fun h => ?_, fun s2 hh h => ?_⟩
  · exact (DecodeSPS_eq_none_iff b).2 (Or.inl ((walk_wrongType_iff b).2 h))
  · by_cases hh : b.headD 0 % 32 ≠ NALUTypeSPS
    · exact (DecodeSPS_eq_none_iff b).2 (Or.inl ((walk_wrongType_iff b).2 hh))
    · exact (DecodeSPS_eq_none_iff b).2 (Or.inr (Or.inl ((walk_scalingList_iff b).2
        ⟨Decidable.not_not.mp hh, (scalingRefused_iff b).2 h⟩)))
  · unfold DecodeSPS
    rw [walk_NewReader, if_neg (fun hn => hn hh)]
    unfold identOf at h ⊢
    rw [readFields_some h]

theorem readRefFrames_iterate : ∀ (n : Nat) (r : Reader),
    (readRefFrames n r).2 = Nat.iterate (fun r => (ReadSEGolomb r).2) n r := by
  intro n
  induction n with
  | zero => intro r; rfl
  | succ n ih =>
    intro r
    rw [Function.iterate_succ_apply, ← ih]
    simp only [readRefFrames, Rd.bind_apply]

theorem result_congr {x y : SPS × Reader} (h1 : x.1 = y.1) (h2 : x.2.EOF = y.2.EOF) :
    (if x.2.EOF = true then none else some x.1) = (if y.2.EOF = true then none else some y.1) := by
  rw [h1, h2]

theorem cycleOf_inv (b : List Nat) : Inv b (cycleOf b).2 := by
  unfold cycleOf
  exact pres_apply (pres_readToCycle (inv_ReadBit b)) _ (inv_NewReader b)

/-- Two buffers of the same length that agree before the per-cycle offsets
and after them, the loop over the offsets ending at the same bit in both,
give the same result. -/
theorem DecodeSPS_cycle (b b' : List Nat) (ht : (cycleOf b).1.pic_order_cnt_type = 1)
    (he : (afterCycle b).EOF = false) (hlen : b'.length = b.length)
    (hpre : ∀ i, i < (cycleOf b).2.pos → bitAt b' i = bitAt b i)
    (hsuf : ∀ i, (afterCycle b).pos ≤ i → bitAt b' i = bitAt b i)
    (hpos : (readRefFrames (cycleOf b).1.num_ref_frames_in_pic_order_cnt_cycle
      { (cycleOf b).2 with buf := b' }).2.pos = (afterCycle b).pos)
    (heof : (readRefFrames (cycleOf b).1.num_ref_frames_in_pic_order_cnt_cycle
      { (cycleOf b).2 with buf := b' }).2.EOF = false) :
    DecodeSPS b' = DecodeSPS b := by
  have hce : (cycleOf b).2.EOF = false := by
    cases hq : (cycleOf b).2.EOF with
    | false => rfl
    | true =>
      have := pres_apply (pres_readRefFrames sticky_ReadBit
        (cycleOf b).1.num_ref_frames_in_pic_order_cnt_cycle) (cycleOf b).2 hq
      unfold afterCycle at he
      rw [this] at he
      cases he
  have hc : Within (cycleOf b).2.pos (cycleOf b).2 := ⟨hce, Nat.le_refl _⟩
  have h0 : Pre (cycleOf b).2.pos (NewReader b) (NewReader b') :=
    ⟨⟨hlen, rfl, rfl, rfl⟩, hpre⟩
  have hsim := (simul_readToCycle (pre_sameBit (cycleOf b).2.pos) (pre_ReadBit (cycleOf b).2.pos)).2
    (NewReader b) (NewReader b') h0 hc
  have hv : (cycleOf b').1 = (cycleOf b).1 := hsim.1
  have hP : SamePlace (cycleOf b).2 (cycleOf b').2 := hsim.2.1
  have hib := cycleOf_inv b
  have hib' := cycleOf_inv b'
  have hc' : (cycleOf b').2 = { (cycleOf b).2 with buf := b' } := by
    obtain ⟨_, p2, p3, p4⟩ := hP
    have hb := hib'.1
    rcases hx : (cycleOf b').2 with ⟨bf, ps, ef, tk⟩
    rw [hx] at p2 p3 p4 hb
    simp only at p2 p3 p4 hb
    rw [hb, p2, p3, p4]
  have hac' : afterCycle b' = (readRefFrames (cycleOf b).1.num_ref_frames_in_pic_order_cnt_cycle
      { (cycleOf b).2 with buf := b' }).2 := by
    unfold afterCycle
    rw [hv, hc']
  rw [← hac'] at hpos heof
  have hia : Inv b (afterCycle b) :=
    pres_apply (pres_readRefFrames (inv_ReadBit b) _) _ hib
  have hia' : Inv b' (afterCycle b') :=
    pres_apply (pres_readRefFrames (inv_ReadBit b') _) _ hib'
  have hF : Fut (afterCycle b) (afterCycle b') := by
    refine ⟨⟨by rw [hia.1, hia'.1]; exact hlen, hpos, by rw [he, heof], ?_⟩, ?_⟩
    · rw [hia.2.2 he, hia'.2.2 heof, hpos]
    · intro i hi
      rw [hia.1, hia'.1]
      exact hsuf i hi
  have ht' : (cycleOf b').1.pic_order_cnt_type = 1 := by rw [hv]; exact ht
  have hhdr : b'.headD 0 % 32 = b.headD 0 % 32 := by
    rw [← cycleOf_hdr, ← cycleOf_hdr, hv]
  have hhigh : (readHigh (identOf b').1 (identOf b').2).1 =
      (readHigh (identOf b).1 (identOf b).2).1 := by
    rw [← cycleOf_high, ← cycleOf_high, hv]
  have hd := DecodeSPS_cases b
  have hd' := DecodeSPS_cases b'
  by_cases hh : b.headD 0 % 32 ≠ NALUTypeSPS
  · rw [hd.1 hh, hd'.1 (by rw [hhdr]; exact hh)]
  · have hh1 : b.headD 0 % 32 = NALUTypeSPS := Decidable.not_not.mp hh
    cases hq : (readHigh (identOf b).1 (identOf b).2).1 with
    | none => rw [hd.2.1 hq, hd'.2.1 (by rw [hhigh]; exact hq)]
    | some s2 =>
      rw [hd.2.2 s2 hh1 hq, hd'.2.2 s2 (by rw [hhdr]; exact hh1) (by rw [hhigh]; exact hq),
        vuiOf_tailOf, vuiOf_tailOf, readPOC_cycle b s2 ht, readPOC_cycle b' s2 ht', hv]
      have hT := (simul_tailOf fut_sameBit fut_ReadBit (pocRecord s2 (cycleOf b).1)).2
        (afterCycle b) (afterCycle b') hF trivial
      have e1 : (tailOf (pocRecord s2 (cycleOf b).1) (afterCycle b')).1 =
          (tailOf (pocRecord s2 (cycleOf b).1) (afterCycle b)).1 := by
        unfold tailOf
        exact hT.1
      have e2 : (tailOf (pocRecord s2 (cycleOf b).1) (afterCycle b')).2.EOF =
          (tailOf (pocRecord s2 (cycleOf b).1) (afterCycle b)).2.EOF := by
        unfold tailOf
        exact hT.2.1.2.2.1
      dsimp only
      exact result_congr e1 e2

theorem tailOf_sticky (s : SPS) (q : Reader) (h : q.EOF = true) : (tailOf s q).2.EOF = true := by
  unfold tailOf
  exact pres_apply (pres_bind (pres_readFrame sticky_ReadBit s)
    (fun _ => pres_bind (pres_readCrop sticky_ReadBit _)
      (fun _ => pres_readVUI sticky_ReadBit _))) q h

/-- The picture order count fields of a returned record of type 1 are the
values read up to the cycle count, and the loop over the per-cycle offsets
ended inside the buffer. -/
theorem DecodeSPS_type1 {b : List Nat} {s : SPS} (h : DecodeSPS b = some s) :
    s.pic_order_cnt_type = (cycleOf b).1.pic_order_cnt_type ∧
    (s.pic_order_cnt_type = 1 →
      (afterCycle b).EOF = false ∧
      s.num_ref_frames_in_pic_order_cnt_cycle =
        (cycleOf b).1.num_ref_frames_in_pic_order_cnt_cycle) := by
  obtain ⟨_, s2, _, hs, he⟩ := DecodeSPS_chain h
  obtain ⟨_, _, g3, _⟩ := vuiOf_groups s2 (readHigh (identOf b).1 (identOf b).2).2
  have hg : s.gPOC = (readPOC s2 (readHigh (identOf b).1 (identOf b).2).2).1.gPOC := by
    rw [hs, g3]
  have hty : s.pic_order_cnt_type = (cycleOf b).1.pic_order_cnt_type := by
    have h2 := congrArg (fun g => g.2.1) hg
    simp only [SPS.gPOC] at h2
    rw [h2, readPOC_type, cycleOf_type]
  refine ⟨hty, fun h1 => ?_⟩
  have ht : (cycleOf b).1.pic_order_cnt_type = 1 := by rw [← hty]; exact h1
  have hp := readPOC_cycle b s2 ht
  constructor
  · rw [vuiOf_tailOf, hp] at he
    cases hq : (afterCycle b).EOF with
    | false => rfl
    | true =>
      have hx := tailOf_sticky (pocRecord s2 (cycleOf b).1) (afterCycle b) hq
      dsimp only at he
      rw [hx] at he
      cases he
  · have h2 := congrArg (fun g => g.2.2.2.2.2.2) hg
    simp only [SPS.gPOC] at h2
    rw [h2, hp]
    rfl

theorem readPOC_type0 (s : SPS) (r : Reader) (h : (ReadUEGolomb (ReadUEGolomb r).2).1 = 0) :
    (readPOC s r).2 = (ReadUEGolomb (ReadUEGolomb (ReadUEGolomb r).2).2).2 ∧
    (readPOC s r).1.log2_max_pic_order_cnt_lsb_minus4 =
      (ReadUEGolomb (ReadUEGolomb (ReadUEGolomb r).2).2).1 := by
  have hp : readPOC s r =
      ({ s with log2_max_frame_num_minus4 := (ReadUEGolomb r).1,
                pic_order_cnt_type := (ReadUEGolomb (ReadUEGolomb r).2).1,
                log2_max_pic_order_cnt_lsb_minus4 :=
                  (ReadUEGolomb (ReadUEGolomb (ReadUEGolomb r).2).2).1 },
        (ReadUEGolomb (ReadUEGolomb (ReadUEGolomb r).2).2).2) := by
    rw [readPOC_apply, if_pos h]
  rw [hp]
  simp only [and_self]

theorem readPOC_other (s : SPS) (r : Reader) (h : 2 ≤ (ReadUEGolomb (ReadUEGolomb r).2).1) :
    (readPOC s r).2 = (ReadUEGolomb (ReadUEGolomb r).2).2 ∧
    (frameOf s r).1.num_ref_frames = (ReadUEGolomb (ReadUEGolomb (ReadUEGolomb r).2).2).1 := by
  have h0 : ¬ (ReadUEGolomb (ReadUEGolomb r).2).1 = 0 := by omega
  have h1 : ¬ (ReadUEGolomb (ReadUEGolomb r).2).1 = 1 := by omega
  have hp : readPOC s r =
      ({ s with log2_max_frame_num_minus4 := (ReadUEGolomb r).1,
                pic_order_cnt_type := (ReadUEGolomb (ReadUEGolomb r).2).1 },
        (ReadUEGolomb (ReadUEGolomb r).2).2) := by
    rw [readPOC_apply, if_neg h0, if_neg h1]
  unfold frameOf pocOf
  rw [hp]
  simp only [readFrame, Rd.bind_apply, Rd.pure_apply, true_and]

/-- C15: the picture order count branch. With type 0 exactly one more
unsigned code is read; with type 2 or above the cursor is passed on as the
type left it and `num_ref_frames` is read there; with type 1 the flag, two
signed offsets and the cycle count are read and then the loop makes exactly
cycle-count signed reads. The per-cycle offsets change the cursor only: two
buffers of the same length that agree before and after the per-cycle
offsets, the loop ending at the same bit in both, give the same result. -/
theorem poc_branch :
    (∀ (s : SPS) (r : Reader), (ReadUEGolomb (ReadUEGolomb r).2).1 = 0 →
      (readPOC s r).2 = (ReadUEGolomb (ReadUEGolomb (ReadUEGolomb r).2).2).2 ∧
      (readPOC s r).1.log2_max_pic_order_cnt_lsb_minus4 =
        (ReadUEGolomb (ReadUEGolomb (ReadUEGolomb r).2).2).1) ∧
    (∀ (s : SPS) (r : Reader), 2 ≤ (ReadUEGolomb (ReadUEGolomb r).2).1 →
      (readPOC s r).2 = (ReadUEGolomb (ReadUEGolomb r).2).2 ∧
      (frameOf s r).1.num_ref_frames = (ReadUEGolomb (ReadUEGolomb (ReadUEGolomb r).2).2).1) ∧
    (∀ (b : List Nat) (s2 : SPS), (cycleOf b).1.pic_order_cnt_type = 1 →
      readPOC s2 (readHigh (identOf b).1 (identOf b).2).2 =
        (pocRecord s2 (cycleOf b).1, afterCycle b)) ∧
    (∀ (n : Nat) (r : Reader),
      (readRefFrames n r).2 = Nat.iterate (fun r => (ReadSEGolomb r).2) n r) ∧
    (∀ (b : List Nat) (s : SPS), DecodeSPS b = some s →
      s.pic_order_cnt_type = (cycleOf b).1.pic_order_cnt_type ∧
      (s.pic_order_cnt_type = 1 →
        (afterCycle b).EOF = false ∧
        s.num_ref_frames_in_pic_order_cnt_cycle =
          (cycleOf b).1.num_ref_frames_in_pic_order_cnt_cycle)) ∧
    (∀ (b b' : List Nat), (cycleOf b).1.pic_order_cnt_type = 1 →
      (afterCycle b).EOF = false → b'.length = b.length →
      (∀ i, i < (cycleOf b).2.pos → bitAt b' i = bitAt b i) →
      (∀ i, (afterCycle b).pos ≤ i → bitAt b' i = bitAt b i) →
      (readRefFrames (cycleOf b).1.num_ref_frames_in_pic_order_cnt_cycle
        { (cycleOf b).2 with buf := b' }).2.pos = (afterCycle b).pos →
      (readRefFrames (cycleOf b).1.num_ref_frames_in_pic_order_cnt_cycle
        { (cycleOf b).2 with buf := b' }).2.EOF = false →
      DecodeSPS b' = DecodeSPS b) := by
  exact ⟨readPOC_type0, readPOC_other, readPOC_cycle, readRefFrames_iterate,
    fun _ _ h => DecodeSPS_type1 h, DecodeSPS_cycle⟩

theorem bitAt_spsPoc1b {i : Nat} (hi : 54 ≤ i) : bitAt spsPoc1b i = bitAt spsPoc1 i := by
  by_cases h : i < 56
  · have : i = 54 ∨ i = 55 := by omega
    rcases this with rfl | rfl <;> decide
  · obtain ⟨k, hk⟩ : ∃ k, i / 8 = k + 7 := ⟨i / 8 - 7, by omega⟩
    unfold bitAt spsPoc1b spsPoc1
    rw [hk]
    simp only [List.getD_cons_succ]

/-- C15 at the Baseline SPS of type 1 with one per-cycle offset: the code 4
(offset -2) replaced by the code 5 (offset 3) of the same length gives the
same record. -/
theorem poc_branch_witness :
    (ReadSEGolomb (cycleOf spsPoc1).2).1 = -2 ∧ (ReadSEGolomb (cycleOf spsPoc1b).2).1 = 3 ∧
    DecodeSPS spsPoc1 ≠ none ∧ DecodeSPS spsPoc1b = DecodeSPS spsPoc1 := by
  have p : (cycleOf spsPoc1).2.pos = 49 := by decide
  have q : (afterCycle spsPoc1).pos = 54 := by decide
  refine ⟨by decide, by decide, by decide, ?_⟩
  refine poc_branch.2.2.2.2.2 spsPoc1 spsPoc1b (by decide) (by decide) (by decide) ?_ ?_
    (by decide) (by decide)
  · rw [p]
    decide
  · rw [q]
    exact fun i hi => bitAt_spsPoc1b hi

/-! ## The work of a walk -/

theorem cost_pure {α : Type} (k : Nat) (a : α) : Cost k (pure a : Rd α) :=
  fun _ => ⟨Nat.le_refl _, Nat.le_add_right _ _⟩

theorem cost_mono {α : Type} {m : Rd α} {k k' : Nat} (h : Cost k m) (hk : k ≤ k') :
    Cost k' m := by
  intro r
  obtain ⟨h1, h2⟩ := h r
  exact ⟨h1, by omega⟩

theorem cost_bind {α β : Type} {m : Rd α} {f : α → Rd β} (k1 : Nat) {k : Nat}
    (hm : Cost k1 m) (hf : ∀ a, Cost (k - k1) (f a)) (hk : k1 ≤ k) : Cost k (m >>= f) := by
  intro r
  simp only [Rd.bind_apply]
  obtain ⟨h1, h2⟩ := hm r
  obtain ⟨h3, h4⟩ := hf (m r).1 (m r).2
  exact ⟨Nat.le_trans h1 h3, by omega⟩

theorem cost_ReadBit : Cost 1 ReadBit := by
  intro r
  by_cases hp : r.pos < 8 * r.buf.length
  · rw [ReadBit_lt hp]
    simp only
    omega
  · rw [ReadBit_ge hp]
    simp only
    omega

theorem cost_ReadBits : ∀ n, Cost n (ReadBits n) := by
  intro n
  induction n with
  | zero => exact cost_pure 0 0
  | succ n ih =>
    unfold H264.ReadBits
    refine cost_bind 1 cost_ReadBit (fun _ => ?_) (Nat.succ_pos n)
    refine cost_bind n (cost_mono ih (Nat.le_refl n)) (fun _ => cost_pure _ _) (by omega)

theorem cost_ReadByte : Cost 8 ReadByte :=
  cost_bind 8 (cost_ReadBits 8) (fun _ => cost_pure _ _) (Nat.le_refl 8)

/-- The leading-zero count advances by at least the zeros it counts and
makes at most one read that does not advance. -/
theorem countZeros_cost : ∀ (f : Nat) (r : Reader),
    r.pos + (countZeros f r).1 ≤ (countZeros f r).2.pos ∧
      (countZeros f r).2.ticks + r.pos ≤ r.ticks + (countZeros f r).2.pos + 1 := by
  intro f
  induction f with
  | zero =>
    intro r
    exact ⟨Nat.le_refl _, Nat.le_add_right _ _⟩
  | succ f ih =>
    intro r
    rw [countZeros_succ]
    by_cases hp : r.pos < 8 * r.buf.length
    · rw [ReadBit_lt hp]
      simp only
      split
      · simp only
        omega
      · have := ih { r with pos := r.pos + 1, ticks := r.ticks + 1 }
        simp only at this ⊢
        omega
    · rw [ReadBit_ge hp]
      simp only [or_true, if_true]
      omega

theorem cost_ReadUEGolomb : Cost 1 ReadUEGolomb := by
  intro r
  unfold H264.ReadUEGolomb
  simp only
  obtain ⟨h1, h2⟩ := countZeros_cost (8 * r.buf.length - r.pos + 1) r
  obtain ⟨h3, h4⟩ := cost_ReadBits (countZeros (8 * r.buf.length - r.pos + 1) r).1
    (countZeros (8 * r.buf.length - r.pos + 1) r).2
  omega

theorem cost_ReadSEGolomb : Cost 1 ReadSEGolomb :=
  cost_bind 1 cost_ReadUEGolomb (fun _ => cost_pure _ _) (Nat.le_refl 1)

theorem cost_readRefFrames : ∀ n, Cost n (readRefFrames n) := by
  intro n
  induction n with
  | zero => exact cost_pure 0 ()
  | succ n ih =>
    unfold H264.readRefFrames
    exact cost_bind 1 cost_ReadSEGolomb (fun _ => cost_mono ih (by omega)) (Nat.succ_pos n)

theorem cost_readScalingFlags : ∀ n, Cost n (readScalingFlags n) := by
  intro n
  induction n with
  | zero => exact cost_pure 0 false
  | succ n ih =>
    unfold H264.readScalingFlags
    refine cost_bind 1 cost_ReadBit (fun _ => ?_) (Nat.succ_pos n)
    split
    · exact cost_pure _ _
    · exact cost_mono ih (by omega)

theorem cost_readIdent : Cost 25 readIdent := by
  unfold H264.readIdent
  repeat with_reducible first
    | exact cost_pure _ _
    | refine cost_bind 8 cost_ReadByte (fun _ => ?_) (by decide)
    | refine cost_bind 1 cost_ReadUEGolomb (fun _ => ?_) (by decide)

theorem cost_readChroma (s : SPS) : Cost 6 (readChroma s) := by
  unfold H264.readChroma
  refine cost_bind 1 cost_ReadUEGolomb (fun _ => ?_) (by decide)
  refine cost_bind 1 ?_ (fun _ => ?_) (by decide)
  · split
    · exact cost_bind 1 cost_ReadBit (fun _ => cost_pure _ _) (by decide)
    · exact cost_pure _ _
  · repeat with_reducible first
      | exact cost_pure _ _
      | refine cost_bind 1 cost_ReadUEGolomb (fun _ => ?_) (by decide)
      | refine cost_bind 1 cost_ReadBit (fun _ => ?_) (by decide)
      | split

theorem cost_readHigh (s : SPS) : Cost 18 (readHigh s) := by
  intro r
  rw [readHigh_apply]
  obtain ⟨h1, h2⟩ := cost_readChroma s r
  obtain ⟨h3, h4⟩ := cost_readScalingFlags (readChroma s r).1.2 (readChroma s r).2
  have hn : (readChroma s r).1.2 ≤ 12 := by
    rw [readChroma_count]
    split <;> decide
  split
  · split
    · split
      · simp only
        omega
      · simp only
        omega
    · simp only
      omega
  · simp only
    omega

theorem cost_readFrame (s : SPS) : Cost 7 (readFrame s) := by
  unfold H264.readFrame
  refine cost_bind 1 cost_ReadUEGolomb (fun _ => ?_) (by decide)
  refine cost_bind 1 cost_ReadBit (fun _ => ?_) (by decide)
  refine cost_bind 1 cost_ReadUEGolomb (fun _ => ?_) (by decide)
  refine cost_bind 1 cost_ReadUEGolomb (fun _ => ?_) (by decide)
  refine cost_bind 1 cost_ReadBit (fun _ => ?_) (by decide)
  refine cost_bind 1 ?_ (fun _ => ?_) (by decide)
  · split
    · exact cost_ReadBit
    · exact cost_pure _ _
  · exact cost_bind 1 cost_ReadBit (fun _ => cost_pure _ _) (by decide)

theorem cost_readCrop (s : SPS) : Cost 5 (readCrop s) := by
  unfold H264.readCrop
  refine cost_bind 1 cost_ReadBit (fun _ => ?_) (by decide)
  split
  · repeat with_reducible first
      | exact cost_pure _ _
      | refine cost_bind 1 cost_ReadUEGolomb (fun _ => ?_) (by decide)
  · exact cost_pure _ _

theorem cost_readVUI (s : SPS) : Cost 42 (readVUI s) := by
  unfold H264.readVUI
  refine cost_bind 1 cost_ReadBit (fun _ => ?_) (by decide)
  split
  · refine cost_bind 1 cost_ReadBit (fun _ => ?_) (by decide)
    split
    · refine cost_bind 8 (cost_ReadBits 8) (fun _ => ?_) (by decide)
      split
      · refine cost_bind 16 (cost_ReadBits 16) (fun _ => ?_) (by decide)
        exact cost_bind 16 (cost_ReadBits 16) (fun _ => cost_pure _ _) (by decide)
      · exact cost_pure _ _
    · exact cost_pure _ _
  · exact cost_pure _ _

theorem cost_tailOf (s : SPS) :
    Cost 54 (readFrame s >>= fun s => readCrop s >>= fun s => readVUI s) :=
  cost_bind 7 (cost_readFrame s)
    (fun _ => cost_bind 5 (cost_readCrop _) (fun _ => cost_mono (cost_readVUI _) (by decide))
      (by decide)) (by decide)

/-- The picture order count fields cost at most six reads that do not
advance, and one more for each per-cycle offset. -/
theorem readPOC_cost (s : SPS) (r : Reader) :
    r.pos ≤ (readPOC s r).2.pos ∧
    (readPOC s r).2.ticks + 2 * r.pos ≤
      r.ticks + 2 * (readPOC s r).2.pos + 6 +
        (readPOC s r).1.num_ref_frames_in_pic_order_cnt_cycle := by
  rw [readPOC_apply]
  obtain ⟨a1, a2⟩ := cost_ReadUEGolomb r
  obtain ⟨b1, b2⟩ := cost_ReadUEGolomb (ReadUEGolomb r).2
  split
  · obtain ⟨c1, c2⟩ := cost_ReadUEGolomb (ReadUEGolomb (ReadUEGolomb r).2).2
    simp only
    omega
  · split
    · obtain ⟨c1, c2⟩ := cost_ReadBit (ReadUEGolomb (ReadUEGolomb r).2).2
      obtain ⟨d1, d2⟩ := cost_ReadSEGolomb (ReadBit (ReadUEGolomb (ReadUEGolomb r).2).2).2
      obtain ⟨e1, e2⟩ := cost_ReadSEGolomb
        (ReadSEGolomb (ReadBit (ReadUEGolomb (ReadUEGolomb r).2).2).2).2
      obtain ⟨f1, f2⟩ := cost_ReadUEGolomb (ReadSEGolomb
        (ReadSEGolomb (ReadBit (ReadUEGolomb (ReadUEGolomb r).2).2).2).2).2
      obtain ⟨g1, g2⟩ := cost_readRefFrames
        (ReadUEGolomb (ReadSEGolomb
          (ReadSEGolomb (ReadBit (ReadUEGolomb (ReadUEGolomb r).2).2).2).2).2).1
        (ReadUEGolomb (ReadSEGolomb
          (ReadSEGolomb (ReadBit (ReadUEGolomb (ReadUEGolomb r).2).2).2).2).2).2
      simp only
      omega
    · simp only
      omega

theorem ticks_ReadBit (t : Nat) : Pres (fun r => t ≤ r.ticks) ReadBit := by
  intro r h
  by_cases hp : r.pos < 8 * r.buf.length
  · rw [ReadBit_lt hp]
    exact Nat.le_succ_of_le h
  · rw [ReadBit_ge hp]
    exact Nat.le_succ_of_le h

theorem ReadBit_ticks (r : Reader) : (ReadBit r).2.ticks = r.ticks + 1 := by
  by_cases hp : r.pos < 8 * r.buf.length
  · rw [ReadBit_lt hp]
  · rw [ReadBit_ge hp]

/-- Every Exp-Golomb read makes at least one single-bit read. -/
theorem ReadUEGolomb_ticks (r : Reader) : r.ticks + 1 ≤ (ReadUEGolomb r).2.ticks := by
  unfold H264.ReadUEGolomb
  simp only
  refine pres_apply (pres_ReadBits (ticks_ReadBit (r.ticks + 1)) _) _ ?_
  rw [countZeros_succ]
  split
  · simp only
    rw [ReadBit_ticks]
  · simp only
    exact pres_apply (pres_countZeros (ticks_ReadBit (r.ticks + 1)) _) _
      (by rw [ReadBit_ticks])

/-- A loop over `n` per-cycle offsets that ends with the exhaustion flag clear
has advanced by at least `n` bits. -/
theorem readRefFrames_advance (b : List Nat) : ∀ (n : Nat) (r : Reader), Inv b r →
    (readRefFrames n r).2.EOF = false → r.pos + n ≤ (readRefFrames n r).2.pos := by
  intro n
  induction n with
  | zero => intro r _ _; exact Nat.le_refl _
  | succ n ih =>
    intro r hi he
    have hstep : readRefFrames (n + 1) r = readRefFrames n (ReadSEGolomb r).2 := by
      simp only [readRefFrames, Rd.bind_apply]
    rw [hstep] at he ⊢
    have hi1 : Inv b (ReadSEGolomb r).2 := pres_apply (pres_ReadSEGolomb (inv_ReadBit b)) r hi
    have he1 : (ReadSEGolomb r).2.EOF = false := by
      cases hq : (ReadSEGolomb r).2.EOF with
      | false => rfl
      | true =>
        rw [pres_apply (pres_readRefFrames sticky_ReadBit n) _ hq] at he
        cases he
    have he0 : r.EOF = false := by
      cases hq : r.EOF with
      | false => rfl
      | true =>
        rw [pres_apply (pres_ReadSEGolomb sticky_ReadBit) _ hq] at he1
        cases he1
    have ht : r.ticks + 1 ≤ (ReadSEGolomb r).2.ticks := by
      have := ReadUEGolomb_ticks r
      simp only [ReadSEGolomb, Rd.bind_apply, Rd.pure_apply]
      exact this
    have h1 := ih _ hi1 he
    have h2 := hi.2.2 he0
    have h3 := hi1.2.2 he1
    omega

theorem ReadUEGolomb_lt (r : Reader) : (ReadUEGolomb r).1 < 2 ^ 32 := by
  unfold H264.ReadUEGolomb
  exact Nat.mod_lt _ (by decide)

/-- The cycle count of the record after the picture order count fields: the
unsigned code read on the path of type 1, as it was otherwise. -/
theorem readPOC_count (s : SPS) (r : Reader)
    (hs : s.num_ref_frames_in_pic_order_cnt_cycle = 0) :
    (readPOC s r).1.num_ref_frames_in_pic_order_cnt_cycle < 2 ^ 32 ∧
    ((readPOC s r).1.pic_order_cnt_type ≠ 1 →
      (readPOC s r).1.num_ref_frames_in_pic_order_cnt_cycle = 0) := by
  rw [readPOC_apply]
  split
  · simp only [hs]
    exact ⟨by decide, fun _ => trivial⟩
  · split
    · rename_i h1
      simp only
      exact ⟨ReadUEGolomb_lt _, fun hn => absurd h1 hn⟩
    · simp only [hs]
      exact ⟨by decide, fun _ => trivial⟩

theorem vuiOf_count (s2 : SPS) (r2 : Reader) :
    (vuiOf s2 r2).1.num_ref_frames_in_pic_order_cnt_cycle =
        (readPOC s2 r2).1.num_ref_frames_in_pic_order_cnt_cycle ∧
      (vuiOf s2 r2).1.pic_order_cnt_type = (readPOC s2 r2).1.pic_order_cnt_type := by
  obtain ⟨_, _, g3, _⟩ := vuiOf_groups s2 r2
  have h1 := congrArg (fun g => g.2.2.2.2.2.2) g3
  have h2 := congrArg (fun g => g.2.1) g3
  simp only [SPS.gPOC] at h1 h2
  exact ⟨h1, h2⟩

/-- The single-bit reads of a walk over `n` bytes: at most `16 n + 111` and
the cycle count of the record it ends with, itself below `2 ^ 32`. -/
theorem walk_ticks (b : List Nat) :
    (walk (NewReader b)).2.ticks ≤ 16 * b.length + 111 + (walk (NewReader b)).1.cycle ∧
      (walk (NewReader b)).1.cycle < 2 ^ 32 := by
  have hpos := walk_pos_le b
  obtain ⟨a1, a2⟩ := cost_ReadByte (NewReader b)
  have a3 : (NewReader b).ticks = 0 := rfl
  have a4 : (NewReader b).pos = 0 := rfl
  rw [walk_NewReader] at hpos ⊢
  by_cases hh : b.headD 0 % 32 ≠ NALUTypeSPS
  · rw [if_pos hh] at hpos ⊢
    unfold afterHeader at hpos ⊢
    simp only [Outcome.cycle] at hpos ⊢
    exact ⟨by omega, by decide⟩
  · rw [if_neg hh] at hpos ⊢
    obtain ⟨b1, b2⟩ := cost_readIdent (afterHeader b)
    obtain ⟨c1, c2⟩ := cost_readHigh (readIdent (afterHeader b)).1 (readIdent (afterHeader b)).2
    unfold afterHeader at b1 b2 c1 c2 hpos ⊢
    cases hq : (readHigh (readIdent (ReadByte (NewReader b)).2).1
        (readIdent (ReadByte (NewReader b)).2).2).1 with
    | none =>
      rw [readFields_scaling hq] at hpos ⊢
      simp only [Outcome.cycle] at hpos ⊢
      exact ⟨by omega, by decide⟩
    | some s2 =>
      have hz : s2.num_ref_frames_in_pic_order_cnt_cycle = 0 := by
        have hq' : (readHigh (identOf b).1 (identOf b).2).1 = some s2 := by
          unfold identOf afterHeader
          exact hq
        obtain ⟨_, _, z3, _⟩ := readHigh_groups hq'
        have := congrArg (fun g => g.2.2.2.2.2.2) z3
        simp only [SPS.gPOC] at this
        exact this
      rw [readFields_some hq] at hpos ⊢
      simp only [Outcome.cycle] at hpos ⊢
      rw [(vuiOf_count s2 _).1]
      obtain ⟨d1, d2⟩ := readPOC_cost s2 (readHigh (readIdent (ReadByte (NewReader b)).2).1
        (readIdent (ReadByte (NewReader b)).2).2).2
      have hlt := (readPOC_count s2 (readHigh (readIdent (ReadByte (NewReader b)).2).1
        (readIdent (ReadByte (NewReader b)).2).2).2 hz).1
      rw [vuiOf_tailOf] at hpos ⊢
      obtain ⟨e1, e2⟩ := cost_tailOf (readPOC s2 (readHigh (readIdent (ReadByte (NewReader b)).2).1
        (readIdent (ReadByte (NewReader b)).2).2).2).1
        (readPOC s2 (readHigh (readIdent (ReadByte (NewReader b)).2).1
        (readIdent (ReadByte (NewReader b)).2).2).2).2
      unfold tailOf at hpos ⊢
      exact ⟨by omega, hlt⟩

/-- A walk that ends with the exhaustion flag clear has made one single-bit
read for each bit of the buffer it passed, and the loop over the per-cycle
offsets has advanced by a bit or more at each offset. -/
theorem DecodeSPS_work {b : List Nat} {s : SPS} (h : DecodeSPS b = some s) :
    (walk (NewReader b)).2.ticks = (walk (NewReader b)).2.pos ∧
    (walk (NewReader b)).2.ticks ≤ 8 * b.length ∧
    s.num_ref_frames_in_pic_order_cnt_cycle ≤ 8 * b.length := by
  obtain ⟨_, h2⟩ := (DecodeSPS_eq_some_iff b s).1 h
  have hi := pres_apply (pres_walk (inv_ReadBit b)) (NewReader b) (inv_NewReader b)
  have ht := hi.2.2 h2
  refine ⟨ht, by rw [ht]; exact hi.2.1, ?_⟩
  by_cases h1 : s.pic_order_cnt_type = 1
  · obtain ⟨_, hx⟩ := DecodeSPS_type1 h
    obtain ⟨he, hc⟩ := hx h1
    unfold afterCycle at he
    have ha := readRefFrames_advance b (cycleOf b).1.num_ref_frames_in_pic_order_cnt_cycle
      (cycleOf b).2 (cycleOf_inv b) he
    have hia : Inv b (readRefFrames (cycleOf b).1.num_ref_frames_in_pic_order_cnt_cycle
        (cycleOf b).2).2 :=
      pres_apply (pres_readRefFrames (inv_ReadBit b)
        (cycleOf b).1.num_ref_frames_in_pic_order_cnt_cycle) (cycleOf b).2 (cycleOf_inv b)
    have := hia.2.1
    rw [hc]
    omega
  · obtain ⟨_, s2, hq, hs, _⟩ := DecodeSPS_chain h
    have hz : s2.num_ref_frames_in_pic_order_cnt_cycle = 0 := by
      obtain ⟨_, _, z3, _⟩ := readHigh_groups hq
      have := congrArg (fun g => g.2.2.2.2.2.2) z3
      simp only [SPS.gPOC] at this
      exact this
    obtain ⟨c1, c2⟩ := vuiOf_count s2 (readHigh (identOf b).1 (identOf b).2).2
    rw [← hs] at c1 c2
    rw [c1, (readPOC_count s2 _ hz).2 (by rw [← c2]; exact h1)]
    exact Nat.zero_le _

/-- C16, the claim as stated fails: on a buffer of 7 bytes (56 bits) with
`pic_order_cnt_type` 1 and a decoded cycle count of 100 the walk reaches the
loop over the per-cycle offsets, which makes 100 signed reads, more than
there are bits in the buffer, with 106 single-bit reads of the cursor. -/
theorem loop_reads_counterexample :
    8 * spsCycle.length = 56 ∧
    (cycleOf spsCycle).1.hdr % 32 = NALUTypeSPS ∧
    (cycleOf spsCycle).1.high.isSome = true ∧
    (cycleOf spsCycle).1.pic_order_cnt_type = 1 ∧
    (cycleOf spsCycle).1.num_ref_frames_in_pic_order_cnt_cycle = 100 ∧
    afterCycle spsCycle = Nat.iterate (fun r => (ReadSEGolomb r).2) 100 (cycleOf spsCycle).2 ∧
    (afterCycle spsCycle).ticks = (cycleOf spsCycle).2.ticks + 106 ∧
    (walk (NewReader spsCycle)).2.ticks = 168 ∧
    ¬ (cycleOf spsCycle).1.num_ref_frames_in_pic_order_cnt_cycle ≤ 8 * spsCycle.length := by
  have hc : (cycleOf spsCycle).1.num_ref_frames_in_pic_order_cnt_cycle = 100 := by decide
  refine ⟨by decide, by decide, by decide, by decide, hc, ?_, by decide, by decide, ?_⟩
  · unfold afterCycle
    rw [hc]
    exact readRefFrames_iterate 100 _
  · rw [hc]
    decide

/-- C16 as amended: the walk is total (the zero count of an Exp-Golomb read
never stops for lack of fuel); over a buffer of `n` bytes it makes at most
`16 n + 111 + c` single-bit reads, `c < 2 ^ 32` being the cycle count of the
record it ends with (0 when it left through a `return nil`); the loop over
the per-cycle offsets makes exactly cycle-count signed reads; and when
`DecodeSPS` returns a record every single-bit read advanced the cursor, so
the reads are at most `8 n` and the cycle count is at most `8 n`. -/
theorem work_bound :
    (∀ (f : Nat) (r : Reader), 8 * r.buf.length - r.pos < f →
      countZeros f r = countZeros (8 * r.buf.length - r.pos + 1) r) ∧
    (∀ b : List Nat,
      (walk (NewReader b)).2.ticks ≤ 16 * b.length + 111 + (walk (NewReader b)).1.cycle ∧
      (walk (NewReader b)).1.cycle < 2 ^ 32) ∧
    (∀ (n : Nat) (r : Reader),
      (readRefFrames n r).2 = Nat.iterate (fun r => (ReadSEGolomb r).2) n r) ∧
    (∀ (b : List Nat) (s : SPS), DecodeSPS b = some s →
      (walk (NewReader b)).2.ticks = (walk (NewReader b)).2.pos ∧
      (walk (NewReader b)).2.ticks ≤ 8 * b.length ∧
      s.num_ref_frames_in_pic_order_cnt_cycle ≤ 8 * b.length) :=
  ⟨fun f r h => countZeros_fuel f _ r h (Nat.lt_succ_self _), walk_ticks,
    readRefFrames_iterate, fun _ _ h => DecodeSPS_work h⟩

/-- C16 as amended, at the Baseline SPS of type 1 (10 bytes, one per-cycle
offset): it decodes with at most 80 single-bit reads. -/
theorem work_bound_witness :
    ∃ s, DecodeSPS spsPoc1 = some s ∧ (walk (NewReader spsPoc1)).2.ticks ≤ 80 ∧
      s.num_ref_frames_in_pic_order_cnt_cycle ≤ 80 := by
  cases hd : DecodeSPS spsPoc1 with
  | none => exact absurd hd (by decide)
  | some s =>
    have h := work_bound.2.2.2 spsPoc1 s hd
    exact ⟨s, rfl, h.2.1, h.2.2⟩

/-! ## Profile gating: the group is read for the listed profiles -/

/-- The reads of lines 86-96, one by one: the six fields of the chroma and
bit-depth group are the values read in order from the cursor, the other
fields of the record are kept, and the cursor is passed on after
`seq_scaling_matrix_present_flag`. -/
theorem readChroma_apply (s : SPS) (r : Reader) :
    (readChroma s r).1.1 =
      { s with
        chroma_format_idc := (ReadUEGolomb r).1,
        separate_colour_plane_flag :=
          (if (ReadUEGolomb r).1 = 3 then (ReadBit (ReadUEGolomb r).2).1
           else s.separate_colour_plane_flag),
        bit_depth_luma_minus8 := (ReadUEGolomb (lumaCursor r)).1,
        bit_depth_chroma_minus8 := (ReadUEGolomb (ReadUEGolomb (lumaCursor r)).2).1,
        qpprime_y_zero_transform_bypass_flag :=
          (ReadBit (ReadUEGolomb (ReadUEGolomb (lumaCursor r)).2).2).1,
        seq_scaling_matrix_present_flag :=
          (ReadBit (ReadBit (ReadUEGolomb (ReadUEGolomb (lumaCursor r)).2).2).2).1 } ∧
    (readChroma s r).2 =
      (ReadBit (ReadBit (ReadUEGolomb (ReadUEGolomb (lumaCursor r)).2).2).2).2 := by
  simp only [readChroma, Rd.bind_apply, Rd.pure_apply, lumaCursor]
  split
  · simp only [Rd.bind_apply, Rd.pure_apply, and_self]
  · simp only [Rd.pure_apply, and_self]

theorem lumaCursor_ticks (r : Reader) : r.ticks + 1 ≤ (lumaCursor r).ticks := by
  unfold lumaCursor
  have h := ReadUEGolomb_ticks r
  split
  · rw [ReadBit_ticks]
    omega
  · exact h

/-- The chroma group costs at least five single-bit reads. -/
theorem readChroma_ticks (s : SPS) (r : Reader) : r.ticks + 5 ≤ (readChroma s r).2.ticks := by
  rw [(readChroma_apply s r).2, ReadBit_ticks, ReadBit_ticks]
  have h1 := lumaCursor_ticks r
  have h2 := ReadUEGolomb_ticks (lumaCursor r)
  have h3 := ReadUEGolomb_ticks (ReadUEGolomb (lumaCursor r)).2
  omega

theorem readHigh_ticks (s : SPS) (r : Reader) (hp : s.profile_idc ∈ highProfiles) :
    r.ticks + 5 ≤ (readHigh s r).2.ticks := by
  have h := readChroma_ticks s r
  rw [readHigh_apply, if_pos hp]
  have hf : r.ticks + 5 ≤
      (readScalingFlags (readChroma s r).1.2 (readChroma s r).2).2.ticks :=
    pres_apply (pres_readScalingFlags (ticks_ReadBit (r.ticks + 5)) (readChroma s r).1.2)
      (readChroma s r).2 h
  split
  · split
    · dsimp only
      exact hf
    · dsimp only
      exact hf
  · dsimp only
    exact h

/-- A returned record of a listed profile carries the chroma group read
after `seq_parameter_set_id`, at least five bits long, and
`log2_max_frame_num_minus4` is read where the `switch` left the cursor. -/
theorem DecodeSPS_high {b : List Nat} {s : SPS} (h : DecodeSPS b = some s)
    (hp : s.profile_idc ∈ highProfiles) :
    (identOf b).1.profile_idc ∈ highProfiles ∧
    s.gChroma = (chromaOf b).1.1.gChroma ∧
    (identOf b).2.pos + 5 ≤ (readHigh (identOf b).1 (identOf b).2).2.pos ∧
    s.log2_max_frame_num_minus4 =
      (ReadUEGolomb (readHigh (identOf b).1 (identOf b).2).2).1 := by
  obtain ⟨_, s2, h2, hs, he⟩ := DecodeSPS_chain h
  obtain ⟨i2, _, _, _, _, _, _⟩ := readHigh_groups h2
  obtain ⟨g1, g2, g3, _⟩ := vuiOf_groups s2 (readHigh (identOf b).1 (identOf b).2).2
  have e1 : s.gIdent = (identOf b).1.gIdent := by rw [hs, g1, i2]
  have hp1 : (identOf b).1.profile_idc ∈ highProfiles := by
    have : s.profile_idc = (identOf b).1.profile_idc := congrArg (fun g => g.1) e1
    rw [← this]
    exact hp
  have hs2 : s2 = (chromaOf b).1.1 := by
    rcases readHigh_some h2 with ⟨hn, _, _⟩ | ⟨_, hx⟩
    · exact absurd hp1 hn
    · unfold chromaOf
      exact hx
  have he2 : (readHigh (identOf b).1 (identOf b).2).2.EOF = false := by
    cases hq : (readHigh (identOf b).1 (identOf b).2).2.EOF with
    | false => rfl
    | true =>
      rw [vuiOf_sticky s2 _ hq] at he
      cases he
  have he1 : (identOf b).2.EOF = false := by
    cases hq : (identOf b).2.EOF with
    | false => rfl
    | true =>
      rw [pres_apply (pres_readHigh sticky_ReadBit (identOf b).1) (identOf b).2 hq] at he2
      cases he2
  have hi1 := identOf_inv b
  have hi2 : Inv b (readHigh (identOf b).1 (identOf b).2).2 :=
    pres_apply (pres_readHigh (inv_ReadBit b) (identOf b).1) (identOf b).2 hi1
  have ht := readHigh_ticks (identOf b).1 (identOf b).2 hp1
  have t1 := hi1.2.2 he1
  have t2 := hi2.2.2 he2
  refine ⟨hp1, by rw [hs, g2, hs2], by omega, ?_⟩
  have hl : s.gPOC = (readPOC s2 (readHigh (identOf b).1 (identOf b).2).2).1.gPOC := by
    rw [hs, g3]
  have hl2 := congrArg (fun g => g.1) hl
  simp only [SPS.gPOC] at hl2
  rw [hl2, readPOC_log2]

/-- A returned record of a profile outside the list: the cursor after
`seq_parameter_set_id` is the one `log2_max_frame_num_minus4` is read at, and
the chroma group is 0. -/
theorem DecodeSPS_low {b : List Nat} {s : SPS} (h : DecodeSPS b = some s)
    (hp : s.profile_idc ∉ highProfiles) :
    (identOf b).1.seq_parameter_set_id =
        (ReadUEGolomb (ReadByte (ReadByte (ReadByte (afterHeader b)).2).2).2).1 ∧
      (identOf b).2 =
        (ReadUEGolomb (ReadByte (ReadByte (ReadByte (afterHeader b)).2).2).2).2 ∧
      s.seq_parameter_set_id = (identOf b).1.seq_parameter_set_id ∧
      s.log2_max_frame_num_minus4 = (ReadUEGolomb (identOf b).2).1 ∧
      s.chroma_format_idc = 0 ∧ s.separate_colour_plane_flag = 0 ∧
      s.bit_depth_luma_minus8 = 0 ∧ s.bit_depth_chroma_minus8 = 0 ∧
      s.qpprime_y_zero_transform_bypass_flag = 0 ∧
      s.seq_scaling_matrix_present_flag = 0 := by
  obtain ⟨_, s2, h2, hs, _⟩ := DecodeSPS_chain h
  obtain ⟨i2, _, _, _, _, _, zc⟩ := readHigh_groups h2
  obtain ⟨g1, g2, g3, _⟩ := vuiOf_groups s2 (readHigh (identOf b).1 (identOf b).2).2
  have e1 : s.gIdent = (identOf b).1.gIdent := by rw [hs, g1, i2]
  have hp1 : (identOf b).1.profile_idc ∉ highProfiles := by
    have : s.profile_idc = (identOf b).1.profile_idc := congrArg (fun g => g.1) e1
    rw [← this]
    exact hp
  have e2 : s.gChroma = (0, 0, 0, 0, 0, 0) := by rw [hs, g2, zc hp1]
  have e3 : s.log2_max_frame_num_minus4 = (ReadUEGolomb (identOf b).2).1 := by
    have hl : s.gPOC = (readPOC s2 (readHigh (identOf b).1 (identOf b).2).2).1.gPOC := by
      rw [hs, g3]
    have hl2 := congrArg (fun g => g.1) hl
    simp only [SPS.gPOC] at hl2
    rcases readHigh_some h2 with ⟨_, _, hr⟩ | ⟨hin, _⟩
    · rw [hl2, readPOC_log2, hr]
    · exact absurd hin hp1
  simp only [SPS.gChroma, Prod.mk.injEq] at e2
  simp only [SPS.gIdent, Prod.mk.injEq] at e1
  exact ⟨(identOf_last b).1, (identOf_last b).2, e1.2.2.2, e3, e2⟩

theorem readHigh_low (s : SPS) (r : Reader) (hp : s.profile_idc ∉ highProfiles) :
    readHigh s r = (some s, r) := by
  rw [readHigh_apply, if_neg hp]

/-- The `switch` for a listed profile: the chroma group is read, then the
scaling-list flags when the matrix flag is set; at least five single-bit
reads are made, and a record passed on is the one the chroma reads built. -/
theorem readHigh_high (s : SPS) (r : Reader) (hp : s.profile_idc ∈ highProfiles) :
    readHigh s r =
      (if (readChroma s r).1.1.seq_scaling_matrix_present_flag ≠ 0 then
        if (readScalingFlags (readChroma s r).1.2 (readChroma s r).2).1 = true then
          (none, (readScalingFlags (readChroma s r).1.2 (readChroma s r).2).2)
        else
          (some (readChroma s r).1.1, (readScalingFlags (readChroma s r).1.2 (readChroma s r).2).2)
      else (some (readChroma s r).1.1, (readChroma s r).2)) ∧
    r.ticks + 5 ≤ (readHigh s r).2.ticks ∧
    (∀ s', (readHigh s r).1 = some s' →
      s' = (readChroma s r).1.1 ∧ s'.chroma_format_idc = (ReadUEGolomb r).1) := by
  refine ⟨by rw [readHigh_apply, if_pos hp], readHigh_ticks s r hp, fun s' h => ?_⟩
  rcases readHigh_some h with ⟨hn, _, _⟩ | ⟨_, he⟩
  · exact absurd hp hn
  · exact ⟨he, by rw [he, readChroma_format]⟩

theorem DecodeSPS_high_fields {b : List Nat} {s : SPS} (h : DecodeSPS b = some s)
    (hp : s.profile_idc ∈ highProfiles) :
    (identOf b).1.profile_idc ∈ highProfiles ∧
    s.chroma_format_idc = (chromaOf b).1.1.chroma_format_idc ∧
    s.separate_colour_plane_flag = (chromaOf b).1.1.separate_colour_plane_flag ∧
    s.bit_depth_luma_minus8 = (chromaOf b).1.1.bit_depth_luma_minus8 ∧
    s.bit_depth_chroma_minus8 = (chromaOf b).1.1.bit_depth_chroma_minus8 ∧
    s.qpprime_y_zero_transform_bypass_flag =
      (chromaOf b).1.1.qpprime_y_zero_transform_bypass_flag ∧
    s.seq_scaling_matrix_present_flag = (chromaOf b).1.1.seq_scaling_matrix_present_flag ∧
    s.chroma_format_idc = (ReadUEGolomb (identOf b).2).1 ∧
    (identOf b).2.pos + 5 ≤ (readHigh (identOf b).1 (identOf b).2).2.pos ∧
    s.log2_max_frame_num_minus4 =
      (ReadUEGolomb (readHigh (identOf b).1 (identOf b).2).2).1 := by
  obtain ⟨h1, h2, h3, h4⟩ := DecodeSPS_high h hp
  simp only [SPS.gChroma, Prod.mk.injEq] at h2
  have hc : (chromaOf b).1.1.chroma_format_idc = (ReadUEGolomb (identOf b).2).1 := by
    unfold chromaOf
    exact readChroma_format _ _
  exact ⟨h1, h2.1, h2.2.1, h2.2.2.1, h2.2.2.2.1, h2.2.2.2.2.1, h2.2.2.2.2.2,
    by rw [h2.1, hc], h3, h4⟩

/-- C14: the chroma and bit-depth group is read exactly for the profiles of
the case list. For any other profile the `switch` consumes nothing and
changes nothing; in a returned record of such a profile
`log2_max_frame_num_minus4` is the unsigned Exp-Golomb value read at the
cursor that `seq_parameter_set_id` left, and the six fields of the group are
0. For a profile of the list the `switch` reads the six fields in order from
the cursor (at least five single-bit reads), then the scaling-list flags
when the matrix flag is set; in a returned record of such a profile the six
fields are the values read after `seq_parameter_set_id`, the cursor has
advanced by five bits or more, and `log2_max_frame_num_minus4` is read
after them. -/
theorem profile_gating :
    (∀ (s : SPS) (r : Reader), s.profile_idc ∉ highProfiles → readHigh s r = (some s, r)) ∧
    (∀ (s : SPS) (r : Reader), s.profile_idc ∈ highProfiles →
      readHigh s r =
        (if (readChroma s r).1.1.seq_scaling_matrix_present_flag ≠ 0 then
          if (readScalingFlags (readChroma s r).1.2 (readChroma s r).2).1 = true then
            (none, (readScalingFlags (readChroma s r).1.2 (readChroma s r).2).2)
          else
            (some (readChroma s r).1.1,
              (readScalingFlags (readChroma s r).1.2 (readChroma s r).2).2)
        else (some (readChroma s r).1.1, (readChroma s r).2)) ∧
      r.ticks + 5 ≤ (readHigh s r).2.ticks ∧
      (∀ s', (readHigh s r).1 = some s' →
        s' = (readChroma s r).1.1 ∧ s'.chroma_format_idc = (ReadUEGolomb r).1)) ∧
    (∀ (s : SPS) (r : Reader),
      (readChroma s r).1.1 =
        { s with
          chroma_format_idc := (ReadUEGolomb r).1,
          separate_colour_plane_flag :=
            (if (ReadUEGolomb r).1 = 3 then (ReadBit (ReadUEGolomb r).2).1
             else s.separate_colour_plane_flag),
          bit_depth_luma_minus8 := (ReadUEGolomb (lumaCursor r)).1,
          bit_depth_chroma_minus8 := (ReadUEGolomb (ReadUEGolomb (lumaCursor r)).2).1,
          qpprime_y_zero_transform_bypass_flag :=
            (ReadBit (ReadUEGolomb (ReadUEGolomb (lumaCursor r)).2).2).1,
          seq_scaling_matrix_present_flag :=
            (ReadBit (ReadBit (ReadUEGolomb (ReadUEGolomb (lumaCursor r)).2).2).2).1 } ∧
      (readChroma s r).2 =
        (ReadBit (ReadBit (ReadUEGolomb (ReadUEGolomb (lumaCursor r)).2).2).2).2) ∧
    (∀ (b : List Nat) (s : SPS), DecodeSPS b = some s → s.profile_idc ∉ highProfiles →
      (identOf b).1.seq_parameter_set_id =
          (ReadUEGolomb (ReadByte (ReadByte (ReadByte (afterHeader b)).2).2).2).1 ∧
        (identOf b).2 =
          (ReadUEGolomb (ReadByte (ReadByte (ReadByte (afterHeader b)).2).2).2).2 ∧
        s.seq_parameter_set_id = (identOf b).1.seq_parameter_set_id ∧
        s.log2_max_frame_num_minus4 = (ReadUEGolomb (identOf b).2).1 ∧
        s.chroma_format_idc = 0 ∧ s.separate_colour_plane_flag = 0 ∧
        s.bit_depth_luma_minus8 = 0 ∧ s.bit_depth_chroma_minus8 = 0 ∧
        s.qpprime_y_zero_transform_bypass_flag = 0 ∧
        s.seq_scaling_matrix_present_flag = 0) ∧
    (∀ (b : List Nat) (s : SPS), DecodeSPS b = some s → s.profile_idc ∈ highProfiles →
      (identOf b).1.profile_idc ∈ highProfiles ∧
      s.chroma_format_idc = (chromaOf b).1.1.chroma_format_idc ∧
      s.separate_colour_plane_flag = (chromaOf b).1.1.separate_colour_plane_flag ∧
      s.bit_depth_luma_minus8 = (chromaOf b).1.1.bit_depth_luma_minus8 ∧
      s.bit_depth_chroma_minus8 = (chromaOf b).1.1.bit_depth_chroma_minus8 ∧
      s.qpprime_y_zero_transform_bypass_flag =
        (chromaOf b).1.1.qpprime_y_zero_transform_bypass_flag ∧
      s.seq_scaling_matrix_present_flag = (chromaOf b).1.1.seq_scaling_matrix_present_flag ∧
      s.chroma_format_idc = (ReadUEGolomb (identOf b).2).1 ∧
      (identOf b).2.pos + 5 ≤ (readHigh (identOf b).1 (identOf b).2).2.pos ∧
      s.log2_max_frame_num_minus4 =
        (ReadUEGolomb (readHigh (identOf b).1 (identOf b).2).2).1) :=
  ⟨readHigh_low, readHigh_high, readChroma_apply, fun _ _ h hp => DecodeSPS_low h hp,
    fun _ _ h hp => DecodeSPS_high_fields h hp⟩

/-- C14 at the Baseline SPS (profile 66, outside the list):
`log2_max_frame_num_minus4` is the code right after `seq_parameter_set_id`
and the chroma group is 0; and at a High profile SPS (profile 100):
`chroma_format_idc` 1 and the matrix flag 1 are read, the `switch` moves the
cursor from bit 33 to bit 48, and `log2_max_frame_num_minus4` is read
there. -/
theorem profile_gating_witness :
    (∃ s, DecodeSPS spsBaseline = some s ∧ s.profile_idc = 66 ∧
      s.log2_max_frame_num_minus4 = (ReadUEGolomb (identOf spsBaseline).2).1 ∧
      s.chroma_format_idc = 0 ∧ s.seq_scaling_matrix_present_flag = 0) ∧
    (∃ s, DecodeSPS spsFlags8 = some s ∧ s.profile_idc = 100 ∧
      s.chroma_format_idc = 1 ∧ s.seq_scaling_matrix_present_flag = 1 ∧
      (identOf spsFlags8).2.pos = 33 ∧
      (readHigh (identOf spsFlags8).1 (identOf spsFlags8).2).2.pos = 48 ∧
      s.log2_max_frame_num_minus4 =
        (ReadUEGolomb (readHigh (identOf spsFlags8).1 (identOf spsFlags8).2).2).1) := by
  constructor
  · cases hd : DecodeSPS spsBaseline with
    | none => exact absurd hd (by decide)
    | some s =>
      have hs : DecodeSPS spsBaseline = some s := hd
      have hk : (DecodeSPS spsBaseline).map (fun s => s.profile_idc) = some 66 := by decide
      rw [hs, Option.map_some'] at hk
      have h66 : s.profile_idc = 66 := Option.some.inj hk
      have hp : s.profile_idc ∉ highProfiles := by
        rw [h66]
        decide
      have h := profile_gating.2.2.2.1 spsBaseline s hs hp
      exact ⟨s, rfl, h66, h.2.2.2.1, h.2.2.2.2.1, h.2.2.2.2.2.2.2.2.2⟩
  · cases hd : DecodeSPS spsFlags8 with
    | none => exact absurd hd (by decide)
    | some s =>
      have hs : DecodeSPS spsFlags8 = some s := hd
      have hk : (DecodeSPS spsFlags8).map (fun s => s.profile_idc) = some 100 := by decide
      rw [hs, Option.map_some'] at hk
      have h100 : s.profile_idc = 100 := Option.some.inj hk
      have hp : s.profile_idc ∈ highProfiles := by
        rw [h100]
        decide
      have h := profile_gating.2.2.2.2 spsFlags8 s hs hp
      have c1 : (chromaOf spsFlags8).1.1.chroma_format_idc = 1 := by decide
      have c2 : (chromaOf spsFlags8).1.1.seq_scaling_matrix_present_flag = 1 := by decide
      exact ⟨s, rfl, h100, by rw [h.2.1, c1], by rw [h.2.2.2.2.2.2.1, c2], by decide,
        by decide, h.2.2.2.2.2.2.2.2.2⟩

end H264
